import Mathlib

/-!
Verification of the file-system and system-call core of the kernel.

A shallow embedding of `student-distrib/filesystem.c`, `systemcall.c`, `pcb.h`,
`terminals.c`, `paging.c`, `scheduling.c` and the write path of `rtc.c`.

Conventions of the embedding:

* `uint32_t` values are natural numbers; arithmetic that can wrap in C is written
  with an explicit reduction modulo `2 ^ 32`.
* `int32_t` values are integers.
* A byte buffer is a function from byte index to byte value.  A pointer that may be
  `NULL` is an `Option`.
* A C string is the list of bytes stored at the pointer; every byte past the end of
  the list reads as the NUL terminator.
* Loops whose termination is not structural carry a fuel argument; the calling
  function supplies the fuel and the theorems show that it always suffices.
* The system calls `open`, `read`, `write` and `close` appear as `sys_open`,
  `sys_read`, `sys_write` and `sys_close`, and the member `open` of the operations
  table as `open_`, because `open` is a keyword of Lean.
* Screen output (`printf`, `puts`) and the interrupt flag (`cli`, `sti`) are not part
  of the state.
-/

namespace Kernel

/-! ## Machine integers -/

/-- Number of values of a 32-bit word. -/
def WORD : Nat := 4294967296

/-- Unsigned 32-bit subtraction, wrapping around below zero. -/
def u32_sub (a b : Nat) : Nat := (a % WORD + WORD - b % WORD) % WORD

/-- Unsigned 32-bit addition, wrapping around. -/
def u32_add (a b : Nat) : Nat := (a + b) % WORD

/-- Value of a `uint32_t` converted to `int32_t`. -/
def to_int32 (a : Nat) : Int :=
  if a % WORD < 2147483648 then ((a % WORD : Nat) : Int) else ((a % WORD : Nat) : Int) - 4294967296

/-- Value of an `int32_t` converted to `uint32_t`. -/
def to_uint32 (a : Int) : Nat := (a % 4294967296).toNat

/-! ## Constants of `filesystem.h`, `pcb.h`, `systemcall.h`, `paging.h` -/

def BLOCK_SIZE : Nat := 4096
def NUM_DIR_ENTRIES : Nat := 63
def MAX_FILENAME_SIZE : Nat := 32
def MAX_NUM_DATA_BLOCKS : Nat := 1023

def FDA_SIZE : Nat := 8
def MAX_ARG_SEQ_SIZE : Nat := 32

def MAX_COMMAND_LEN : Nat := 100
def MAX_FILENAME_LEN : Nat := 32
def FD_MIN : Int := 2
def FD_MAX : Int := 7
def NOT_IN_USE : Nat := 0
def RTC_TYPE : Nat := 0
def DIR_TYPE : Nat := 1
def FILE_TYPE : Nat := 2
def STDIN_IDX : Int := 0
def STDOUT_IDX : Int := 1
def MAX_PROCESSES : Nat := 6
def PROGRAM_IMAGE_ADDR : Nat := 0x08048000
def PROGRAM_IMAGE_OFFSET : Nat := 24

def MB_8 : Nat := 0x00800000
def MB_4 : Nat := 0x00400000
def KB_8 : Nat := 0x2000
def KB_4 : Nat := 4096
def MB_128 : Nat := 0x8000000
def MB_132 : Nat := 0x8400000
def USER_PAGE : Nat := 32
def VIDEO_PAGE : Nat := 33
def VIDEO_ADDR : Nat := 0x000B8000
def PAGE_P : Nat := 1
def PAGE_RW : Nat := 2
def PAGE_US : Nat := 4
def PAGE_PS : Nat := 128
def MAX_TERMINALS : Nat := 3

/-! ## Byte buffers -/

/-- Memory reached through a byte pointer: index to byte value. -/
abbrev Buffer := Nat → Nat

/-- The library routine `memcpy(dst + at, src, n)`: `n` bytes of `src` are stored
at `dst[at ..]`, every other byte of `dst` is kept. -/
def memcpy (dst : Buffer) (pos : Nat) (src : Buffer) (n : Nat) : Buffer :=
  fun j => if pos ≤ j ∧ j < pos + n then src (j - pos) else dst j

/-! ## File-system image (`filesystem.h`) -/

/-- Directory entry: 32-byte name, file type, inode number. -/
structure dentry_t where
  filename : List Nat
  filetype : Nat
  inode_num : Nat
  deriving DecidableEq, Repr

/-- Boot block: the three counts and the directory entries. -/
structure boot_block_t where
  dir_count : Nat
  inode_count : Nat
  data_count : Nat
  direntries : Nat → dentry_t

/-- Inode block: length in bytes and the data-block numbers. -/
structure inode_t where
  length : Nat
  data_block_num : Nat → Nat

/-- The image in memory after `filesystem_init`: boot block at `fs_boot_block`,
inode blocks from `inode_addr`, data blocks from `datablock_addr`.  The globals
`num_entries`, `max_inodes` and `max_datablocks` are the three counts of the boot
block. -/
structure FileSystem where
  fs_boot_block : boot_block_t
  inodes : Nat → inode_t
  datablocks : Nat → Nat → Nat

def FileSystem.num_entries (fs : FileSystem) : Nat := fs.fs_boot_block.dir_count
def FileSystem.max_inodes (fs : FileSystem) : Nat := fs.fs_boot_block.inode_count
def FileSystem.max_datablocks (fs : FileSystem) : Nat := fs.fs_boot_block.data_count

/-! ## `read_data` -/

/-- The `while (bytes_copied < length)` loop of `read_data`. -/
def read_data_loop (fs : FileSystem) (found_inode : inode_t) (block_offset length : Nat) :
    Nat → Nat → Nat → Buffer → Option (Int × Buffer)
  | 0, _, _, _ => none
  | fuel + 1, i, bytes_copied, buf =>
    if bytes_copied < length then
      let copy_size :=
        if length - bytes_copied < BLOCK_SIZE then length - bytes_copied else BLOCK_SIZE
      let block_index := found_inode.data_block_num (u32_add i block_offset)
      if block_index > u32_sub fs.max_datablocks 1 then some (-1, buf)
      else
        read_data_loop fs found_inode block_offset length fuel (i + 1)
          (u32_add bytes_copied copy_size)
          (memcpy buf bytes_copied (fs.datablocks block_index) copy_size)
    else some (to_int32 bytes_copied, buf)

/-- The function `read_data(inode, offset, buf, length)`.  The result is the returned
`int32_t` together with the buffer contents after the call (`none` for a null
buffer).  The loop receives `length + 1` rounds of fuel; every round copies at least
one byte, so it cannot use them up. -/
def read_data (fs : FileSystem) (inode offset : Nat) (buf : Option Buffer) (length : Nat) :
    Option (Int × Option Buffer) :=
  if inode > u32_sub fs.max_inodes 1 then some (-1, buf)
  else
    match buf with
    | none => some (-1, none)
    | some b =>
      let found_inode := fs.inodes inode
      if offset ≥ found_inode.length then some (-1, some b)
      else
        let length :=
          if length > found_inode.length - offset then found_inode.length - offset else length
        let block_offset := offset / BLOCK_SIZE
        let byte_offset := offset % BLOCK_SIZE
        let copy_size :=
          if length < BLOCK_SIZE - byte_offset then length else BLOCK_SIZE - byte_offset
        let block_index := found_inode.data_block_num block_offset
        if block_index > u32_sub fs.max_datablocks 1 then some (-1, some b)
        else
          let b1 := memcpy b 0 (fun j => fs.datablocks block_index (byte_offset + j)) copy_size
          (read_data_loop fs found_inode block_offset length (length + 1) 1 copy_size b1).map
            (fun r => (r.1, some r.2))

/-- Contents of the file of an inode: byte `k` of the file is byte `k % 4096` of the
`k / 4096`-th data block listed in the inode, for `k` below the inode's length. -/
def file_bytes (fs : FileSystem) (inode : Nat) : List Nat :=
  (List.range (fs.inodes inode).length).map
    (fun k => fs.datablocks ((fs.inodes inode).data_block_num (k / BLOCK_SIZE)) (k % BLOCK_SIZE))

/-- A small image used to exercise the theorems: one directory entry named `a` of
type 2 whose inode 0 holds 5000 bytes in data blocks 1 and 0 (in that order); the
file starts with the four magic bytes of an executable. -/
def demo_fs : FileSystem where
  fs_boot_block :=
    { dir_count := 1, inode_count := 1, data_count := 2,
      direntries := fun _ => { filename := [97], filetype := 2, inode_num := 0 } }
  inodes := fun _ => { length := 5000, data_block_num := fun k => if k = 0 then 1 else 0 }
  datablocks := fun b j =>
    if b = 1 then
      (if j = 0 then 127 else if j = 1 then 69 else if j = 2 then 76 else if j = 3 then 70
       else j % 256)
    else (j * 7) % 256

/-! ## C strings (`lib.c`) -/

/-- Value of a byte read through an `int8_t` pointer. -/
def to_int8 (c : Nat) : Int := if c % 256 < 128 then ((c % 256 : Nat) : Int) else ((c % 256 : Nat) : Int) - 256

/-- Value of an `int32_t` converted to `uint8_t`. -/
def to_uint8 (a : Int) : Nat := (a % 256).toNat

/-- Modelled from the spec: the library routine `strlen` of `lib.c`, which is not part
of the sources at hand; it counts the bytes before the first NUL. -/
def strlen : List Nat → Nat
  | [] => 0
  | c :: cs => if c = 0 then 0 else strlen cs + 1

/-- Modelled from the spec: the library routine `strncmp` of `lib.c`, which is not
part of the sources at hand (the lookup compares up to 32 bytes); it walks both strings for at most `n` bytes and
returns the difference of the first pair of bytes that differ, or zero when the
strings agree up to their common terminator or for `n` bytes. -/
def strncmp : List Nat → List Nat → Nat → Int
  | _, _, 0 => 0
  | s1, s2, n + 1 =>
    if s1.headD 0 ≠ s2.headD 0 ∨ s1.headD 0 = 0 then to_int8 (s1.headD 0) - to_int8 (s2.headD 0)
    else strncmp s1.tail s2.tail n

/-- Modelled from the spec: the library routine `strncpy` of `lib.c`, which is not
part of the sources at hand; it writes exactly `n` bytes, the bytes of `src` before its
terminator followed by NUL padding. -/
def strncpy : List Nat → Nat → List Nat
  | _, 0 => []
  | [], n + 1 => 0 :: strncpy [] n
  | c :: cs, n + 1 => if c = 0 then 0 :: strncpy [] n else c :: strncpy cs n

/-! ## Directory lookup -/

/-- The `for (i = 0; i < num_entries; i++)` loop of `read_dentry_by_name`; the first
argument counts the entries still to visit.  The result is the index of the first
entry whose comparison result, stored in a `uint8_t`, is zero. -/
def read_dentry_by_name_loop (fs : FileSystem) (fname : List Nat) : Nat → Nat → Option Nat
  | 0, _ => none
  | n + 1, i =>
    let entry_filename := (fs.fs_boot_block.direntries i).filename
    let filename_differences := to_uint8 (strncmp entry_filename fname MAX_FILENAME_SIZE)
    if filename_differences = 0 then some i
    else read_dentry_by_name_loop fs fname n (i + 1)

/-- The function `read_dentry_by_name(fname, dentry)`: the returned value and the
contents of `*dentry` after the call. -/
def read_dentry_by_name (fs : FileSystem) (fname : Option (List Nat)) (dentry : Option dentry_t) :
    Int × Option dentry_t :=
  match fname, dentry with
  | none, _ => (-1, dentry)
  | some _, none => (-1, none)
  | some name, some d =>
    if strlen name > MAX_FILENAME_SIZE then (-1, some d)
    else
      match read_dentry_by_name_loop fs name fs.num_entries 0 with
      | some i =>
        (0, some { filename := strncpy name MAX_FILENAME_SIZE,
                   filetype := (fs.fs_boot_block.direntries i).filetype,
                   inode_num := (fs.fs_boot_block.direntries i).inode_num })
      | none => (-1, some d)

/-- The string held in a name field or queried, as compared over at most 32 bytes:
its first 32 bytes, cut at the first NUL. -/
def name32 (s : List Nat) : List Nat := (s.take 32).takeWhile (fun c => c ≠ 0)

/-! ## Process control block (`pcb.h`) -/

/-- The functions of type `int32_t (*)(const uint8_t*)` stored in operations tables. -/
inductive open_fn
  | rtc_open | directory_open | file_open | terminal_open
  deriving DecidableEq, Repr

/-- The functions of type `int32_t (*)(int32_t, void*, int32_t)` stored in operations
tables. -/
inductive read_fn
  | rtc_read | directory_read | file_read | terminal_read
  deriving DecidableEq, Repr

/-- The functions of type `int32_t (*)(int32_t, const void*, int32_t)` stored in
operations tables. -/
inductive write_fn
  | rtc_write | directory_write | file_write | terminal_write
  deriving DecidableEq, Repr

/-- The functions of type `int32_t (*)(int32_t)` stored in operations tables. -/
inductive close_fn
  | rtc_close | directory_close | file_close | terminal_close
  deriving DecidableEq, Repr

/-- Jump table of file operations; `none` is a null function pointer.  The field
`open_` is the member `open` of the C record. -/
structure file_ops where
  open_ : Option open_fn
  read : Option read_fn
  write : Option write_fn
  close : Option close_fn
  deriving DecidableEq, Repr

/-- Open-file entry of the descriptor array. -/
structure open_file where
  fops_table : file_ops
  inode : Nat
  file_position : Nat
  flags : Nat
  deriving DecidableEq, Repr

/-- Process control block.  `file_array` is indexed by the C array index; indices
outside `0..7` stand for the memory next to the array.  `parent` and `child` are
addresses of PCBs (0 is the null pointer). -/
structure PCB where
  esp : Nat
  ebp : Nat
  eip : Nat
  file_array : Int → open_file
  parent : Nat
  child : Nat
  exe_args : Nat → Nat
  pid : Nat
  tid : Nat

def rtc_fops : file_ops :=
  ⟨some .rtc_open, some .rtc_read, some .rtc_write, some .rtc_close⟩
def dir_fops : file_ops :=
  ⟨some .directory_open, some .directory_read, some .directory_write, some .directory_close⟩
def file_fops : file_ops :=
  ⟨some .file_open, some .file_read, some .file_write, some .file_close⟩
def terminal_fops : file_ops :=
  ⟨some .terminal_open, some .terminal_read, some .terminal_write, some .terminal_close⟩
def stdin_fops : file_ops :=
  ⟨some .terminal_open, some .terminal_read, none, some .terminal_close⟩
def stdout_fops : file_ops :=
  ⟨some .terminal_open, none, some .terminal_write, some .terminal_close⟩

/-! ## Terminals and kernel state -/

/-- Terminal record of `terminals.h`.  `pid` is a `uint32_t`, so the value -1 written
by `terminal_init` is stored as `2 ^ 32 - 1`; `running_processes` is a `uint8_t`. -/
structure terminal where
  id : Nat
  running_processes : Nat
  pid : Nat
  pcb : Nat
  screen_x : Int
  screen_y : Int
  video_mem : Nat
  kbd_buffer : Nat → Nat
  buffer_idx : Nat

/-- The global variables of the kernel together with the memory they point into. -/
structure KState where
  /-- the file-system image found by `filesystem_init` -/
  fs : FileSystem
  opfile_inode : Int
  opfile_bytes_read : Int
  dir_index : Int
  /-- `pid_status[MAX_PROCESSES]` -/
  pid_status : Nat → Int
  cur_terminal : Nat
  display_terminal : Nat
  terminals : Nat → terminal
  /-- `page_directory.tables` -/
  page_directory : Nat → Nat
  /-- `user_table.pages` -/
  user_table : Nat → Nat
  tss_ss0 : Nat
  tss_esp0 : Nat
  /-- kernel memory viewed as PCB records, by address -/
  pcb_mem : Nat → PCB
  /-- physical memory of the user pages, by physical address -/
  phys_mem : Nat → Nat

/-- Modelled from the spec: the assembly routine `get_PCB` declared in `pcb.h`, which
is not part of the sources at hand; it returns the address `8 MiB - 8 KiB * (pid + 1)`
for the running pid of the current terminal. -/
def get_PCB (s : KState) : Nat :=
  u32_sub MB_8 (KB_8 * ((s.terminals s.cur_terminal).pid + 1))

/-- Store a PCB record at an address. -/
def KState.store_pcb (s : KState) (addr : Nat) (pcb : PCB) : KState :=
  { s with pcb_mem := Function.update s.pcb_mem addr pcb }

/-! ## Regular-file operations -/

/-- The function `file_read(fd, buf, nbytes)`: returned value, state and buffer after
the call. -/
def file_read (s : KState) (fd : Int) (buf : Option Buffer) (nbytes : Int) :
    Option (Int × KState × Option Buffer) :=
  if buf.isNone ∨ nbytes < 0 then some (-1, s, buf)
  else
    let pcb := s.pcb_mem (get_PCB s)
    let found_inode := s.fs.inodes (pcb.file_array fd).inode
    if (pcb.file_array fd).file_position ≥ found_inode.length then some (0, s, buf)
    else
      match read_data s.fs (pcb.file_array fd).inode (pcb.file_array fd).file_position buf
          (to_uint32 nbytes) with
      | none => none
      | some (bytes_read, out) =>
        let entry := pcb.file_array fd
        let pcb1 := { pcb with
          file_array := Function.update pcb.file_array fd
            { entry with file_position := to_uint32 ((entry.file_position : Int) + bytes_read) } }
        some (bytes_read, s.store_pcb (get_PCB s) pcb1, out)

/-- The function `file_write`. -/
def file_write (_fd : Int) (_buf : Option Buffer) (_nbytes : Int) : Int := -1

/-- Repeated reading in the manner of `file_system_test`: `k` successive calls of
`file_read` with the same chunk size, collecting the returned counts and the bytes
each call delivered. -/
def file_read_repeat (fd : Int) (nbytes : Int) : Nat → KState → Option (List Int × List Nat × KState)
  | 0, s => some ([], [], s)
  | k + 1, s =>
    match file_read s fd (some (fun _ => 0)) nbytes with
    | some (r, s1, some out) =>
      match file_read_repeat fd nbytes k s1 with
      | some (rs, bytes, s2) => some (r :: rs, (List.range r.toNat).map out ++ bytes, s2)
      | none => none
    | _ => none

/-- A descriptor of the current process refers to inode `ino` at position `p`. -/
def descriptor_at (s : KState) (fd : Int) (ino p : Nat) : Prop :=
  ((s.pcb_mem (get_PCB s)).file_array fd).inode = ino ∧
  ((s.pcb_mem (get_PCB s)).file_array fd).file_position = p

/-- Well-formedness of the file of an inode: the counts are 32-bit values, the inode
exists, its length fits the 1023 block slots and each block of the file exists. -/
def file_ok (fs : FileSystem) (inode : Nat) : Prop :=
  fs.max_inodes < WORD ∧ fs.max_datablocks < WORD ∧ inode < fs.max_inodes ∧
  (fs.inodes inode).length ≤ 1023 * 4096 ∧
  ∀ k, k * 4096 < (fs.inodes inode).length →
    (fs.inodes inode).data_block_num k < fs.max_datablocks

/-- A PCB used to exercise the theorems: stdin, stdout, and descriptor 2 open on the
file of inode 0 at position 0; descriptors 3..7 unused. -/
def demo_pcb : PCB where
  esp := 0
  ebp := 0
  eip := 0
  file_array := fun fd =>
    if fd = 0 then ⟨stdin_fops, 0, 0, 1⟩
    else if fd = 1 then ⟨stdout_fops, 0, 0, 1⟩
    else if fd = 2 then ⟨file_fops, 0, 0, 1⟩
    else ⟨⟨none, none, none, none⟩, 0, 0, 0⟩
  parent := 0
  child := 0
  exe_args := fun _ => 0
  pid := 0
  tid := 0

/-- A kernel state used to exercise the theorems: the demo image, terminal 0 running
pid 0, terminals 1 and 2 never launched. -/
def demo_state : KState where
  fs := demo_fs
  opfile_inode := -1
  opfile_bytes_read := -1
  dir_index := 0
  pid_status := fun i => if i = 0 then 1 else 0
  cur_terminal := 0
  display_terminal := 0
  terminals := fun t =>
    { id := t, running_processes := if t = 0 then 1 else 0,
      pid := if t = 0 then 0 else 4294967295,
      pcb := if t = 0 then 0x7FE000 else 0,
      screen_x := 0, screen_y := 0, video_mem := VIDEO_ADDR + KB_4 * (t + 1),
      kbd_buffer := fun _ => 0, buffer_idx := 0 }
  page_directory := fun _ => 0
  user_table := fun _ => 0
  tss_ss0 := 0
  tss_esp0 := 0
  pcb_mem := fun _ => demo_pcb
  phys_mem := fun _ => 0

/-! ## File operations called by `open` and `close` -/

/-- Contents given to a `dentry_t` local before `read_dentry_by_name` fills it; the
callers read the local only after a successful lookup has overwritten it. -/
def uninit_dentry : dentry_t := ⟨[], 0, 0⟩

/-- Update one PCB record in place. -/
def KState.modify_pcb (s : KState) (addr : Nat) (f : PCB → PCB) : KState :=
  { s with pcb_mem := Function.update s.pcb_mem addr (f (s.pcb_mem addr)) }

/-- Update one entry of the descriptor array of a PCB. -/
def PCB.modify_fd (pcb : PCB) (fd : Int) (f : open_file → open_file) : PCB :=
  { pcb with file_array := Function.update pcb.file_array fd (f (pcb.file_array fd)) }

/-- The function `rtc_open`. -/
def rtc_open (_filename : Option (List Nat)) : Int := 0

/-- The function `directory_open(filename)`. -/
def directory_open (s : KState) (filename : Option (List Nat)) : Int × KState :=
  match filename with
  | none => (-1, s)
  | some name =>
    let r := read_dentry_by_name s.fs (some name) (some uninit_dentry)
    if r.1 = 0 then
      if (r.2.getD uninit_dentry).filetype = 1 then (0, { s with dir_index := 0 })
      else (-1, s)
    else (-1, s)

/-- The function `file_open(filename)`. -/
def file_open (s : KState) (filename : Option (List Nat)) : Int × KState :=
  match filename with
  | none => (-1, s)
  | some name =>
    let r := read_dentry_by_name s.fs (some name) (some uninit_dentry)
    if r.1 = 0 then
      (0, { s with opfile_inode := to_int32 (r.2.getD uninit_dentry).inode_num,
                   opfile_bytes_read := 0 })
    else (-1, s)

/-- A call through a `close` pointer of an operations table: `rtc_close`,
`directory_close`, `file_close` and `terminal_close`. -/
def call_close (f : close_fn) (s : KState) (_fd : Int) : Int × KState :=
  match f with
  | .rtc_close => (0, s)
  | .directory_close => (0, { s with dir_index := -1 })
  | .file_close => (0, { s with opfile_inode := -1, opfile_bytes_read := -1 })
  | .terminal_close => (0, s)

/-! ## System calls `open`, `close`, `read`, `write` (`systemcall.c`) -/

/-- The descriptor search of `open`: `for (i = FD_MIN; i <= FD_MAX; i++)`.  The first
argument counts the iterations left; `some i` leaves the loop with index `i`, `none`
is the `return -1` inside the loop. -/
def open_scan (pcb : PCB) : Nat → Int → Option Int
  | 0, i => some i
  | n + 1, i =>
    if (pcb.file_array i).flags = NOT_IN_USE then some i
    else if i = FD_MAX then none
    else open_scan pcb n (i + 1)

/-- The system call `open(filename)`: returned value and state after the call. -/
def sys_open (s : KState) (filename : Option (List Nat)) : Int × KState :=
  match filename with
  | none => (-1, s)
  | some name =>
    let pcb := (s.terminals s.cur_terminal).pcb
    let r := read_dentry_by_name s.fs (some name) (some uninit_dentry)
    if r.1 = -1 then (-1, s)
    else
      let dentry := r.2.getD uninit_dentry
      match open_scan (s.pcb_mem pcb) 6 FD_MIN with
      | none => (-1, s)
      | some i =>
        let finish := fun (s1 : KState) =>
          (i, s1.modify_pcb pcb (fun q =>
            (q.modify_fd i (fun e => { e with file_position := 0 })).modify_fd i
              (fun e => { e with flags := 1 })))
        if dentry.filetype = RTC_TYPE then
          if rtc_open (some name) = -1 then (-1, s)
          else
            finish (s.modify_pcb pcb (fun q =>
              (q.modify_fd i (fun e => { e with fops_table := rtc_fops })).modify_fd i
                (fun e => { e with inode := 0 })))
        else if dentry.filetype = DIR_TYPE then
          let o := directory_open s (some name)
          if o.1 = -1 then (-1, o.2)
          else
            finish (o.2.modify_pcb pcb (fun q =>
              (q.modify_fd i (fun e => { e with fops_table := dir_fops })).modify_fd i
                (fun e => { e with inode := 0 })))
        else if dentry.filetype = FILE_TYPE then
          let o := file_open s (some name)
          if o.1 = -1 then (-1, o.2)
          else
            finish (o.2.modify_pcb pcb (fun q =>
              (q.modify_fd i (fun e => { e with fops_table := file_fops })).modify_fd i
                (fun e => { e with inode := dentry.inode_num })))
        else finish s

/-- The system call `close(fd)`.  The test `pcb->file_array == NULL` of the source
compares the address of an array member and is never true. -/
def sys_close (s : KState) (fd : Int) : Int × KState :=
  if fd < FD_MIN ∨ fd > FD_MAX then (-1, s)
  else
    let pcb := (s.terminals s.cur_terminal).pcb
    if ((s.pcb_mem pcb).file_array fd).flags = NOT_IN_USE then (-1, s)
    else
      match ((s.pcb_mem pcb).file_array fd).fops_table.close with
      | none => (-1, s)
      | some _ =>
        let s1 := s.modify_pcb pcb (fun q =>
          (q.modify_fd fd (fun e => { e with file_position := 0 })).modify_fd fd
            (fun e => { e with flags := NOT_IN_USE }))
        match ((s1.pcb_mem pcb).file_array fd).fops_table.close with
        | none => (-1, s1)
        | some f => call_close f s1 fd

/-- What a call through a `read` or `write` pointer of an operations table does:
returned value, state and buffer after the call.  The system calls `read` and `write`
are stated for every such behaviour of the functions behind the pointers. -/
structure fop_calls where
  call_read : read_fn → Int → Option Buffer → Int → KState → Int × KState × Option Buffer
  call_write : write_fn → Int → Option Buffer → Int → KState → Int × KState × Option Buffer

/-- The system call `read(fd, buf, nbytes)`.  As in `close`, the test
`pcb->file_array == NULL` of the source is never true. -/
def sys_read (ops : fop_calls) (s : KState) (fd : Int) (buf : Option Buffer) (nbytes : Int) :
    Int × KState × Option Buffer :=
  if fd < 0 ∨ fd > FD_MAX ∨ buf.isNone ∨ nbytes < 0 then (-1, s, buf)
  else
    let pcb := s.pcb_mem (s.terminals s.cur_terminal).pcb
    if (pcb.file_array fd).flags = NOT_IN_USE then (-1, s, buf)
    else
      match (pcb.file_array fd).fops_table.read with
      | none => (-1, s, buf)
      | some f => ops.call_read f fd buf nbytes s

/-- The system call `write(fd, buf, nbytes)`.  As in `close`, the test
`pcb->file_array == NULL` of the source is never true. -/
def sys_write (ops : fop_calls) (s : KState) (fd : Int) (buf : Option Buffer) (nbytes : Int) :
    Int × KState × Option Buffer :=
  if fd < 0 ∨ fd > FD_MAX ∨ buf.isNone ∨ nbytes < 0 then (-1, s, buf)
  else
    let pcb := s.pcb_mem (s.terminals s.cur_terminal).pcb
    if (pcb.file_array fd).flags = NOT_IN_USE then (-1, s, buf)
    else
      match (pcb.file_array fd).fops_table.write with
      | none => (-1, s, buf)
      | some f => ops.call_write f fd buf nbytes s

/-- Operations table that `open` installs for a file type in `{0, 1, 2}`. -/
def fops_of_type (filetype : Nat) : file_ops :=
  if filetype = RTC_TYPE then rtc_fops else if filetype = DIR_TYPE then dir_fops else file_fops

/-- Inode that `open` records for a directory entry: 0 for the RTC and directories,
the entry's inode for a regular file. -/
def inode_of_dentry (d : dentry_t) : Nat :=
  if d.filetype = FILE_TYPE then d.inode_num else 0

/-! ## `execute` (`systemcall.c`) and its helpers -/

/-- The loops `while (command[i] == ' ' && command[i] != '\0' && command[i] != '\n') i++`
of `execute`, on the part of the command from index `i` on. -/
def skip_spaces : List Nat → List Nat
  | [] => []
  | c :: cs => if c = 32 ∧ c ≠ 0 ∧ c ≠ 10 then skip_spaces cs else c :: cs

/-- The loop of `execute` that copies the first word into `filename`.  The second
argument is `filename[0 .. filename_len)`; the result is the word and the rest of the
command, or `none` for the `return -1` after "File name is too long". -/
def parse_filename : List Nat → List Nat → Option (List Nat × List Nat)
  | [], filename => some (filename, [])
  | c :: cs, filename =>
    if c ≠ 0 ∧ c ≠ 32 ∧ c ≠ 10 then
      if filename.length > MAX_FILENAME_LEN then none
      else parse_filename cs (filename ++ [c])
    else some (filename, c :: cs)

/-- The loop of `execute` that copies the argument tail into `args`.  The second
argument is `args[0 .. args_len)`; `none` is the `return -1` after "Argument sequence
is too long". -/
def parse_args : List Nat → List Nat → Option (List Nat)
  | [], args => some args
  | c :: cs, args =>
    if c ≠ 0 ∧ c ≠ 10 then
      if args.length > MAX_COMMAND_LEN then none
      else parse_args cs (args ++ [c])
    else some args

/-- The argument parsing of `execute`: the strings left in `filename` and `args`
(each followed by its NUL terminator), or `none` when the parser returns -1.  The two
arrays are separate lists here: a terminator stored one byte past the end of `args`
(index 101) is not shown in `filename`, its neighbour on the stack. -/
def execute_parse (command : List Nat) : Option (List Nat × List Nat) :=
  match parse_filename (skip_spaces command) [] with
  | none => none
  | some (filename, rest) =>
    match parse_args (skip_spaces rest) [] with
    | none => none
    | some args => some (filename, args)

/-- The function `is_executable(filename)`.  `ELF_chars` is the content of the
uninitialised local array of that name when the function is entered; the value
returned by `read_data` is not examined by the source. -/
def is_executable (fs : FileSystem) (filename : Option (List Nat)) (ELF_chars : Buffer) :
    Option Int :=
  match filename with
  | none => some (-1)
  | some name =>
    let r := read_dentry_by_name fs (some name) (some uninit_dentry)
    if r.1 = 0 then
      let dentry := r.2.getD uninit_dentry
      if dentry.filetype ≠ 2 then some (-1)
      else
        match read_data fs dentry.inode_num 0 (some ELF_chars) 4 with
        | none => none
        | some (_, out) =>
          let e := out.getD ELF_chars
          if e 0 = 127 ∧ e 1 = 69 ∧ e 2 = 76 ∧ e 3 = 70 then some 1 else some (-1)
    else some (-1)

/-- The loop of `find_avail_pid`; the first argument counts the slots left. -/
def find_avail_pid_loop (pid_status : Nat → Int) : Nat → Nat → Int
  | 0, _ => -1
  | n + 1, j => if pid_status j ≠ 1 then (j : Int) else find_avail_pid_loop pid_status n (j + 1)

/-- The function `find_avail_pid`. -/
def find_avail_pid (s : KState) : Int := find_avail_pid_loop s.pid_status MAX_PROCESSES 0

/-- The function `paging_syscall(pid)` of `paging.c`. -/
def paging_syscall (s : KState) (pid : Int) : KState :=
  let e0 := to_uint32 ((MB_8 : Int) + pid * (MB_4 : Int))
  let e1 := e0 ||| PAGE_P
  let e2 := e1 ||| PAGE_RW
  let e3 := e2 ||| PAGE_US
  let e4 := e3 ||| PAGE_PS
  { s with page_directory := Function.update s.page_directory USER_PAGE e4 }

/-- Physical address behind a virtual address of the user page at 128 MiB, through
slot 32 of the page directory (a 4 MiB page). -/
def user_phys (s : KState) (vaddr : Nat) : Nat :=
  s.page_directory USER_PAGE / MB_4 * MB_4 + (vaddr - MB_128)

/-- The function `copy_to_va(filename, virtualaddress, length)`.  The bytes that
`read_data` delivers are stored in physical memory behind the virtual address. -/
def copy_to_va (s : KState) (filename : Option (List Nat)) (virtualaddress length : Nat) :
    Option (Int × KState) :=
  match filename with
  | none => some (-1, s)
  | some name =>
    let r := read_dentry_by_name s.fs (some name) (some uninit_dentry)
    if r.1 = 0 then
      let base := user_phys s virtualaddress
      match read_data s.fs (r.2.getD uninit_dentry).inode_num 0
          (some (fun j => s.phys_mem (base + j))) length with
      | none => none
      | some (_, out) =>
        let mem := fun a =>
          if base ≤ a then (out.getD (fun j => s.phys_mem (base + j))) (a - base)
          else s.phys_mem a
        some (0, { s with phys_mem := mem })
    else some (-1, s)

/-- Replace byte `k` (0 is the least significant) of a little-endian 32-bit word. -/
def set_byte (w k b : Nat) : Nat :=
  w - (w / 256 ^ k % 256) * 256 ^ k + (b % 256) * 256 ^ k

/-- Store one byte at `&pcb->exe_args[0] + i`.  The record ends with
`exe_args[32]`, `pid`, `tid` (offsets 0, 32 and 36 from `exe_args`); a byte stored
past the record lands in the kernel stack above the PCB and is not part of it. -/
def PCB.store_arg_byte (pcb : PCB) (i b : Nat) : PCB :=
  if i < MAX_ARG_SEQ_SIZE then { pcb with exe_args := Function.update pcb.exe_args i b }
  else if i < 36 then { pcb with pid := set_byte pcb.pid (i - 32) b }
  else if i < 40 then { pcb with tid := set_byte pcb.tid (i - 36) b }
  else pcb

/-- Modelled from the spec: the library routine `strcpy` of `lib.c`, which is not part
of the sources at hand, applied to the destination `pcb->exe_args`; it copies the
argument string and its terminating NUL byte by byte, without a bound. -/
def strcpy_exe_args : PCB → Nat → List Nat → PCB
  | pcb, i, [] => pcb.store_arg_byte i 0
  | pcb, i, c :: cs =>
    if c = 0 then pcb.store_arg_byte i 0 else strcpy_exe_args (pcb.store_arg_byte i c) (i + 1) cs

/-- The PCB-creation block of `execute`: the record at the PCB address after `pid`,
`tid`, the stdin and stdout entries and the arguments have been written over its
previous contents `pcb`. -/
def execute_create_pcb (pcb : PCB) (cur_pid : Nat) (cur_terminal : Nat) (args : List Nat) : PCB :=
  let p1 := { pcb with pid := cur_pid }
  let p2 := { p1 with tid := cur_terminal }
  let p3 := p2.modify_fd STDIN_IDX (fun e => { e with fops_table := stdin_fops })
  let p4 := p3.modify_fd STDIN_IDX (fun e => { e with flags := 1 })
  let p5 := p4.modify_fd STDOUT_IDX (fun e => { e with fops_table := stdout_fops })
  let p6 := p5.modify_fd STDOUT_IDX (fun e => { e with flags := 1 })
  strcpy_exe_args p6 0 args

/-- Modelled from the spec: the constant `KERNEL_DS` of `x86_desc.h`, which is not part
of the sources at hand (the kernel-data selector stored in `ss0`); no statement below
depends on its value. -/
def KERNEL_DS : Nat := 0x0018

/-- How a call of `execute` ends: by returning a value, or by `iret_stack` entering
user mode at the entry point (the call then returns only through `halt`). -/
inductive exec_outcome
  | returned (v : Int)
  | entered_user (eip : Nat)
  deriving DecidableEq, Repr

/-- The block of `execute` that links the new PCB to its parent when the current
terminal already runs a process, and saves the stack registers in the parent.  The
array `terminals` has three entries: for a tid field above 2 (a PCB overwritten by a
long argument) the record read here stands for memory past the array and does not
tell what the machine finds there. -/
def execute_link_parent (s : KState) (pcb esp ebp : Nat) : KState :=
  if (s.terminals s.cur_terminal).pid ≠ 4294967295 then
    let parent_pcb := (s.terminals (s.pcb_mem pcb).tid).pcb
    let a := s.modify_pcb parent_pcb (fun q => { q with child := pcb })
    let b := a.modify_pcb pcb (fun q => { q with parent := parent_pcb })
    let c := b.modify_pcb parent_pcb (fun q => { q with esp := esp })
    c.modify_pcb parent_pcb (fun q => { q with ebp := ebp })
  else s

/-- The block of `execute` that updates the record of the current terminal and the
task-state segment. -/
def execute_update_terminal (s : KState) (cur_pid pcb : Nat) : KState :=
  let t := s.terminals s.cur_terminal
  let t1 := { t with pid := cur_pid }
  let t2 := { t1 with pcb := pcb }
  let t3 := { t2 with running_processes := (t2.running_processes + 1) % 256 }
  let s6 := { s with terminals := Function.update s.terminals s.cur_terminal t3 }
  { s6 with tss_ss0 := KERNEL_DS, tss_esp0 := MB_8 - KB_8 * cur_pid - 4 }

/-- The 32-bit little-endian word at `ENTRYPOINT`, the virtual address
`0x08048000 + 24`. -/
def entry_point (s : KState) : Nat :=
  let entry := user_phys s (PROGRAM_IMAGE_ADDR + PROGRAM_IMAGE_OFFSET)
  s.phys_mem entry + 256 * s.phys_mem (entry + 1) + 65536 * s.phys_mem (entry + 2)
    + 16777216 * s.phys_mem (entry + 3)

/-- The part of `execute` after the pid `cur_pid` has been found: claim the pid, map
the user page, load the file, build the PCB, update the terminal and the TSS, and
enter user mode. -/
def execute_launch (s : KState) (filename args : List Nat) (cur_pid esp ebp : Nat) :
    Option (exec_outcome × KState) :=
  let s1 := { s with pid_status := Function.update s.pid_status cur_pid 1 }
  let s2 := paging_syscall s1 cur_pid
  match copy_to_va s2 (some filename) PROGRAM_IMAGE_ADDR MB_4 with
  | none => none
  | some (_, s3) =>
    let pcb := MB_8 - KB_8 * (cur_pid + 1)
    let s4 := s3.modify_pcb pcb (fun q => execute_create_pcb q cur_pid s3.cur_terminal args)
    let s5 := execute_link_parent s4 pcb esp ebp
    let s7 := execute_update_terminal s5 cur_pid pcb
    let s8 := s7.modify_pcb pcb (fun q => { q with eip := entry_point s7 })
    some (.entered_user (s8.pcb_mem pcb).eip, s8)

/-- The function `execute(command)`.  `ELF_chars` is the stack content that
`is_executable` finds in its uninitialised array; `esp` and `ebp` are the register
values read by the inline assembly.  Output of `printf` and `puts` is not modelled. -/
def execute (s : KState) (command : Option (List Nat)) (ELF_chars : Buffer) (esp ebp : Nat) :
    Option (exec_outcome × KState) :=
  match command with
  | none => some (.returned (-1), s)
  | some cmd =>
    match execute_parse cmd with
    | none => some (.returned (-1), s)
    | some (filename, args) =>
      match is_executable s.fs (some filename) ELF_chars with
      | none => none
      | some r =>
        if r ≠ 1 then some (.returned (-1), s)
        else
          let cur_pid := find_avail_pid s
          if cur_pid = -1 then some (.returned (-1), s)
          else execute_launch s filename args cur_pid.toNat esp ebp

/-- A kernel state in which descriptor 2 of the running process is marked in use while
its operations table holds only null pointers, as `open` leaves an entry of zeroed PCB
memory when the directory entry has a file type other than 0, 1, 2. -/
def null_ops_state : KState :=
  { demo_state with
    pcb_mem := fun _ =>
      { demo_pcb with
        file_array := fun fd =>
          if fd = 2 then ⟨⟨none, none, none, none⟩, 0, 0, 1⟩ else demo_pcb.file_array fd } }

/-- Two PCB records agree on the fields that `execute` writes when it creates a PCB:
descriptor table, argument buffer, pid and tid. -/
def PCB.same_created_fields (a b : PCB) : Prop :=
  a.file_array = b.file_array ∧ a.exe_args = b.exe_args ∧ a.pid = b.pid ∧ a.tid = b.tid

/-- The four magic bytes of an executable, as stack content left where
`is_executable` keeps its array `ELF_chars` (for instance by an earlier call that
examined an executable). -/
def elf_magic : Buffer :=
  fun j => if j = 0 then 127 else if j = 1 then 69 else if j = 2 then 76 else if j = 3 then 70 else 0

/-- The demo state on an image whose only file, of type 2, is empty. -/
def empty_file_state : KState :=
  { demo_state with
    fs := { demo_fs with inodes := fun _ => { length := 0, data_block_num := fun _ => 0 } } }

/-- Sample behaviour of the functions behind the operations tables: every read
returns 7 and every write returns 9. -/
def demo_ops : fop_calls where
  call_read := fun _ _ buf _ s => (7, s, buf)
  call_write := fun _ _ buf _ s => (9, s, buf)

/-- Descriptors 0 and 1 of the running process are the stdin and stdout entries
installed by `execute`. -/
def std_descriptors (s : KState) : Prop :=
  ((s.pcb_mem (s.terminals s.cur_terminal).pcb).file_array 0).fops_table = stdin_fops ∧
  ((s.pcb_mem (s.terminals s.cur_terminal).pcb).file_array 0).flags = 1 ∧
  ((s.pcb_mem (s.terminals s.cur_terminal).pcb).file_array 1).fops_table = stdout_fops ∧
  ((s.pcb_mem (s.terminals s.cur_terminal).pcb).file_array 1).flags = 1

/-! ## Directory reading, device writes and `getargs` -/

/-- The function `read_dentry_by_index(index, dentry)`: the returned value and the
contents of `*dentry` after the call. -/
def read_dentry_by_index (fs : FileSystem) (index : Nat) (dentry : Option dentry_t) :
    Int × Option dentry_t :=
  if index > u32_sub fs.num_entries 1 then (-1, dentry)
  else
    match dentry with
    | none => (-1, none)
    | some _ =>
      (0, some { filename := strncpy (fs.fs_boot_block.direntries index).filename MAX_FILENAME_SIZE,
                 filetype := (fs.fs_boot_block.direntries index).filetype,
                 inode_num := (fs.fs_boot_block.direntries index).inode_num })

/-- The function `directory_read(fd, buf, nbytes)`: returned value, state and buffer
after the call.  In the source `strlen` runs over the 32-byte name field of the
local `dentry` and, when the field holds no NUL, on into the members behind it; the
count is capped at 32, so it is the count over the 32 bytes of the field. -/
def directory_read (s : KState) (_fd : Int) (buf : Option Buffer) (nbytes : Int) :
    Int × KState × Option Buffer :=
  if s.dir_index = -1 then (-1, s, buf)
  else
    match buf with
    | none => (-1, s, none)
    | some b =>
      if nbytes < 0 then (-1, s, some b)
      else
        let r := read_dentry_by_index s.fs (to_uint32 s.dir_index) (some uninit_dentry)
        if r.1 = 0 then
          let dentry := r.2.getD uninit_dentry
          let num_bytes_to_copy :=
            if strlen dentry.filename < MAX_FILENAME_SIZE then strlen dentry.filename
            else MAX_FILENAME_SIZE
          let copied := strncpy dentry.filename num_bytes_to_copy
          ((num_bytes_to_copy : Int), { s with dir_index := s.dir_index + 1 },
            some (fun j => if j < num_bytes_to_copy then copied.getD j 0 else b j))
        else (0, s, some b)

/-- The function `directory_write`. -/
def directory_write (_fd : Int) (_buf : Option Buffer) (_nbytes : Int) : Int := -1

/-- The function `rtc_set_freq(freq)`; the port output that programs the rate is not
modelled. -/
def rtc_set_freq (freq : Int) : Int :=
  if freq = 2 ∨ freq = 4 ∨ freq = 8 ∨ freq = 16 ∨ freq = 32 ∨ freq = 64 ∨ freq = 128 ∨
      freq = 256 ∨ freq = 512 ∨ freq = 1024 then 0
  else -1

/-- The `int32_t` stored little-endian in the first four bytes of a buffer. -/
def load_int32 (b : Buffer) : Int :=
  to_int32 (b 0 % 256 + 256 * (b 1 % 256) + 65536 * (b 2 % 256) + 16777216 * (b 3 % 256))

/-- The function `rtc_write(fd, buf, nbytes)`. -/
def rtc_write (_fd : Int) (buf : Option Buffer) (nbytes : Int) : Int :=
  match buf with
  | none => -1
  | some b => if nbytes ≠ 4 then -1 else rtc_set_freq (load_int32 b)

/-- Modelled from the spec: the constant `BUF_SIZE` of `lib.h`, which is not part of
the sources at hand; the line buffer of a terminal has 128 bytes. -/
def BUF_SIZE : Nat := 128

/-- The function `terminal_write(fd, buf, nbytes)` of `keyboard.c`; the characters it
prints are not part of the state. -/
def terminal_write (_fd : Int) (buf : Option Buffer) (nbytes : Int) : Int :=
  if buf.isNone ∨ nbytes < 0 ∨ nbytes > (BUF_SIZE : Int) then -1 else nbytes

/-- A call through a `write` pointer of an operations table: `rtc_write`,
`directory_write`, `file_write` and `terminal_write`. -/
def call_write (f : write_fn) (fd : Int) (buf : Option Buffer) (nbytes : Int) (s : KState) :
    Int × KState × Option Buffer :=
  match f with
  | .rtc_write => (rtc_write fd buf nbytes, s, buf)
  | .directory_write => (directory_write fd buf nbytes, s, buf)
  | .file_write => (file_write fd buf nbytes, s, buf)
  | .terminal_write => (terminal_write fd buf nbytes, s, buf)

/-- The byte at `&pcb->exe_args[0] + i`: the argument buffer, then the members `pid`
and `tid` that follow it in the record, then the memory `above` the record. -/
def PCB.arg_byte (pcb : PCB) (above : Buffer) (i : Nat) : Nat :=
  if i < MAX_ARG_SEQ_SIZE then pcb.exe_args i
  else if i < 36 then pcb.pid / 256 ^ (i - 32) % 256
  else if i < 40 then pcb.tid / 256 ^ (i - 36) % 256
  else above (i - 40)

/-- The system call `getargs(buf, nbytes)`: returned value and buffer after the call.
The test `pcb->exe_args == NULL` of the source compares the address of an array
member and is never true; `above` is the memory behind the PCB record, which
`strncpy` reaches only when the record holds no NUL from `exe_args` on. -/
def getargs (s : KState) (buf : Option Buffer) (nbytes : Int) (above : Buffer) :
    Int × Option Buffer :=
  match buf with
  | none => (-1, none)
  | some b =>
    if nbytes < 0 then (-1, some b)
    else
      let pcb := s.pcb_mem (s.terminals s.cur_terminal).pcb
      if pcb.exe_args 0 = 0 then (-1, some b)
      else
        let n := nbytes.toNat
        let copied := strncpy ((List.range n).map (pcb.arg_byte above)) n
        (0, some (fun j => if j < n then copied.getD j 0 else b j))

/-- An image with three directory entries: the directory `.` (type 1), the device
`rtc` (type 0) and the file `a` of the demo image (type 2). -/
def dev_fs : FileSystem :=
  { demo_fs with
    fs_boot_block :=
      { dir_count := 3, inode_count := 1, data_count := 2,
        direntries := fun i =>
          if i = 0 then { filename := [46], filetype := 1, inode_num := 0 }
          else if i = 1 then { filename := [114, 116, 99], filetype := 0, inode_num := 0 }
          else { filename := [97], filetype := 2, inode_num := 0 } } }

/-- The demo state on the image `dev_fs`. -/
def dev_state : KState := { demo_state with fs := dev_fs }

/-- A buffer that holds the 32-bit value 2, a frequency accepted by the RTC. -/
def freq_2 : Buffer := fun j => if j = 0 then 2 else 0

/-- The demo state with the argument string `abc` in the PCB of the running process. -/
def args_state : KState :=
  { demo_state with
    pcb_mem := fun _ =>
      { demo_pcb with
        exe_args := fun j => if j = 0 then 97 else if j = 1 then 98 else if j = 2 then 99 else 0 } }

/-- The demo image with the inode count of the boot block set to 0. -/
def no_inode_fs : FileSystem :=
  { demo_fs with fs_boot_block := { demo_fs.fs_boot_block with inode_count := 0 } }

/-- The demo image with the data-block count of the boot block set to 0. -/
def no_block_fs : FileSystem :=
  { demo_fs with fs_boot_block := { demo_fs.fs_boot_block with data_count := 0 } }

/-- State after `k` consecutive calls of `directory_read`; call number `i` (from 0) is
given the buffer `bufs i` and the count `nbytes i`. -/
def directory_read_repeat (s : KState) (fd : Int) (bufs : Nat → Buffer) (nbytes : Nat → Int) :
    Nat → KState
  | 0 => s
  | k + 1 =>
    (directory_read (directory_read_repeat s fd bufs nbytes k) fd (some (bufs k)) (nbytes k)).2.1

/-! ## Scheduler (`scheduling.c`) -/

/-- The condition of the `while` loop of `scheduler`: the terminal is skipped when it
runs no process or its pid is -1. -/
def scheduler_skips (t : terminal) : Prop :=
  t.running_processes = 0 ∨ t.pid = 4294967295

instance (t : terminal) : Decidable (scheduler_skips t) := by
  unfold scheduler_skips
  infer_instance

/-- The `while` loop of `scheduler`, started at `next_tid`; the first argument bounds
the number of iterations.  The result is `some none` when the loop leaves the function
through its `return`, `some (some t)` when it ends at terminal `t`, and `none` when the
bound is used up. -/
def scheduler_find (s : KState) : Nat → Nat → Option (Option Nat)
  | 0, _ => none
  | fuel + 1, next_tid =>
    if scheduler_skips (s.terminals next_tid) then
      let next := (next_tid + 1) % MAX_TERMINALS
      if next = s.cur_terminal then some none else scheduler_find s fuel next
    else some (some next_tid)

/-- The function `save_stack(pid)`; `esp` and `ebp` are the register values read by the
two `movl` instructions. -/
def save_stack (s : KState) (pid : Int) (esp ebp : Nat) : KState :=
  let pcb := to_uint32 ((MB_8 : Int) - (KB_8 : Int) * (pid + 1))
  let a := s.modify_pcb pcb (fun q => { q with esp := esp })
  a.modify_pcb pcb (fun q => { q with ebp := ebp })

/-- The function `video_paging` of `paging.c`; `user_table_addr` is the address of
`user_table.pages`. -/
def video_paging (s : KState) (user_table_addr : Nat) : KState :=
  let p0 :=
    if s.cur_terminal = s.display_terminal then VIDEO_ADDR
    else u32_add VIDEO_ADDR (KB_4 * (s.cur_terminal + 1))
  let p1 := p0 ||| PAGE_P
  let p2 := p1 ||| PAGE_RW
  let p3 := p2 ||| PAGE_US
  let s1 := { s with user_table := Function.update s.user_table 0 p3 }
  let d0 := user_table_addr
  let d1 := d0 ||| PAGE_P
  let d2 := d1 ||| PAGE_RW
  let d3 := d2 ||| PAGE_US
  { s1 with page_directory := Function.update s1.page_directory VIDEO_PAGE d3 }

/-- The function `restore_stack(pid)`: the state after the call and the values loaded
into `esp` and `ebp`. -/
def restore_stack (s : KState) (pid : Int) : (Nat × Nat) × KState :=
  let pcb := to_uint32 ((MB_8 : Int) - (KB_8 : Int) * (pid + 1))
  let s1 := { s with tss_ss0 := KERNEL_DS,
                     tss_esp0 := to_uint32 ((MB_8 : Int) - (KB_8 : Int) * pid - 4) }
  (((s1.pcb_mem pcb).esp, (s1.pcb_mem pcb).ebp), s1)

/-- The function `scheduler`.  `esp` and `ebp` are the registers at the call and
`fuel` bounds the iterations of the search loop.  The result holds the registers loaded
by `restore_stack`, or `none` when the function returns without a switch. -/
def scheduler (s : KState) (user_table_addr esp ebp fuel : Nat) :
    Option (Option (Nat × Nat) × KState) :=
  let cur_pid := to_int32 (s.terminals s.cur_terminal).pid
  if cur_pid = -1 then some (none, s)
  else
    match scheduler_find s fuel ((s.cur_terminal + 1) % MAX_TERMINALS) with
    | none => none
    | some none => some (none, s)
    | some (some next_tid) =>
      let s1 := save_stack s cur_pid esp ebp
      let s2 := { s1 with cur_terminal := next_tid }
      let cur_pid2 := to_int32 (s2.terminals s2.cur_terminal).pid
      let s3 := video_paging s2 user_table_addr
      let s4 := paging_syscall s3 cur_pid2
      let r := restore_stack s4 cur_pid2
      some (some r.1, r.2)

/-- The demo state with a second process, pid 1, running in terminal 1. -/
def two_terminal_state : KState :=
  { demo_state with
    pid_status := fun i => if i ≤ 1 then 1 else 0
    terminals := fun t =>
      { demo_state.terminals t with
        running_processes := if t ≤ 1 then 1 else 0
        pid := if t ≤ 1 then t else 4294967295
        pcb := if t ≤ 1 then MB_8 - KB_8 * (t + 1) else 0 } }

/-! ## The system call `halt` (`systemcall.c`) -/

/-- The loop `for (i = 0; i < FDA_SIZE; i++) if (pcb->file_array[i].flags) close(i);`
of `halt_extend`, started at index `i`; the second argument counts the iterations
left. -/
def halt_close_fds (s : KState) (pcb : Nat) : Nat → Int → KState
  | 0, _ => s
  | n + 1, i =>
    let s1 := if ((s.pcb_mem pcb).file_array i).flags ≠ 0 then (sys_close s i).2 else s
    halt_close_fds s1 pcb n (i + 1)

/-- The loop of `halt_extend` that stores 0 in the 32 bytes of `exe_args`. -/
def halt_clear_args (q : PCB) : PCB :=
  { q with exe_args := fun j => if j < MAX_ARG_SEQ_SIZE then 0 else q.exe_args j }

/-- How a call of `halt_extend` ends: the shell started for a terminal left without a
process enters user mode, or `halt_return` resumes the parent inside its call of
`execute`, which then returns `status`. -/
inductive halt_outcome
  | shell_entered (eip : Nat)
  | returned_to_parent (status : Int) (parent_pcb : Nat)
  deriving DecidableEq, Repr

/-- The part of `halt_extend` from `PCB* parent_pcb = pcb->parent` on.  A null
`pcb->parent` makes the stores through it updates of the record at address 0 here; on
the machine they are stores through a null pointer. -/
def halt_to_parent (s : KState) (pcb : Nat) (status : Int) : halt_outcome × KState :=
  let parent_pcb := (s.pcb_mem pcb).parent
  let s1 := s.modify_pcb parent_pcb (fun q => { q with child := 0 })
  let cur_pid := to_int32 (s1.pcb_mem parent_pcb).pid
  let tid := (s1.pcb_mem pcb).tid
  let t1 := { s1.terminals tid with pid := to_uint32 cur_pid }
  let s2 := { s1 with terminals := Function.update s1.terminals tid t1 }
  let t2 := { s2.terminals tid with pcb := parent_pcb }
  let s3 := { s2 with terminals := Function.update s2.terminals tid t2 }
  let s4 := paging_syscall s3 cur_pid
  let s5 := { s4 with tss_ss0 := KERNEL_DS,
                      tss_esp0 := to_uint32 ((MB_8 : Int) - (KB_8 : Int) * cur_pid - 4) }
  (.returned_to_parent status parent_pcb, s5)

/-- The part of `halt_extend` before the test of `running_processes`: the pid is
marked free, the descriptors are closed, the argument buffer is cleared and the count
of the terminal named by `pcb->tid` is decremented.  The store
`pid_status[cur_pid] = -1` with a negative `cur_pid` falls before the array and is not
represented. -/
def halt_release (s : KState) : KState :=
  let cur_pid := to_int32 (s.terminals s.cur_terminal).pid
  let pcb := (s.terminals s.cur_terminal).pcb
  let s1 :=
    if 0 ≤ cur_pid then { s with pid_status := Function.update s.pid_status cur_pid.toNat (-1) }
    else s
  let s2 := halt_close_fds s1 pcb FDA_SIZE 0
  let s3 := s2.modify_pcb pcb halt_clear_args
  let tid := (s3.pcb_mem pcb).tid
  let t := { s3.terminals tid with
             running_processes := ((s3.terminals tid).running_processes + 255) % 256 }
  { s3 with terminals := Function.update s3.terminals tid t }

/-- The function `halt_extend(status)`.  `ELF_chars`, `esp` and `ebp` are passed on to
the call of `execute` for the shell.  Output of `printf` is not modelled. -/
def halt_extend (s : KState) (status : Int) (ELF_chars : Buffer) (esp ebp : Nat) :
    Option (halt_outcome × KState) :=
  let pcb := (s.terminals s.cur_terminal).pcb
  let s4 := halt_release s
  if (s4.terminals (s4.pcb_mem pcb).tid).running_processes = 0 then
    match execute s4 (some [115, 104, 101, 108, 108]) ELF_chars esp ebp with
    | none => none
    | some (.entered_user eip, s5) => some (.shell_entered eip, s5)
    | some (.returned _, s5) => some (halt_to_parent s5 pcb status)
  else some (halt_to_parent s4 pcb status)

/-- What the descriptor-closing loop of `halt_extend` keeps: everything but the file
positions and flags of descriptors, the directory index and the open-file globals. -/
def close_frame (s s1 : KState) : Prop :=
  s1.fs = s.fs ∧ s1.pid_status = s.pid_status ∧ s1.cur_terminal = s.cur_terminal ∧
  s1.display_terminal = s.display_terminal ∧ s1.terminals = s.terminals ∧
  s1.page_directory = s.page_directory ∧ s1.tss_ss0 = s.tss_ss0 ∧ s1.tss_esp0 = s.tss_esp0 ∧
  ∀ a, (s1.pcb_mem a).pid = (s.pcb_mem a).pid ∧ (s1.pcb_mem a).tid = (s.pcb_mem a).tid ∧
    (s1.pcb_mem a).parent = (s.pcb_mem a).parent ∧
    (s1.pcb_mem a).exe_args = (s.pcb_mem a).exe_args ∧
    ∀ j, ((s1.pcb_mem a).file_array j).fops_table = ((s.pcb_mem a).file_array j).fops_table

/-- A child process, pid 1, of the process of the demo state in terminal 0; its
descriptor 2 is in use with an operations table of null pointers and its descriptor 3
is open on a regular file. -/
def child_state : KState :=
  { demo_state with
    pid_status := fun i => if i ≤ 1 then 1 else 0
    terminals := fun t =>
      { demo_state.terminals t with
        running_processes := if t = 0 then 2 else 0
        pid := if t = 0 then 1 else 4294967295
        pcb := if t = 0 then 0x7FC000 else 0 }
    pcb_mem := fun a =>
      if a = 0x7FC000 then
        { demo_pcb with
          file_array := fun fd =>
            if fd = 2 then ⟨⟨none, none, none, none⟩, 0, 0, 1⟩
            else if fd = 3 then ⟨file_fops, 0, 7, 1⟩ else demo_pcb.file_array fd
          parent := 0x7FE000
          exe_args := fun j => if j < 3 then 120 else 0
          pid := 1 }
      else { demo_pcb with child := 0x7FC000 } }

/-! ## Terminals (`terminals.c`) -/

/-- The function `terminal_init`. -/
def terminal_init (s : KState) : KState :=
  { s with
    terminals := fun i =>
      if i < MAX_TERMINALS then
        { id := i, running_processes := 0, pid := 4294967295, pcb := 0,
          screen_x := 0, screen_y := 0, video_mem := VIDEO_ADDR + KB_4 * (i + 1),
          kbd_buffer := fun j => if j < BUF_SIZE then 0 else (s.terminals i).kbd_buffer j,
          buffer_idx := 0 }
      else s.terminals i }

/-- An image with two directory entries, `shell` and `a`, both of type 2 on inode 0,
a file of 28 bytes in data block 1 that starts with the four magic bytes of an
executable and ends with the four bytes of the entry point. -/
def shell_fs : FileSystem :=
  { demo_fs with
    fs_boot_block :=
      { dir_count := 2, inode_count := 1, data_count := 2,
        direntries := fun i =>
          if i = 0 then { filename := [115, 104, 101, 108, 108], filetype := 2, inode_num := 0 }
          else { filename := [97], filetype := 2, inode_num := 0 } }
    inodes := fun _ => { length := 28, data_block_num := fun _ => 1 } }

/-- The kernel at boot on the image `shell_fs`: the globals hold their static
initial values and kernel memory is zero. -/
def boot_state : KState where
  fs := shell_fs
  opfile_inode := -1
  opfile_bytes_read := -1
  dir_index := -1
  pid_status := fun _ => 0
  cur_terminal := 0
  display_terminal := 0
  terminals := fun _ =>
    { id := 0, running_processes := 0, pid := 0, pcb := 0, screen_x := 0, screen_y := 0,
      video_mem := 0, kbd_buffer := fun _ => 0, buffer_idx := 0 }
  page_directory := fun _ => 0
  user_table := fun _ => 0
  tss_ss0 := 0
  tss_esp0 := 0
  pcb_mem := fun _ =>
    { esp := 0, ebp := 0, eip := 0, file_array := fun _ => ⟨⟨none, none, none, none⟩, 0, 0, 0⟩,
      parent := 0, child := 0, exe_args := fun _ => 0, pid := 0, tid := 0 }
  phys_mem := fun _ => 0

/-- The command `a` followed by an argument of 36 bytes: 32 letters `x` and four bytes
0xFF. -/
def long_args_command : List Nat := [97, 32] ++ List.replicate 32 120 ++ List.replicate 4 255

/-- Whether a call of `execute` ended by entering user mode. -/
def exec_outcome.entered : exec_outcome → Bool
  | .entered_user _ => true
  | .returned _ => false

/-! ## Sample states for failed reads -/

/-- The demo image with a damaged inode: every block index of the file is 5, beyond
the two data blocks of the image. -/
def bad_block_fs : FileSystem :=
  { demo_fs with inodes := fun _ => { length := 5000, data_block_num := fun _ => 5 } }

/-- The demo state on `bad_block_fs`, with descriptor 2 open on the file at position 10
and descriptor 3 open on it at position 0. -/
def bad_block_state : KState :=
  { demo_state with
    fs := bad_block_fs
    pcb_mem := fun _ =>
      { demo_pcb with
        file_array := fun fd =>
          if fd = 2 then ⟨file_fops, 0, 10, 1⟩
          else if fd = 3 then ⟨file_fops, 0, 0, 1⟩ else demo_pcb.file_array fd } }

/-! ## Stores of the parser of `execute` -/

/-- The stores into the array `filename[MAX_FILENAME_LEN + 1]` made by the first-word
loop of `execute` and by the statement `filename[filename_len] = 0` that follows it, in
program order, as pairs of index and byte.  The second argument is `filename_len`.
When the loop leaves through `return -1` the list holds the stores made until then. -/
def parse_filename_stores : List Nat → Nat → List (Nat × Nat)
  | [], filename_len => [(filename_len, 0)]
  | c :: cs, filename_len =>
    if c ≠ 0 ∧ c ≠ 32 ∧ c ≠ 10 then
      if filename_len > MAX_FILENAME_LEN then []
      else (filename_len, c) :: parse_filename_stores cs (filename_len + 1)
    else [(filename_len, 0)]

/-- The stores into the array `args[MAX_COMMAND_LEN + 1]` made by the argument loop of
`execute` and by the statement `args[args_len] = 0` that follows it. -/
def parse_args_stores : List Nat → Nat → List (Nat × Nat)
  | [], args_len => [(args_len, 0)]
  | c :: cs, args_len =>
    if c ≠ 0 ∧ c ≠ 10 then
      if args_len > MAX_COMMAND_LEN then []
      else (args_len, c) :: parse_args_stores cs (args_len + 1)
    else [(args_len, 0)]

/-- The stores that the argument parsing of `execute` makes into `filename` and into
`args`; the second list is empty when the first-word loop has returned -1. -/
def execute_parse_stores (command : List Nat) : List (Nat × Nat) × List (Nat × Nat) :=
  (parse_filename_stores (skip_spaces command) 0,
    match parse_filename (skip_spaces command) [] with
    | none => []
    | some (_, rest) => parse_args_stores (skip_spaces rest) 0)

/-! ## The system call `vidmap` (`systemcall.c`) -/

/-- A store of a 32-bit value through a pointer: the four bytes, least significant
first, at the addresses `addr .. addr + 3`. -/
def store32 (mem : Buffer) (addr value : Nat) : Buffer :=
  fun a =>
    if a = addr then value % 256
    else if a = addr + 1 then value / 256 % 256
    else if a = addr + 2 then value / 65536 % 256
    else if a = addr + 3 then value / 16777216 % 256
    else mem a

/-- The system call `vidmap(screen_start)`: returned value, state, and the memory of
the calling process by virtual address.  `screen_start` is the pointer value (0 is the
null pointer) and `user_table_addr` the address of `user_table.pages`. -/
def vidmap (s : KState) (user_table_addr : Nat) (vmem : Buffer) (screen_start : Nat) :
    Int × KState × Buffer :=
  if screen_start = 0 then (-1, s, vmem)
  else if screen_start ≥ MB_132 ∨ screen_start < MB_128 then (-1, s, vmem)
  else (0, video_paging s user_table_addr, store32 vmem screen_start MB_132)

/-! ## `terminal_read` (`keyboard.c`) -/

/-- The copy loop of `terminal_read`,
`for (i = 0; (i < BUF_SIZE-1) && (i < nbytes); i++)`, entered with index `i`; the first
argument bounds the number of iterations.  The result holds the final `i`, the flag
`found_newline` and the caller's buffer. -/
def terminal_read_loop (saved_kbd_buffer : Buffer) (nbytes : Nat) :
    Nat → Nat → Buffer → Nat × Bool × Buffer
  | 0, i, buf => (i, false, buf)
  | n + 1, i, buf =>
    if i < BUF_SIZE - 1 ∧ i < nbytes then
      let buf1 := Function.update buf i (saved_kbd_buffer i)
      if saved_kbd_buffer i = 10 then (i + 1, true, buf1)
      else terminal_read_loop saved_kbd_buffer nbytes n (i + 1) buf1
    else (i, false, buf)

/-- What a call of `terminal_read` leaves: the returned value, whether the call went
through its wait loop, the caller's buffer, and the globals `saved_kbd_buffer` and
`enter_status`. -/
structure read_outcome where
  ret : Int
  waited : Bool
  buf : Option Buffer
  saved_kbd_buffer : Buffer
  enter_status : Nat

/-- The function `terminal_read(fd, buf, nbytes)`.  `saved_kbd_buffer` is the content
of that global when the wait loop `while ((!enter_status) || ...)` is left, and
`enter_status` the value of that global at the call; a call that gets past the
argument check is described at the moment its wait ends. -/
def terminal_read (saved_kbd_buffer : Buffer) (enter_status : Nat) (_fd : Int)
    (buf : Option Buffer) (nbytes : Int) : read_outcome :=
  match buf with
  | none => ⟨-1, false, none, saved_kbd_buffer, enter_status⟩
  | some b =>
    if nbytes < 0 ∨ nbytes > (BUF_SIZE : Int) then ⟨-1, false, some b, saved_kbd_buffer, enter_status⟩
    else
      let r := terminal_read_loop saved_kbd_buffer nbytes.toNat (BUF_SIZE - 1) 0 b
      let cleared := fun j => if j < BUF_SIZE then 0 else saved_kbd_buffer j
      if r.1 = BUF_SIZE - 1 ∧ r.2.1 = false then
        ⟨((r.1 + 1 : Nat) : Int), true, some (Function.update r.2.2 r.1 10), cleared, 0⟩
      else ⟨(r.1 : Int), true, some r.2.2, cleared, 0⟩

/-- A snapshot of the line buffer that holds the line `ab` and its newline. -/
def line_ab : Buffer := fun j => if j = 0 then 97 else if j = 1 then 98 else if j = 2 then 10 else 0

/-! ## Order of the actions of a context switch (`scheduling.c`) -/

/-- The steps of `scheduler`, `save_stack` and `restore_stack` that touch the
interrupt flag, the stack registers, the paging structures or the TSS. -/
inductive sched_action
  /-- `cli()` -/
  | cli
  /-- `movl %esp` into the local and `pcb->esp = esp` -/
  | save_esp
  /-- `movl %ebp` into the local and `pcb->ebp = ebp` -/
  | save_ebp
  /-- `cur_terminal = next_tid` -/
  | set_cur_terminal
  /-- `video_paging()` -/
  | video_paging
  /-- `paging_syscall(cur_pid)` -/
  | paging_syscall
  /-- `tss.ss0 = KERNEL_DS; tss.esp0 = ...` -/
  | set_tss
  /-- `esp = pcb->esp; ebp = pcb->ebp` -/
  | read_pcb_stack
  /-- `sti()` -/
  | sti
  /-- `movl` of the local into `%esp` -/
  | load_esp
  /-- `movl` of the local into `%ebp` -/
  | load_ebp
  deriving DecidableEq, Repr

/-- The statements of `save_stack`, in program order. -/
def save_stack_actions : List sched_action := [.save_esp, .save_ebp]

/-- The statements of `restore_stack`, in program order. -/
def restore_stack_actions : List sched_action :=
  [.set_tss, .read_pcb_stack, .sti, .load_esp, .load_ebp]

/-- The actions of one call of `scheduler`, in program order; the list is empty when
the function returns before its `cli()`. -/
def scheduler_actions (s : KState) (fuel : Nat) : Option (List sched_action) :=
  if to_int32 (s.terminals s.cur_terminal).pid = -1 then some []
  else
    match scheduler_find s fuel ((s.cur_terminal + 1) % MAX_TERMINALS) with
    | none => none
    | some none => some []
    | some (some _) =>
      some ([.cli] ++ save_stack_actions ++ [.set_cur_terminal, .video_paging, .paging_syscall]
        ++ restore_stack_actions)

/-- The interrupt flag after a list of actions, from its value before them. -/
def interrupt_flag (start : Bool) : List sched_action → Bool
  | [] => start
  | .cli :: as => interrupt_flag false as
  | .sti :: as => interrupt_flag true as
  | _ :: as => interrupt_flag start as

/-! ## `paging_init` (`paging.c`) -/

def PAGE_LEN : Nat := 1024
def TABLE_LEN : Nat := 1024
def PAGE_PCD : Nat := 16
def PAGE_G : Nat := 256
def KERNEL_ADDR : Nat := 0x00400000
def VIDEO_LOCATION : Nat := 184

/-- The function `paging_init`: the state and the contents of `video_table.pages`
after the call.  `video_table` holds the contents before the call and
`video_table_addr` is the address of the array.  The call of `enable_paging`, which
loads the control registers, is not represented. -/
def paging_init (s : KState) (video_table : Nat → Nat) (video_table_addr : Nat) :
    KState × (Nat → Nat) :=
  let vt1 := fun i => if i < PAGE_LEN then KB_4 * i else video_table i
  let vt2 := fun j =>
    if VIDEO_LOCATION ≤ j ∧ j < VIDEO_LOCATION + (MAX_TERMINALS + 1) then
      (((u32_add VIDEO_ADDR (KB_4 * (j - VIDEO_LOCATION))) ||| PAGE_P) ||| PAGE_RW) ||| PAGE_PCD
    else vt1 j
  let d0 := ((video_table_addr ||| PAGE_P) ||| PAGE_RW) ||| PAGE_PCD
  let d1 := (((KERNEL_ADDR ||| PAGE_P) ||| PAGE_RW) ||| PAGE_PS) ||| PAGE_G
  let pd := fun i =>
    if i = 0 then d0 else if i = 1 then d1
    else if 2 ≤ i ∧ i < TABLE_LEN then 0 else s.page_directory i
  ({ s with page_directory := pd }, vt2)

/-- Address translation of the processor with 4 MiB pages enabled (this is not code of
the kernel): `addr` is mapped when its directory entry is present and either has the
page-size bit set or points to a page table whose entry for `addr` is present.
`table_at` gives the page table stored at an address. -/
def is_mapped (page_directory : Nat → Nat) (table_at : Nat → Nat → Nat) (addr : Nat) : Prop :=
  page_directory (addr / MB_4) % 2 = 1 ∧
    (page_directory (addr / MB_4) / PAGE_PS % 2 = 1 ∨
      table_at (page_directory (addr / MB_4) / KB_4 * KB_4) (addr / KB_4 % PAGE_LEN) % 2 = 1)

instance (page_directory : Nat → Nat) (table_at : Nat → Nat → Nat) (addr : Nat) :
    Decidable (is_mapped page_directory table_at addr) := by
  unfold is_mapped
  infer_instance

/-- The page tables in memory after `paging_init`: `video_table` at its address. -/
def tables_after_init (s : KState) (video_table : Nat → Nat) (video_table_addr : Nat) :
    Nat → Nat → Nat :=
  fun a => if a = video_table_addr then (paging_init s video_table video_table_addr).2
    else fun _ => 0

/-! ## `terminal_switch` (`terminals.c`) -/

/-- Modelled from the spec: the constant `VIDEO` of `lib.h`, which is not part of the
sources at hand; it is the address of the VGA text buffer, the value of `VIDEO_ADDR`. -/
def VIDEO : Nat := 0xB8000
/-- Modelled from the spec: the constant `NUM_ROWS` of `lib.h` (25 text rows). -/
def NUM_ROWS : Nat := 25
/-- Modelled from the spec: the constant `NUM_COLS` of `lib.h` (80 text columns). -/
def NUM_COLS : Nat := 80

/-- The globals of the screen and keyboard drivers that `terminal_switch` saves and
restores: the cursor, the line buffer and its index. -/
structure Console where
  screen_x : Int
  screen_y : Int
  kbd_buffer : Nat → Nat
  buffer_idx : Nat

/-- How a call of `terminal_switch` ends: it returns, or the shell it starts in a
terminal without a process enters user mode. -/
inductive switch_outcome
  | returned
  | shell_entered (eip : Nat)
  deriving DecidableEq, Repr

/-- The part of `terminal_switch` between its two early returns and the test of
`running_processes`: the displayed terminal is saved in its record and its backing
page, `display_terminal` becomes `tid`, the video page is remapped, and the cursor,
line buffer and screen of `tid` are made live.  `update_cursor`, which programs the
display controller, is not represented. -/
def terminal_switch_display (s : KState) (k : Console) (tid user_table_addr : Nat) :
    KState × Console :=
  let d := s.display_terminal
  let t1 := { s.terminals d with screen_x := k.screen_x }
  let t2 := { t1 with screen_y := k.screen_y }
  let t3 := { t2 with buffer_idx := k.buffer_idx }
  let t4 := { t3 with kbd_buffer := fun i => if i < BUF_SIZE then k.kbd_buffer i else t3.kbd_buffer i }
  let s1 := { s with terminals := Function.update s.terminals d t4 }
  let m1 := memcpy s1.phys_mem (s1.terminals d).video_mem (fun j => s1.phys_mem (VIDEO + j))
    (2 * NUM_ROWS * NUM_COLS)
  let s2 := { s1 with phys_mem := m1 }
  let s3 := { s2 with display_terminal := tid }
  let s4 := video_paging s3 user_table_addr
  let k1 : Console :=
    { screen_x := (s4.terminals tid).screen_x
      screen_y := (s4.terminals tid).screen_y
      buffer_idx := (s4.terminals tid).buffer_idx
      kbd_buffer := fun i => if i < BUF_SIZE then (s4.terminals tid).kbd_buffer i else k.kbd_buffer i }
  let m2 := memcpy s4.phys_mem VIDEO (fun j => s4.phys_mem ((s4.terminals tid).video_mem + j))
    (2 * NUM_ROWS * NUM_COLS)
  ({ s4 with phys_mem := m2 }, k1)

/-- The function `terminal_switch(tid)`.  `ELF_chars`, `esp` and `ebp` are passed on
to `save_stack` and to the call of `execute` for the shell of a terminal that runs no
process yet. -/
def terminal_switch (s : KState) (k : Console) (tid user_table_addr : Nat) (ELF_chars : Buffer)
    (esp ebp : Nat) : Option (switch_outcome × KState × Console) :=
  if tid = s.display_terminal then some (.returned, s, k)
  else if find_avail_pid s = -1 ∧ (s.terminals tid).running_processes = 0 then
    some (.returned, s, k)
  else
    let r := terminal_switch_display s k tid user_table_addr
    if (r.1.terminals tid).running_processes = 0 then
      let s6 := save_stack r.1 (to_int32 (r.1.terminals r.1.cur_terminal).pid) esp ebp
      let s7 := { s6 with cur_terminal := tid }
      let s8 := video_paging s7 user_table_addr
      match execute s8 (some [115, 104, 101, 108, 108]) ELF_chars esp ebp with
      | none => none
      | some (.entered_user eip, s9) => some (.shell_entered eip, s9, r.2)
      | some (.returned _, s9) => some (.returned, s9, r.2)
    else some (.returned, r.1, r.2)

/-- A live console used to exercise the theorems: the cursor at column 3 of row 5 and
the letters `ls` in the line buffer. -/
def demo_console : Console where
  screen_x := 3
  screen_y := 5
  kbd_buffer := fun i => if i = 0 then 108 else if i = 1 then 115 else 0
  buffer_idx := 2

/-! ## Sample state for a process started from the second terminal -/

/-- The kernel on the image `shell_fs` with three processes: terminal 0 runs the shell
(pid 0) and a program started by it (pid 1), terminal 1 runs its shell (pid 2), and the
scheduler has made terminal 1 current.  The PCBs hold what `execute` wrote for these
processes. -/
def second_terminal_state : KState :=
  { terminal_init boot_state with
    pid_status := fun i => if i ≤ 2 then 1 else 0
    cur_terminal := 1
    terminals := fun t =>
      { (terminal_init boot_state).terminals t with
        running_processes := if t = 0 then 2 else if t = 1 then 1 else 0
        pid := if t = 0 then 1 else if t = 1 then 2 else 4294967295
        pcb := if t = 0 then 0x7FC000 else if t = 1 then 0x7FA000 else 0 }
    pcb_mem := fun a =>
      if a = 0x7FE000 then { boot_state.pcb_mem a with pid := 0, tid := 0, child := 0x7FC000 }
      else if a = 0x7FC000 then { boot_state.pcb_mem a with pid := 1, tid := 0, parent := 0x7FE000 }
      else if a = 0x7FA000 then { boot_state.pcb_mem a with pid := 2, tid := 1 }
      else boot_state.pcb_mem a }

/-! ## Theorems -/

theorem u32_sub_one {n : Nat} (h0 : 0 < n) (h : n < WORD) : u32_sub n 1 = n - 1 := by
  unfold u32_sub WORD at *
  omega

theorem u32_add_small {a b : Nat} (h : a + b < WORD) : u32_add a b = a + b := by
  unfold u32_add
  exact Nat.mod_eq_of_lt h

theorem to_int32_small {a : Nat} (h : a < 2147483648) : to_int32 a = (a : Int) := by
  unfold to_int32 WORD
  have : a % 4294967296 = a := Nat.mod_eq_of_lt (by omega)
  rw [this, if_pos h]

/-- Loop invariant of `read_data`: once `bytes_copied` bytes of the request are in
place and the next byte to copy starts a data block, the loop finishes the request. -/
theorem read_data_loop_spec (fs : FileSystem) (ino : inode_t) (offset length : Nat)
    (hL : offset + length ≤ ino.length) (hmax : ino.length ≤ 1023 * 4096)
    (hB : fs.max_datablocks < WORD)
    (hblk : ∀ k, k * 4096 < ino.length → ino.data_block_num k < fs.max_datablocks) :
    ∀ (fuel i bytes_copied : Nat) (buf : Buffer),
      bytes_copied ≤ length →
      (bytes_copied < length → offset + bytes_copied = (i + offset / BLOCK_SIZE) * 4096) →
      (∀ j, j < bytes_copied →
        buf j = fs.datablocks (ino.data_block_num ((offset + j) / 4096)) ((offset + j) % 4096)) →
      length - bytes_copied < fuel →
      ∃ out, read_data_loop fs ino (offset / BLOCK_SIZE) length fuel i bytes_copied buf
            = some ((length : Int), out) ∧
        ∀ j, j < length →
          out j = fs.datablocks (ino.data_block_num ((offset + j) / 4096)) ((offset + j) % 4096) := by
  intro fuel
  induction fuel with
  | zero => intro i bc buf _ _ _ hf; omega
  | succ fuel ih =>
    intro i bc buf hle hal hbuf hf
    unfold read_data_loop
    by_cases hlt : bc < length
    · have hal1 := hal hlt
      have hidx : u32_add i (offset / BLOCK_SIZE) = i + offset / BLOCK_SIZE := by
        apply u32_add_small
        unfold WORD
        omega
      have hvalid : ino.data_block_num (i + offset / BLOCK_SIZE) < fs.max_datablocks := by
        apply hblk
        omega
      have hpos : 0 < fs.max_datablocks := by omega
      have hsub := u32_sub_one hpos hB
      simp only [if_pos hlt, hidx, hsub]
      rw [if_neg (by omega)]
      by_cases hc : length - bc < BLOCK_SIZE
      · have hnew : u32_add bc (length - bc) = length := by
          rw [u32_add_small (by unfold WORD; omega)]
          omega
        simp only [if_pos hc, hnew]
        apply ih
        · exact le_refl _
        · intro h; omega
        · intro j hj
          unfold memcpy
          by_cases hjb : j < bc
          · rw [if_neg (by omega)]
            exact hbuf j hjb
          · rw [if_pos (by omega)]
            unfold BLOCK_SIZE at hc
            have h1 : (offset + j) / 4096 = i + offset / BLOCK_SIZE := by omega
            have h2 : (offset + j) % 4096 = j - bc := by omega
            rw [h1, h2]
        · omega
      · have hnew : u32_add bc BLOCK_SIZE = bc + BLOCK_SIZE := by
          apply u32_add_small
          unfold WORD BLOCK_SIZE at *
          omega
        simp only [if_neg hc, hnew]
        unfold BLOCK_SIZE at hc
        apply ih
        · unfold BLOCK_SIZE; omega
        · intro h; unfold BLOCK_SIZE at *; omega
        · intro j hj
          unfold memcpy
          unfold BLOCK_SIZE at hj
          by_cases hjb : j < bc
          · rw [if_neg (by omega)]
            exact hbuf j hjb
          · rw [if_pos (by unfold BLOCK_SIZE; omega)]
            have h1 : (offset + j) / 4096 = i + offset / BLOCK_SIZE := by omega
            have h2 : (offset + j) % 4096 = j - bc := by omega
            rw [h1, h2]
        · unfold BLOCK_SIZE; omega
    · have hbc : bc = length := by omega
      subst hbc
      rw [if_neg hlt]
      refine ⟨buf, ?_, hbuf⟩
      rw [to_int32_small (by omega)]

/-- The bytes of a file as a list, against a buffer that holds them one by one. -/
theorem range_map_eq_file_bytes (fs : FileSystem) (inode offset r : Nat) (out : Buffer)
    (hr : offset + r ≤ (fs.inodes inode).length)
    (hbytes : ∀ j, j < r → out j = fs.datablocks
      ((fs.inodes inode).data_block_num ((offset + j) / 4096)) ((offset + j) % 4096)) :
    (List.range r).map out = ((file_bytes fs inode).drop offset).take r := by
  apply List.ext_getElem
  · simp [file_bytes]
    omega
  · intro j h1 h2
    simp only [List.length_map, List.length_range] at h1
    simp [file_bytes, hbytes j h1, BLOCK_SIZE]

/-- The result of `read_data` on a well-formed file, byte by byte. -/
theorem read_data_pointwise (fs : FileSystem) (inode offset len : Nat) (buf : Buffer)
    (hN : fs.max_inodes < WORD) (hB : fs.max_datablocks < WORD)
    (hinode : inode < fs.max_inodes)
    (hmax : (fs.inodes inode).length ≤ 1023 * 4096)
    (hblk : ∀ k, k * 4096 < (fs.inodes inode).length →
      (fs.inodes inode).data_block_num k < fs.max_datablocks)
    (hoff : offset < (fs.inodes inode).length) :
    ∃ out, read_data fs inode offset (some buf) len
          = some (((min len ((fs.inodes inode).length - offset) : Nat) : Int), some out) ∧
      ∀ j, j < min len ((fs.inodes inode).length - offset) →
        out j = fs.datablocks ((fs.inodes inode).data_block_num ((offset + j) / 4096))
          ((offset + j) % 4096) := by
  have hsubN := u32_sub_one (by omega : 0 < fs.max_inodes) hN
  have hb0 : (fs.inodes inode).data_block_num (offset / BLOCK_SIZE) < fs.max_datablocks := by
    apply hblk
    unfold BLOCK_SIZE
    omega
  have hsubB := u32_sub_one (by omega : 0 < fs.max_datablocks) hB
  obtain ⟨r, hr⟩ : ∃ r, r = min len ((fs.inodes inode).length - offset) := ⟨_, rfl⟩
  have hclamp : (if len > (fs.inodes inode).length - offset
      then (fs.inodes inode).length - offset else len) = r := by
    rw [hr]
    split <;> omega
  have hrL : offset + r ≤ (fs.inodes inode).length := by omega
  -- state after the copy out of the first block
  obtain ⟨c, hc⟩ : ∃ c, c = (if r < BLOCK_SIZE - offset % BLOCK_SIZE then r
      else BLOCK_SIZE - offset % BLOCK_SIZE) := ⟨_, rfl⟩
  have hc1 : c ≤ r := by rw [hc]; split <;> omega
  have hc2 : c ≤ 4096 - offset % 4096 := by
    rw [hc]; unfold BLOCK_SIZE; split <;> omega
  have hc3 : c < r → offset + c = (1 + offset / BLOCK_SIZE) * 4096 := by
    intro h
    rw [hc] at h ⊢
    unfold BLOCK_SIZE at h ⊢
    split at h
    · omega
    · rw [if_neg (by omega)]
      omega
  have hloop := read_data_loop_spec fs (fs.inodes inode) offset r hrL hmax hB hblk (r + 1) 1 c
    (memcpy buf 0 (fun j => fs.datablocks ((fs.inodes inode).data_block_num (offset / BLOCK_SIZE))
      (offset % BLOCK_SIZE + j)) c) hc1 hc3
    (by
      intro j hj
      unfold memcpy
      rw [if_pos (by omega)]
      have h1 : (offset + j) / 4096 = offset / BLOCK_SIZE := by unfold BLOCK_SIZE; omega
      have h2 : (offset + j) % 4096 = offset % BLOCK_SIZE + (j - 0) := by unfold BLOCK_SIZE; omega
      rw [h1, h2])
    (by omega)
  obtain ⟨out, hout, hbytes⟩ := hloop
  refine ⟨out, ?_, ?_⟩
  · unfold read_data
    rw [if_neg (by omega)]
    simp only [ge_iff_le, hclamp]
    rw [if_neg (by omega), if_neg (by omega), ← hc, hout, hr]
    rfl
  · rw [← hr]
    exact hbytes

/-- C1: on a well-formed image (inode below the inode count, length at most
1023 * 4096, every data block of the file below the data-block count), for every
offset below the length and every requested length, `read_data` returns
`min len (L - offset)` and the first that many bytes of the buffer are the bytes of
the file from `offset` on. -/
theorem read_data_returns_file_bytes (fs : FileSystem) (inode offset len : Nat) (buf : Buffer)
    (hN : fs.max_inodes < WORD) (hB : fs.max_datablocks < WORD)
    (hinode : inode < fs.max_inodes)
    (hmax : (fs.inodes inode).length ≤ 1023 * 4096)
    (hblk : ∀ k, k * 4096 < (fs.inodes inode).length →
      (fs.inodes inode).data_block_num k < fs.max_datablocks)
    (hoff : offset < (fs.inodes inode).length) :
    ∃ out, read_data fs inode offset (some buf) len
          = some (((min len ((fs.inodes inode).length - offset) : Nat) : Int), some out) ∧
      (List.range (min len ((fs.inodes inode).length - offset))).map out
        = ((file_bytes fs inode).drop offset).take (min len ((fs.inodes inode).length - offset)) := by
  obtain ⟨out, hread, hbytes⟩ :=
    read_data_pointwise fs inode offset len buf hN hB hinode hmax hblk hoff
  refine ⟨out, hread, ?_⟩
  apply range_map_eq_file_bytes fs inode offset _ out
  · omega
  · exact hbytes

/-- Instance of `read_data_returns_file_bytes`: a request of `2 ^ 32 - 1` bytes at
offset 4090 of the 5000-byte demo file, for which `offset + len` overflows 32 bits. -/
theorem read_data_returns_file_bytes_witness :
    ∃ out, read_data demo_fs 0 4090 (some (fun _ => 0)) 4294967295
          = some (((min 4294967295 ((demo_fs.inodes 0).length - 4090) : Nat) : Int), some out) ∧
      (List.range (min 4294967295 ((demo_fs.inodes 0).length - 4090))).map out
        = ((file_bytes demo_fs 0).drop 4090).take (min 4294967295 ((demo_fs.inodes 0).length - 4090)) :=
  read_data_returns_file_bytes demo_fs 0 4090 4294967295 (fun _ => 0)
    (by decide) (by decide) (by decide) (by decide)
    (fun k _ => by simp only [demo_fs, FileSystem.max_datablocks]; split <;> omega)
    (by decide)

/-! ### Directory lookup -/

theorem to_uint8_diff_ne_zero {c1 c2 : Nat} (h1 : c1 < 256) (h2 : c2 < 256) (hne : c1 ≠ c2) :
    to_uint8 (to_int8 c1 - to_int8 c2) ≠ 0 := by
  unfold to_uint8 to_int8
  rw [Nat.mod_eq_of_lt h1, Nat.mod_eq_of_lt h2]
  split <;> split <;> omega

theorem name_take_nil (n : Nat) : (([] : List Nat).take n).takeWhile (fun c => c ≠ 0) = [] := by
  simp

/-- The comparison result kept in a `uint8_t` is zero exactly when the two strings,
cut at `n` bytes and at their first NUL, are equal. -/
theorem strncmp_zero_iff (n : Nat) : ∀ (a b : List Nat),
    (∀ c ∈ a, c < 256) → (∀ c ∈ b, c < 256) →
    (to_uint8 (strncmp a b n) = 0 ↔
      (a.take n).takeWhile (fun c => c ≠ 0) = (b.take n).takeWhile (fun c => c ≠ 0)) := by
  induction n with
  | zero => intro a b _ _; simp [strncmp, to_uint8]
  | succ n ih =>
    intro a b ha hb
    cases a with
    | nil =>
      cases b with
      | nil => simp [strncmp, to_uint8, to_int8]
      | cons y ys =>
        have hy : y < 256 := hb y (List.mem_cons_self _ _)
        by_cases hy0 : y = 0
        · subst hy0
          simp [strncmp, to_uint8, to_int8, List.takeWhile]
        · have := to_uint8_diff_ne_zero (by decide : 0 < 256) hy (fun h => hy0 h.symm)
          simp [strncmp, List.takeWhile, hy0, this, fun h : 0 = y => hy0 h.symm]
    | cons x xs =>
      have hx : x < 256 := ha x (List.mem_cons_self _ _)
      cases b with
      | nil =>
        by_cases hx0 : x = 0
        · subst hx0
          simp [strncmp, to_uint8, to_int8, List.takeWhile]
        · have := to_uint8_diff_ne_zero hx (by decide : 0 < 256) hx0
          simp [strncmp, List.takeWhile, hx0, this]
      | cons y ys =>
        have hy : y < 256 := hb y (List.mem_cons_self _ _)
        by_cases hxy : x = y
        · subst hxy
          by_cases hx0 : x = 0
          · subst hx0
            simp [strncmp, to_uint8, to_int8, List.takeWhile]
          · have hrec := ih xs ys (fun c hc => ha c (List.mem_cons_of_mem _ hc))
              (fun c hc => hb c (List.mem_cons_of_mem _ hc))
            simp [strncmp, List.takeWhile, hx0, hrec]
        · have := to_uint8_diff_ne_zero hx hy hxy
          by_cases hx0 : x = 0
          · subst hx0
            have hy0 : ¬ y = 0 := fun h => hxy h.symm
            simp [strncmp, List.takeWhile, hxy, this, hy0]
          · by_cases hy0 : y = 0
            · subst hy0
              simp [strncmp, List.takeWhile, hxy, this, hx0]
            · simp [strncmp, List.takeWhile, hxy, this, hx0, hy0]

/-- The scan of `read_dentry_by_name` returns the lowest index in its range whose
name field matches, and nothing when none matches. -/
theorem read_dentry_by_name_loop_spec (fs : FileSystem) (name : List Nat)
    (hname : ∀ c ∈ name, c < 256)
    (hent : ∀ i, ∀ c ∈ (fs.fs_boot_block.direntries i).filename, c < 256) :
    ∀ (n i : Nat),
      (∀ k, read_dentry_by_name_loop fs name n i = some k →
        i ≤ k ∧ k < i + n ∧ name32 (fs.fs_boot_block.direntries k).filename = name32 name ∧
        ∀ j, i ≤ j → j < k → name32 (fs.fs_boot_block.direntries j).filename ≠ name32 name) ∧
      (read_dentry_by_name_loop fs name n i = none →
        ∀ j, i ≤ j → j < i + n → name32 (fs.fs_boot_block.direntries j).filename ≠ name32 name) := by
  intro n
  induction n with
  | zero =>
    intro i
    refine ⟨fun k h => ?_, fun _ j h1 h2 => ?_⟩
    · simp [read_dentry_by_name_loop] at h
    · omega
  | succ n ih =>
    intro i
    have hiff := strncmp_zero_iff 32 (fs.fs_boot_block.direntries i).filename name (hent i) hname
    unfold read_dentry_by_name_loop
    simp only [MAX_FILENAME_SIZE]
    by_cases hz : to_uint8 (strncmp (fs.fs_boot_block.direntries i).filename name 32) = 0
    · rw [if_pos hz]
      refine ⟨fun k h => ?_, fun h => ?_⟩
      · simp only [Option.some.injEq] at h
        subst h
        exact ⟨le_refl _, by omega, hiff.mp hz, fun j h1 h2 => by omega⟩
      · simp at h
    · rw [if_neg hz]
      have hne : name32 (fs.fs_boot_block.direntries i).filename ≠ name32 name :=
        fun h => hz (hiff.mpr h)
      obtain ⟨ih1, ih2⟩ := ih (i + 1)
      refine ⟨fun k h => ?_, fun h j h1 h2 => ?_⟩
      · obtain ⟨a, b, c, d⟩ := ih1 k h
        refine ⟨by omega, by omega, c, fun j h1 h2 => ?_⟩
        by_cases hji : j = i
        · subst hji; exact hne
        · exact d j (by omega) h2
      · by_cases hji : j = i
        · subst hji; exact hne
        · exact ih2 h j (by omega) (by omega)

/-- C3: `read_dentry_by_name` returns 0 exactly when both pointers are non-null, the
name is at most 32 bytes long and some entry below the directory count has a name
field equal to it under comparison of at most 32 bytes; on success the output
carries the file type and inode number of the lowest such entry; every other call
returns -1. -/
theorem read_dentry_by_name_spec (fs : FileSystem) (fname : Option (List Nat))
    (dentry : Option dentry_t)
    (hname : ∀ name, fname = some name → ∀ c ∈ name, c < 256)
    (hent : ∀ i, ∀ c ∈ (fs.fs_boot_block.direntries i).filename, c < 256) :
    ((read_dentry_by_name fs fname dentry).1 = 0 ↔
      ∃ name d, fname = some name ∧ dentry = some d ∧ strlen name ≤ 32 ∧
        ∃ i, i < fs.num_entries ∧ name32 (fs.fs_boot_block.direntries i).filename = name32 name) ∧
    ((read_dentry_by_name fs fname dentry).1 = 0 →
      ∃ name i out, fname = some name ∧ i < fs.num_entries ∧
        name32 (fs.fs_boot_block.direntries i).filename = name32 name ∧
        (∀ j, j < i → name32 (fs.fs_boot_block.direntries j).filename ≠ name32 name) ∧
        (read_dentry_by_name fs fname dentry).2 = some out ∧
        out.filetype = (fs.fs_boot_block.direntries i).filetype ∧
        out.inode_num = (fs.fs_boot_block.direntries i).inode_num) ∧
    ((read_dentry_by_name fs fname dentry).1 ≠ 0 → (read_dentry_by_name fs fname dentry).1 = -1) := by
  cases fname with
  | none => simp [read_dentry_by_name]
  | some name =>
    cases dentry with
    | none => simp [read_dentry_by_name]
    | some d =>
      have hloop := read_dentry_by_name_loop_spec fs name (hname name rfl) hent fs.num_entries 0
      unfold read_dentry_by_name
      simp only [MAX_FILENAME_SIZE]
      by_cases hlen : strlen name > 32
      · simp only [if_pos hlen]
        refine ⟨⟨fun h => by simp at h, ?_⟩, fun h => by simp at h, by simp⟩
        rintro ⟨n, _, hn, _, hl, _⟩
        simp only [Option.some.injEq] at hn
        subst hn
        omega
      · simp only [if_neg hlen]
        cases hfound : read_dentry_by_name_loop fs name fs.num_entries 0 with
        | none =>
          have hnone := hloop.2 hfound
          refine ⟨⟨fun h => by simp at h, ?_⟩, fun h => by simp at h, by simp⟩
          rintro ⟨n, _, hn, _, _, i, hi, hm⟩
          simp only [Option.some.injEq] at hn
          subst hn
          exact absurd hm (hnone i (Nat.zero_le _) (by omega))
        | some k =>
          obtain ⟨_, hk, hm, hlow⟩ := hloop.1 k hfound
          refine ⟨⟨fun _ => ⟨name, d, rfl, rfl, by omega, k, by omega, hm⟩, fun _ => ?_⟩,
            fun _ => ⟨name, k, _, rfl, by omega, hm, fun j hj => hlow j (Nat.zero_le _) hj,
              rfl, rfl, rfl⟩,
            fun h => absurd ?_ h⟩
          · rfl
          · rfl

/-- Instance of `read_dentry_by_name_spec`: looking up the one-byte name of the demo
image. -/
theorem read_dentry_by_name_spec_witness :
    ((read_dentry_by_name demo_fs (some [97]) (some ⟨[], 0, 0⟩)).1 = 0 ↔
      ∃ name d, some [97] = some name ∧ some (⟨[], 0, 0⟩ : dentry_t) = some d ∧ strlen name ≤ 32 ∧
        ∃ i, i < demo_fs.num_entries ∧
          name32 (demo_fs.fs_boot_block.direntries i).filename = name32 name) ∧
    ((read_dentry_by_name demo_fs (some [97]) (some ⟨[], 0, 0⟩)).1 = 0 →
      ∃ name i out, some [97] = some name ∧ i < demo_fs.num_entries ∧
        name32 (demo_fs.fs_boot_block.direntries i).filename = name32 name ∧
        (∀ j, j < i → name32 (demo_fs.fs_boot_block.direntries j).filename ≠ name32 name) ∧
        (read_dentry_by_name demo_fs (some [97]) (some ⟨[], 0, 0⟩)).2 = some out ∧
        out.filetype = (demo_fs.fs_boot_block.direntries i).filetype ∧
        out.inode_num = (demo_fs.fs_boot_block.direntries i).inode_num) ∧
    ((read_dentry_by_name demo_fs (some [97]) (some ⟨[], 0, 0⟩)).1 ≠ 0 →
      (read_dentry_by_name demo_fs (some [97]) (some ⟨[], 0, 0⟩)).1 = -1) :=
  read_dentry_by_name_spec demo_fs (some [97]) (some ⟨[], 0, 0⟩)
    (fun name h c hc => by
      simp only [Option.some.injEq] at h
      subst h
      simp only [List.mem_singleton] at hc
      omega)
    (fun i c hc => by
      simp only [demo_fs, List.mem_singleton] at hc
      omega)

/-! ### Reading a regular file -/

theorem to_uint32_ofNat {a : Nat} (h : a < WORD) : to_uint32 (a : Int) = a := by
  unfold to_uint32
  unfold WORD at h
  omega

/-- One call of `file_read` on a descriptor of the current process at position `p`. -/
theorem file_read_step (s : KState) (fd : Int) (ino p n : Nat) (buf : Buffer)
    (hd : descriptor_at s fd ino p) (hok : file_ok s.fs ino) (hn : n < 2147483648) :
    ∃ s1 out,
      file_read s fd (some buf) (n : Int)
        = some (((min n ((s.fs.inodes ino).length - p) : Nat) : Int), s1, some out) ∧
      (List.range (min n ((s.fs.inodes ino).length - p))).map out
        = ((file_bytes s.fs ino).drop p).take (min n ((s.fs.inodes ino).length - p)) ∧
      s1.fs = s.fs ∧ get_PCB s1 = get_PCB s ∧
      descriptor_at s1 fd ino (p + min n ((s.fs.inodes ino).length - p)) ∧
      ((s.fs.inodes ino).length ≤ p → s1 = s) ∧
      (∀ fd1, fd1 ≠ fd → (s1.pcb_mem (get_PCB s1)).file_array fd1
        = (s.pcb_mem (get_PCB s)).file_array fd1) ∧
      ((s1.pcb_mem (get_PCB s1)).file_array fd).flags = ((s.pcb_mem (get_PCB s)).file_array fd).flags ∧
      ((s1.pcb_mem (get_PCB s1)).file_array fd).fops_table
        = ((s.pcb_mem (get_PCB s)).file_array fd).fops_table := by
  obtain ⟨hino, hpos⟩ := hd
  obtain ⟨hN, hB, hinode, hmax, hblk⟩ := hok
  have hnn : ¬ ((some buf).isNone = true ∨ (n : Int) < 0) := by simp
  unfold file_read
  rw [if_neg hnn]
  simp only [hino, hpos, ge_iff_le]
  by_cases hend : (s.fs.inodes ino).length ≤ p
  · rw [if_pos hend]
    have hr : min n ((s.fs.inodes ino).length - p) = 0 := by omega
    refine ⟨s, buf, by rw [hr]; rfl, by rw [hr]; rfl, rfl, rfl, ?_, fun _ => rfl,
      fun _ _ => rfl, rfl, rfl⟩
    rw [hr]
    exact ⟨hino, hpos⟩
  · rw [if_neg hend]
    obtain ⟨out, hread, hpt⟩ := read_data_pointwise s.fs ino p n buf hN hB hinode hmax
      hblk (by omega)
    have hbytes := range_map_eq_file_bytes s.fs ino p _ out (by omega) hpt
    rw [to_uint32_ofNat (by unfold WORD; omega), hread]
    have hsum : to_uint32 ((p : Int) + ((min n ((s.fs.inodes ino).length - p) : Nat) : Int))
        = p + min n ((s.fs.inodes ino).length - p) := by
      rw [← Int.ofNat_add]
      exact to_uint32_ofNat (by unfold WORD; omega)
    refine ⟨_, out, rfl, hbytes, rfl, rfl, ?_, fun h => absurd h hend, ?_, ?_, ?_⟩
    · unfold descriptor_at
      simp only [KState.store_pcb, get_PCB, Function.update_same, hino, hsum, and_self]
    · intro fd1 hne
      simp only [KState.store_pcb, get_PCB, Function.update_same, Function.update_noteq hne]
    · simp only [KState.store_pcb, get_PCB, Function.update_same]
    · simp only [KState.store_pcb, get_PCB, Function.update_same]

/-- Repeated reads: `k` calls with chunk size `n` deliver the next `min (k * n) (L - p)`
bytes of the file in order and leave the descriptor that much further. -/
theorem file_read_repeat_spec (fd : Int) (ino n : Nat) (hn : n < 2147483648) :
    ∀ (k : Nat) (s : KState) (p : Nat),
      descriptor_at s fd ino p → file_ok s.fs ino → p ≤ (s.fs.inodes ino).length →
      ∃ rs bytes s2, file_read_repeat fd (n : Int) k s = some (rs, bytes, s2) ∧
        bytes = ((file_bytes s.fs ino).drop p).take (min (k * n) ((s.fs.inodes ino).length - p)) ∧
        rs.sum = ((min (k * n) ((s.fs.inodes ino).length - p) : Nat) : Int) ∧
        s2.fs = s.fs ∧
        descriptor_at s2 fd ino (p + min (k * n) ((s.fs.inodes ino).length - p)) := by
  intro k
  induction k with
  | zero =>
    intro s p hd _ _
    refine ⟨[], [], s, rfl, by simp, by simp, rfl, by simpa using hd⟩
  | succ k ih =>
    intro s p hd hok hp
    obtain ⟨s1, out, hread, hbytes, hfs, _, hd1, _, _, _, _⟩ :=
      file_read_step s fd ino p n (fun _ => 0) hd hok hn
    obtain ⟨r, hr⟩ : ∃ r, r = min n ((s.fs.inodes ino).length - p) := ⟨_, rfl⟩
    rw [← hr] at hread hbytes hd1
    have hok1 : file_ok s1.fs ino := by rw [hfs]; exact hok
    have hp1 : p + r ≤ (s1.fs.inodes ino).length := by rw [hfs]; omega
    obtain ⟨rs, bytes, s2, hrep, hb2, hsum, hfs2, hd2⟩ := ih s1 (p + r) hd1 hok1 hp1
    rw [hfs] at hb2 hsum hd2
    obtain ⟨m, hm⟩ : ∃ m, m = min (k * n) ((s.fs.inodes ino).length - (p + r)) := ⟨_, rfl⟩
    rw [← hm] at hb2 hsum hd2
    have htot : min ((k + 1) * n) ((s.fs.inodes ino).length - p) = r + m := by
      rw [Nat.succ_mul]
      omega
    refine ⟨(r : Int) :: rs, (List.range r).map out ++ bytes, s2, ?_, ?_, ?_, ?_, ?_⟩
    · unfold file_read_repeat
      rw [hread]
      simp only [hrep, Int.toNat_ofNat]
    · rw [htot, hbytes, hb2, List.take_add, List.drop_drop]
    · rw [List.sum_cons, hsum, htot]
      omega
    · rw [hfs2, hfs]
    · rw [htot, ← Nat.add_assoc]
      exact hd2

/-- C2: for a descriptor of the current process at position `p` on a well-formed file
of length `L`, `file_read` with a non-negative count `n` returns `min n (L - p)`
(0 when `p ≥ L`), delivers the file bytes `[p, p + result)`, and advances the position
by the returned count, touching nothing else of the descriptor table; hence, for any
chunk size `n ≥ 1`, enough repeated reads deliver the rest of the file exactly once
and in order, the counts sum to `L - p` (to `L` from position 0), and every later read
returns 0 and leaves the state as it is. -/
theorem file_read_spec (s : KState) (fd : Int) (ino p n : Nat) (buf : Buffer)
    (hd : descriptor_at s fd ino p) (hok : file_ok s.fs ino) (hn : n < 2147483648) :
    (∃ s1 out,
      file_read s fd (some buf) (n : Int)
        = some (((min n ((s.fs.inodes ino).length - p) : Nat) : Int), s1, some out) ∧
      (List.range (min n ((s.fs.inodes ino).length - p))).map out
        = ((file_bytes s.fs ino).drop p).take (min n ((s.fs.inodes ino).length - p)) ∧
      s1.fs = s.fs ∧ get_PCB s1 = get_PCB s ∧
      descriptor_at s1 fd ino (p + min n ((s.fs.inodes ino).length - p)) ∧
      ((s.fs.inodes ino).length ≤ p → s1 = s) ∧
      (∀ fd1, fd1 ≠ fd → (s1.pcb_mem (get_PCB s1)).file_array fd1
        = (s.pcb_mem (get_PCB s)).file_array fd1) ∧
      ((s1.pcb_mem (get_PCB s1)).file_array fd).flags = ((s.pcb_mem (get_PCB s)).file_array fd).flags ∧
      ((s1.pcb_mem (get_PCB s1)).file_array fd).fops_table
        = ((s.pcb_mem (get_PCB s)).file_array fd).fops_table) ∧
    (1 ≤ n → p ≤ (s.fs.inodes ino).length →
      ∀ k, (s.fs.inodes ino).length - p ≤ k * n →
        ∃ rs bytes s2, file_read_repeat fd (n : Int) k s = some (rs, bytes, s2) ∧
          bytes = (file_bytes s.fs ino).drop p ∧
          rs.sum = (((s.fs.inodes ino).length - p : Nat) : Int) ∧
          descriptor_at s2 fd ino (s.fs.inodes ino).length ∧
          ∀ (buf2 : Buffer) (m : Nat), m < 2147483648 →
            ∃ out, file_read s2 fd (some buf2) (m : Int) = some (0, s2, some out)) := by
  refine ⟨file_read_step s fd ino p n buf hd hok hn, ?_⟩
  intro _ hp k hk
  obtain ⟨rs, bytes, s2, hrep, hb, hsum, hfs, hd2⟩ := file_read_repeat_spec fd ino n hn k s p hd hok hp
  have hmin : min (k * n) ((s.fs.inodes ino).length - p) = (s.fs.inodes ino).length - p := by omega
  rw [hmin] at hb hsum hd2
  have hlen : (file_bytes s.fs ino).length = (s.fs.inodes ino).length := by simp [file_bytes]
  rw [show p + ((s.fs.inodes ino).length - p) = (s.fs.inodes ino).length by omega] at hd2
  refine ⟨rs, bytes, s2, hrep, ?_, hsum, hd2, ?_⟩
  · rw [hb]
    apply List.take_of_length_le
    rw [List.length_drop, hlen]
  · intro buf2 m hm
    have hok2 : file_ok s2.fs ino := by rw [hfs]; exact hok
    have hd3 : descriptor_at s2 fd ino (s2.fs.inodes ino).length := by rw [hfs]; exact hd2
    obtain ⟨s3, out, hread, _, _, _, _, hsame, _⟩ :=
      file_read_step s2 fd ino (s2.fs.inodes ino).length m buf2 hd3 hok2 hm
    have hs3 := hsame (le_refl _)
    subst hs3
    refine ⟨out, ?_⟩
    rw [hread]
    simp

/-- Instance of `file_read_spec`: descriptor 2 of the demo state, chunks of 50 bytes. -/
theorem file_read_spec_witness :
    (∃ s1 out,
      file_read demo_state 2 (some (fun _ => 0)) ((50 : Nat) : Int)
        = some (((min 50 ((demo_state.fs.inodes 0).length - 0) : Nat) : Int), s1, some out) ∧
      (List.range (min 50 ((demo_state.fs.inodes 0).length - 0))).map out
        = ((file_bytes demo_state.fs 0).drop 0).take (min 50 ((demo_state.fs.inodes 0).length - 0)) ∧
      s1.fs = demo_state.fs ∧ get_PCB s1 = get_PCB demo_state ∧
      descriptor_at s1 2 0 (0 + min 50 ((demo_state.fs.inodes 0).length - 0)) ∧
      ((demo_state.fs.inodes 0).length ≤ 0 → s1 = demo_state) ∧
      (∀ fd1, fd1 ≠ 2 → (s1.pcb_mem (get_PCB s1)).file_array fd1
        = (demo_state.pcb_mem (get_PCB demo_state)).file_array fd1) ∧
      ((s1.pcb_mem (get_PCB s1)).file_array 2).flags
        = ((demo_state.pcb_mem (get_PCB demo_state)).file_array 2).flags ∧
      ((s1.pcb_mem (get_PCB s1)).file_array 2).fops_table
        = ((demo_state.pcb_mem (get_PCB demo_state)).file_array 2).fops_table) ∧
    (1 ≤ 50 → 0 ≤ (demo_state.fs.inodes 0).length →
      ∀ k, (demo_state.fs.inodes 0).length - 0 ≤ k * 50 →
        ∃ rs bytes s2, file_read_repeat 2 ((50 : Nat) : Int) k demo_state = some (rs, bytes, s2) ∧
          bytes = (file_bytes demo_state.fs 0).drop 0 ∧
          rs.sum = (((demo_state.fs.inodes 0).length - 0 : Nat) : Int) ∧
          descriptor_at s2 2 0 (demo_state.fs.inodes 0).length ∧
          ∀ (buf2 : Buffer) (m : Nat), m < 2147483648 →
            ∃ out, file_read s2 2 (some buf2) (m : Int) = some (0, s2, some out)) :=
  file_read_spec demo_state 2 0 0 50 (fun _ => 0) ⟨rfl, rfl⟩
    ⟨by decide, by decide, by decide, by decide,
      fun k _ => by simp only [demo_state, demo_fs, FileSystem.max_datablocks]; split <;> omega⟩
    (by decide)

/-! ### The system call `open` -/

theorem read_dentry_by_name_ret (fs : FileSystem) (fname : Option (List Nat))
    (dentry : Option dentry_t) :
    (read_dentry_by_name fs fname dentry).1 = 0 ∨ (read_dentry_by_name fs fname dentry).1 = -1 := by
  unfold read_dentry_by_name
  cases fname with
  | none => simp
  | some name =>
    cases dentry with
    | none => simp
    | some d =>
      simp only
      split
      · simp
      · cases read_dentry_by_name_loop fs name fs.num_entries 0 <;> simp

theorem open_scan_found (pcb : PCB) : ∀ (n : Nat) (i0 i : Int),
    i0 ≤ i → i ≤ 7 → i - i0 < n → (pcb.file_array i).flags = 0 →
    (∀ j, i0 ≤ j → j < i → (pcb.file_array j).flags ≠ 0) →
    open_scan pcb n i0 = some i := by
  intro n
  induction n with
  | zero => intro i0 i h1 _ h3 _ _; omega
  | succ n ih =>
    intro i0 i h1 h2 h3 h4 h5
    unfold open_scan
    by_cases he : i0 = i
    · subst he
      simp [NOT_IN_USE, h4]
    · have hlt : i0 < i := by omega
      have hne := h5 i0 (le_refl _) hlt
      have h7 : ¬ i0 = FD_MAX := by unfold FD_MAX; omega
      simp only [NOT_IN_USE, hne, if_false, h7]
      exact ih (i0 + 1) i (by omega) h2 (by push_cast at h3 ⊢; omega) h4
        (fun j hj1 hj2 => h5 j (by omega) hj2)

theorem open_scan_none (pcb : PCB) : ∀ (n : Nat) (i0 : Int),
    i0 ≤ 7 → 7 - i0 < n → (∀ j, i0 ≤ j → j ≤ 7 → (pcb.file_array j).flags ≠ 0) →
    open_scan pcb n i0 = none := by
  intro n
  induction n with
  | zero => intro i0 h1 h2 _; omega
  | succ n ih =>
    intro i0 h1 h2 h3
    unfold open_scan
    have hne := h3 i0 (le_refl _) h1
    simp only [NOT_IN_USE, hne, if_false]
    by_cases h7 : i0 = FD_MAX
    · simp [h7]
    · simp only [h7, if_false]
      unfold FD_MAX at h7
      exact ih (i0 + 1) (by omega) (by push_cast at h2 ⊢; omega) (fun j hj1 hj2 => h3 j (by omega) hj2)

/-- The descriptor returned by `open` for a name that is found: the lowest descriptor
in `[2, 7]` whose flags are 0, whatever the file type. -/
theorem sys_open_ret (s : KState) (name : List Nat) (i : Int)
    (hfound : (read_dentry_by_name s.fs (some name) (some uninit_dentry)).1 = 0)
    (h2 : 2 ≤ i) (h7 : i ≤ 7)
    (hfree : ((s.pcb_mem (s.terminals s.cur_terminal).pcb).file_array i).flags = 0)
    (hlow : ∀ j : Int, 2 ≤ j → j < i →
      ((s.pcb_mem (s.terminals s.cur_terminal).pcb).file_array j).flags ≠ 0) :
    (sys_open s (some name)).1 = i := by
  have hscan := open_scan_found (s.pcb_mem (s.terminals s.cur_terminal).pcb) 6 2 i
    h2 h7 (by push_cast; omega) hfree hlow
  simp only [sys_open, hfound, FD_MIN, hscan]
  simp only [show ¬ ((0 : Int) = -1) by omega, if_false, rtc_open]
  split
  · rfl
  · split
    · split
      · rename_i hd1 hneg
        unfold DIR_TYPE at hd1
        simp [directory_open, hfound, hd1] at hneg
      · rfl
    · split
      · split
        · rename_i hneg
          simp [file_open, hfound] at hneg
        · rfl
      · rfl

/-! ### The system call `close` -/

theorem call_close_ret (f : close_fn) (s : KState) (fd : Int) :
    (call_close f s fd).1 = 0 ∧ (call_close f s fd).2.fs = s.fs ∧
    (call_close f s fd).2.pcb_mem = s.pcb_mem ∧
    (call_close f s fd).2.cur_terminal = s.cur_terminal ∧
    (call_close f s fd).2.terminals = s.terminals := by
  cases f <;> simp [call_close]

/-- C6 (as the code has it): `close` returns -1 and leaves the state, hence the whole
descriptor table, unchanged when `fd` is outside `[2, 7]`, the descriptor is not in
use, or its `close` operation is absent; otherwise it sets that entry's flags and
file position to 0, leaves every other descriptor and PCB unchanged, and returns the
result of the entry's close operation (which is 0 for each of the four close
functions); afterwards a successful `open` returns this `fd` as soon as no lower
descriptor in `[2, fd)` is free, and never a descriptor above it. -/
theorem sys_close_spec (s : KState) (fd : Int) :
    ((fd < 2 ∨ fd > 7 ∨
        ((s.pcb_mem (s.terminals s.cur_terminal).pcb).file_array fd).flags = 0 ∨
        ((s.pcb_mem (s.terminals s.cur_terminal).pcb).file_array fd).fops_table.close = none) →
      sys_close s fd = (-1, s)) ∧
    (∀ f, 2 ≤ fd → fd ≤ 7 →
      ((s.pcb_mem (s.terminals s.cur_terminal).pcb).file_array fd).flags ≠ 0 →
      ((s.pcb_mem (s.terminals s.cur_terminal).pcb).file_array fd).fops_table.close = some f →
      (sys_close s fd).1 = (call_close f s fd).1 ∧ (sys_close s fd).1 = 0 ∧
      ((sys_close s fd).2.pcb_mem (s.terminals s.cur_terminal).pcb).file_array
        = Function.update (s.pcb_mem (s.terminals s.cur_terminal).pcb).file_array fd
            { (s.pcb_mem (s.terminals s.cur_terminal).pcb).file_array fd with
              file_position := 0, flags := 0 } ∧
      (∀ a, a ≠ (s.terminals s.cur_terminal).pcb →
        (sys_close s fd).2.pcb_mem a = s.pcb_mem a) ∧
      (sys_close s fd).2.cur_terminal = s.cur_terminal ∧
      (sys_close s fd).2.terminals = s.terminals ∧
      (sys_close s fd).2.fs = s.fs ∧
      (∀ name, (read_dentry_by_name s.fs (some name) (some uninit_dentry)).1 = 0 →
        (2 ≤ (sys_open (sys_close s fd).2 (some name)).1 ∧
          (sys_open (sys_close s fd).2 (some name)).1 ≤ fd) ∧
        ((∀ j : Int, 2 ≤ j → j < fd →
            ((s.pcb_mem (s.terminals s.cur_terminal).pcb).file_array j).flags ≠ 0) →
          (sys_open (sys_close s fd).2 (some name)).1 = fd))) := by
  constructor
  · intro h
    unfold sys_close
    by_cases hr : fd < FD_MIN ∨ fd > FD_MAX
    · rw [if_pos hr]
    · rw [if_neg hr]
      unfold FD_MIN FD_MAX at hr
      by_cases hfl : ((s.pcb_mem (s.terminals s.cur_terminal).pcb).file_array fd).flags = 0
      · simp only [NOT_IN_USE, hfl, if_true]
      · simp only [NOT_IN_USE, hfl, if_false]
        have hc : ((s.pcb_mem (s.terminals s.cur_terminal).pcb).file_array fd).fops_table.close
            = none := by
          rcases h with h | h | h | h
          · omega
          · omega
          · exact absurd h hfl
          · exact h
        rw [hc]
  · intro f h2 h7 hfl hc
    have hr : ¬ (fd < FD_MIN ∨ fd > FD_MAX) := by unfold FD_MIN FD_MAX; omega
    have hcl : sys_close s fd = call_close f
        (s.modify_pcb (s.terminals s.cur_terminal).pcb (fun q =>
          (q.modify_fd fd (fun e => { e with file_position := 0 })).modify_fd fd
            (fun e => { e with flags := NOT_IN_USE }))) fd := by
      unfold sys_close
      rw [if_neg hr]
      simp only [NOT_IN_USE, hfl, if_false, hc]
      simp [KState.modify_pcb, PCB.modify_fd, hc]
    obtain ⟨c1, c2, c3, c4, c5⟩ := call_close_ret f
      (s.modify_pcb (s.terminals s.cur_terminal).pcb (fun q =>
          (q.modify_fd fd (fun e => { e with file_position := 0 })).modify_fd fd
            (fun e => { e with flags := NOT_IN_USE }))) fd
    have htab : ((sys_close s fd).2.pcb_mem (s.terminals s.cur_terminal).pcb).file_array
        = Function.update (s.pcb_mem (s.terminals s.cur_terminal).pcb).file_array fd
            { (s.pcb_mem (s.terminals s.cur_terminal).pcb).file_array fd with
              file_position := 0, flags := 0 } := by
      rw [hcl, c3]
      simp [KState.modify_pcb, PCB.modify_fd, NOT_IN_USE]
    have hct : (sys_close s fd).2.cur_terminal = s.cur_terminal := by rw [hcl, c4]; rfl
    have hte : (sys_close s fd).2.terminals = s.terminals := by rw [hcl, c5]; rfl
    have hfs : (sys_close s fd).2.fs = s.fs := by rw [hcl, c2]; rfl
    refine ⟨by rw [hcl, c1, (call_close_ret f s fd).1], by rw [hcl, c1], htab, ?_, hct, hte, hfs, ?_⟩
    · intro a ha
      rw [hcl, c3]
      simp [KState.modify_pcb, Function.update_noteq ha]
    · intro name hfound
      have hfound2 : (read_dentry_by_name (sys_close s fd).2.fs (some name)
          (some uninit_dentry)).1 = 0 := by rw [hfs]; exact hfound
      have hflag : ∀ j : Int,
          (((sys_close s fd).2.pcb_mem
            ((sys_close s fd).2.terminals (sys_close s fd).2.cur_terminal).pcb).file_array j).flags
          = if j = fd then 0
            else ((s.pcb_mem (s.terminals s.cur_terminal).pcb).file_array j).flags := by
        intro j
        rw [hte, hct, htab]
        by_cases hj : j = fd
        · subst hj; simp
        · simp [Function.update_noteq hj, hj]
      constructor
      · -- the lowest free descriptor after the close lies in [2, fd]
        have hex : ∃ i : Int, 2 ≤ i ∧ i ≤ fd ∧
            (((sys_close s fd).2.pcb_mem
              ((sys_close s fd).2.terminals (sys_close s fd).2.cur_terminal).pcb).file_array i).flags
              = 0 ∧
            ∀ j : Int, 2 ≤ j → j < i →
              (((sys_close s fd).2.pcb_mem
                ((sys_close s fd).2.terminals
                  (sys_close s fd).2.cur_terminal).pcb).file_array j).flags ≠ 0 := by
          have hgen : ∀ (n : Nat) (k : Int), k = 2 + n → k ≤ fd →
              (∀ j : Int, 2 ≤ j → j < k →
                (((sys_close s fd).2.pcb_mem
                  ((sys_close s fd).2.terminals
                    (sys_close s fd).2.cur_terminal).pcb).file_array j).flags ≠ 0) ∨
              ∃ i : Int, 2 ≤ i ∧ i < k ∧
                (((sys_close s fd).2.pcb_mem
                  ((sys_close s fd).2.terminals
                    (sys_close s fd).2.cur_terminal).pcb).file_array i).flags = 0 ∧
                ∀ j : Int, 2 ≤ j → j < i →
                  (((sys_close s fd).2.pcb_mem
                    ((sys_close s fd).2.terminals
                      (sys_close s fd).2.cur_terminal).pcb).file_array j).flags ≠ 0 := by
            intro n
            induction n with
            | zero =>
              intro k hk _
              left
              intro j h1 h2
              simp at hk
              omega
            | succ n ih =>
              intro k hk hkfd
              rcases ih (k - 1) (by push_cast at hk ⊢; omega) (by omega) with hall | ⟨i, a, b, c, d⟩
              · by_cases hz : (((sys_close s fd).2.pcb_mem
                    ((sys_close s fd).2.terminals
                      (sys_close s fd).2.cur_terminal).pcb).file_array (k - 1)).flags = 0
                · right
                  exact ⟨k - 1, by push_cast at hk; omega, by omega, hz, hall⟩
                · left
                  intro j h1 h2
                  by_cases hjk : j = k - 1
                  · subst hjk; exact hz
                  · exact hall j h1 (by omega)
              · right
                exact ⟨i, a, by omega, c, d⟩
          rcases hgen (fd - 2).toNat fd (by omega) (le_refl _) with hall | ⟨i, a, b, c, d⟩
          · exact ⟨fd, h2, le_refl _, by rw [hflag fd]; simp, hall⟩
          · exact ⟨i, a, by omega, c, d⟩
        obtain ⟨i, a, b, c, d⟩ := hex
        rw [sys_open_ret (sys_close s fd).2 name i hfound2 a (by omega) c d]
        exact ⟨a, b⟩
      · intro hlow
        apply sys_open_ret (sys_close s fd).2 name fd hfound2 h2 h7
        · rw [hflag fd]; simp
        · intro j hj1 hj2
          rw [hflag j, if_neg (by omega)]
          exact hlow j hj1 hj2

/-- Instance of `sys_close_spec`: closing descriptor 2 of the demo state succeeds and
closing the unused descriptor 7 fails. -/
theorem sys_close_spec_witness :
    ((sys_close demo_state 2).1 = (call_close .file_close demo_state 2).1 ∧
      (sys_close demo_state 2).1 = 0) ∧
    sys_close demo_state 7 = (-1, demo_state) :=
  ⟨⟨((sys_close_spec demo_state 2).2 .file_close (by decide) (by decide) (by decide) rfl).1,
    ((sys_close_spec demo_state 2).2 .file_close (by decide) (by decide) (by decide) rfl).2.1⟩,
   (sys_close_spec demo_state 7).1 (Or.inr (Or.inr (Or.inl rfl)))⟩

/-- C6 as stated fails: a descriptor in `[2, 7]` that is in use is not always reset by
`close`.  In `null_ops_state` descriptor 2 is in use and has no close operation;
`close(2)` returns -1 and the descriptor stays in use. -/
theorem sys_close_in_use_not_reset :
    ¬ (∀ (s : KState) (fd : Int), 2 ≤ fd → fd ≤ 7 →
        ((s.pcb_mem (s.terminals s.cur_terminal).pcb).file_array fd).flags ≠ 0 →
        (((sys_close s fd).2.pcb_mem (s.terminals s.cur_terminal).pcb).file_array fd).flags = 0) := by
  intro h
  have h1 := h null_ops_state 2 (by decide) (by decide) (by decide)
  revert h1
  decide

/-! ### The argument parser of `execute` -/

theorem skip_spaces_replicate (a : Nat) (l : List Nat) :
    skip_spaces (List.replicate a 32 ++ l) = skip_spaces l := by
  induction a with
  | zero => simp
  | succ a ih => simp [List.replicate_succ, skip_spaces, ih]

theorem skip_spaces_no_space (l : List Nat) (h : l.head? ≠ some 32) : skip_spaces l = l := by
  cases l with
  | nil => rfl
  | cons c cs =>
    have hc : c ≠ 32 := fun e => h (by simp [e])
    simp [skip_spaces, hc]

theorem parse_filename_word (word : List Nat) : ∀ (rest filename : List Nat),
    (∀ c ∈ word, c ≠ 32 ∧ c ≠ 10 ∧ c ≠ 0) →
    filename.length + word.length ≤ 33 →
    (rest = [] ∨ rest.head? = some 32 ∨ rest.head? = some 10 ∨ rest.head? = some 0) →
    parse_filename (word ++ rest) filename = some (filename ++ word, rest) := by
  induction word with
  | nil =>
    intro rest filename _ _ hrest
    cases rest with
    | nil => simp [parse_filename]
    | cons c cs =>
      have hc : c = 32 ∨ c = 10 ∨ c = 0 := by simpa using hrest
      have hcond : ¬ (c ≠ 0 ∧ c ≠ 32 ∧ c ≠ 10) := by omega
      simp only [List.nil_append, parse_filename, if_neg hcond, List.append_nil]
  | cons w ws ih =>
    intro rest filename hw hlen hrest
    have hw0 := hw w (List.mem_cons_self _ _)
    have hcond : w ≠ 0 ∧ w ≠ 32 ∧ w ≠ 10 := ⟨hw0.2.2, hw0.1, hw0.2.1⟩
    simp only [List.length_cons] at hlen
    have hfit : ¬ filename.length > MAX_FILENAME_LEN := by unfold MAX_FILENAME_LEN; omega
    simp only [List.cons_append, parse_filename, if_pos hcond, if_neg hfit]
    show parse_filename (ws ++ rest) (filename ++ [w]) = _
    rw [ih rest (filename ++ [w]) (fun c hc => hw c (List.mem_cons_of_mem _ hc))
      (by simp only [List.length_append, List.length_singleton]; omega) hrest]
    simp

theorem parse_args_tail (tail : List Nat) : ∀ (term args : List Nat),
    (∀ c ∈ tail, c ≠ 10 ∧ c ≠ 0) →
    args.length + tail.length ≤ 101 →
    (term = [] ∨ term.head? = some 10 ∨ term.head? = some 0) →
    parse_args (tail ++ term) args = some (args ++ tail) := by
  induction tail with
  | nil =>
    intro term args _ _ hterm
    cases term with
    | nil => simp [parse_args]
    | cons c cs =>
      have hc : c = 10 ∨ c = 0 := by simpa using hterm
      have hcond : ¬ (c ≠ 0 ∧ c ≠ 10) := by omega
      simp only [List.nil_append, parse_args, if_neg hcond, List.append_nil]
  | cons w ws ih =>
    intro term args hw hlen hterm
    have hw0 := hw w (List.mem_cons_self _ _)
    have hcond : w ≠ 0 ∧ w ≠ 10 := ⟨hw0.2, hw0.1⟩
    simp only [List.length_cons] at hlen
    have hfit : ¬ args.length > MAX_COMMAND_LEN := by unfold MAX_COMMAND_LEN; omega
    simp only [List.cons_append, parse_args, if_pos hcond, if_neg hfit]
    show parse_args (ws ++ term) (args ++ [w]) = _
    rw [ih term (args ++ [w]) (fun c hc => hw c (List.mem_cons_of_mem _ hc))
      (by simp only [List.length_append, List.length_singleton]; omega) hterm]
    simp

/-- C8: for a command made of `a` spaces, a first word of 1..32 bytes without space,
newline or NUL, `b` spaces, an argument tail of at most 100 bytes without newline or
NUL that does not begin with a space (`b ≥ 1` when the tail is not empty), and then the
end of the string, a NUL or a newline, the parser of `execute` leaves exactly the word
in `filename` and exactly the tail, interior and trailing spaces included, in `args`;
the result is the same for every number of leading and separating spaces. -/
theorem execute_parse_spec (a b : Nat) (word tail term : List Nat)
    (hw1 : 1 ≤ word.length) (hw2 : word.length ≤ 32)
    (hw : ∀ c ∈ word, c ≠ 32 ∧ c ≠ 10 ∧ c ≠ 0)
    (ht1 : tail.length ≤ 100) (ht : ∀ c ∈ tail, c ≠ 10 ∧ c ≠ 0)
    (ht0 : tail.head? ≠ some 32) (hb : tail ≠ [] → 1 ≤ b)
    (hterm : term = [] ∨ term.head? = some 10 ∨ term.head? = some 0) :
    execute_parse (List.replicate a 32 ++ word ++ List.replicate b 32 ++ tail ++ term)
      = some (word, tail) ∧
    ∀ a1 b1, (tail ≠ [] → 1 ≤ b1) →
      execute_parse (List.replicate a1 32 ++ word ++ List.replicate b1 32 ++ tail ++ term)
        = execute_parse (List.replicate a 32 ++ word ++ List.replicate b 32 ++ tail ++ term) := by
  have key : ∀ a1 b1, (tail ≠ [] → 1 ≤ b1) →
      execute_parse (List.replicate a1 32 ++ word ++ List.replicate b1 32 ++ tail ++ term)
        = some (word, tail) := by
    intro a1 b1 hb1
    have hword : word.head? ≠ some 32 := by
      cases word with
      | nil => simp
      | cons c cs =>
        have := (hw c (List.mem_cons_self _ _)).1
        simpa using this
    have htt : (tail ++ term).head? ≠ some 32 := by
      cases tail with
      | nil =>
        rcases hterm with h | h | h
        · simp [h]
        · simp [h]
        · simp [h]
      | cons c cs => simpa using ht0
    have hrest : (List.replicate b1 32 ++ (tail ++ term)) = [] ∨
        (List.replicate b1 32 ++ (tail ++ term)).head? = some 32 ∨
        (List.replicate b1 32 ++ (tail ++ term)).head? = some 10 ∨
        (List.replicate b1 32 ++ (tail ++ term)).head? = some 0 := by
      cases b1 with
      | zero =>
        have htn : tail = [] := by
          by_contra hne
          have := hb1 hne
          omega
        subst htn
        rcases hterm with h | h | h
        · left; simp [h]
        · right; right; left; simpa using h
        · right; right; right; simpa using h
      | succ n => right; left; simp [List.replicate_succ]
    unfold execute_parse
    rw [show List.replicate a1 32 ++ word ++ List.replicate b1 32 ++ tail ++ term
        = List.replicate a1 32 ++ (word ++ (List.replicate b1 32 ++ (tail ++ term))) by
      simp [List.append_assoc]]
    rw [skip_spaces_replicate, skip_spaces_no_space _ (by
      cases word with
      | nil => simp at hw1
      | cons c cs => simpa using hword)]
    rw [parse_filename_word word _ [] hw (by simp; omega) hrest]
    simp only [List.nil_append]
    rw [skip_spaces_replicate, skip_spaces_no_space _ htt,
      parse_args_tail tail term [] ht (by simp; omega) hterm]
    simp
  exact ⟨key a b hb, fun a1 b1 hb1 => by rw [key a1 b1 hb1, key a b hb]⟩

/-- Instance of `execute_parse_spec`: two leading spaces, the word `ab`, three
separating spaces, the tail `c d ` (with an interior and a trailing space) and a
newline. -/
theorem execute_parse_spec_witness :
    execute_parse (List.replicate 2 32 ++ [97, 98] ++ List.replicate 3 32 ++ [99, 32, 100, 32] ++ [10])
      = some ([97, 98], [99, 32, 100, 32]) ∧
    ∀ a1 b1, (([99, 32, 100, 32] : List Nat) ≠ [] → 1 ≤ b1) →
      execute_parse (List.replicate a1 32 ++ [97, 98] ++ List.replicate b1 32 ++ [99, 32, 100, 32] ++ [10])
        = execute_parse
            (List.replicate 2 32 ++ [97, 98] ++ List.replicate 3 32 ++ [99, 32, 100, 32] ++ [10]) :=
  execute_parse_spec 2 3 [97, 98] [99, 32, 100, 32] [10] (by decide) (by decide) (by decide)
    (by decide) (by decide) (by decide) (by decide) (by decide)

/-! ### `execute` -/

theorem copy_to_va_frame (s : KState) (filename : Option (List Nat)) (va len : Nat)
    (r : Int) (s1 : KState) (h : copy_to_va s filename va len = some (r, s1)) :
    s1.fs = s.fs ∧ s1.pid_status = s.pid_status ∧ s1.cur_terminal = s.cur_terminal ∧
    s1.display_terminal = s.display_terminal ∧ s1.terminals = s.terminals ∧
    s1.page_directory = s.page_directory ∧ s1.tss_ss0 = s.tss_ss0 ∧ s1.tss_esp0 = s.tss_esp0 ∧
    s1.pcb_mem = s.pcb_mem := by
  unfold copy_to_va at h
  cases filename with
  | none =>
    simp only [Option.some.injEq, Prod.mk.injEq] at h
    obtain ⟨_, h2⟩ := h
    subst h2
    simp
  | some name =>
    simp only at h
    split at h
    · split at h
      · simp at h
      · simp only [Option.some.injEq, Prod.mk.injEq] at h
        obtain ⟨_, h2⟩ := h
        subst h2
        simp
    · simp only [Option.some.injEq, Prod.mk.injEq] at h
      obtain ⟨_, h2⟩ := h
      subst h2
      simp

/-- A call of `execute` that returns leaves the state as it was and returns -1. -/
theorem execute_returned (s : KState) (command : Option (List Nat)) (ELF_chars : Buffer)
    (esp ebp : Nat) (v : Int) (s1 : KState)
    (h : execute s command ELF_chars esp ebp = some (.returned v, s1)) :
    v = -1 ∧ s1 = s := by
  unfold execute at h
  cases command with
  | none => simp at h; exact ⟨h.1.symm, h.2.symm⟩
  | some cmd =>
    simp only at h
    split at h
    · simp at h; exact ⟨h.1.symm, h.2.symm⟩
    · split at h
      · simp at h
      · split at h
        · simp at h; exact ⟨h.1.symm, h.2.symm⟩
        · split at h
          · simp at h; exact ⟨h.1.symm, h.2.symm⟩
          · unfold execute_launch at h
            dsimp only at h
            split at h
            · simp at h
            · simp at h

theorem modify_pcb_same_created_fields (s : KState) (a : Nat) (f : PCB → PCB)
    (hf : ∀ q, (f q).same_created_fields q) (x : Nat) :
    ((s.modify_pcb a f).pcb_mem x).same_created_fields (s.pcb_mem x) := by
  unfold KState.modify_pcb
  by_cases hx : x = a
  · subst hx
    simp only [Function.update_same]
    exact hf _
  · simp only [Function.update_noteq hx]
    exact ⟨rfl, rfl, rfl, rfl⟩

theorem same_created_fields_trans {a b c : PCB} (h1 : a.same_created_fields b)
    (h2 : b.same_created_fields c) : a.same_created_fields c :=
  ⟨h1.1.trans h2.1, h1.2.1.trans h2.2.1, h1.2.2.1.trans h2.2.2.1, h1.2.2.2.trans h2.2.2.2⟩

theorem execute_link_parent_frame (s : KState) (pcb esp ebp : Nat) :
    (execute_link_parent s pcb esp ebp).cur_terminal = s.cur_terminal ∧
    (execute_link_parent s pcb esp ebp).terminals = s.terminals ∧
    ∀ x, ((execute_link_parent s pcb esp ebp).pcb_mem x).same_created_fields (s.pcb_mem x) := by
  unfold execute_link_parent
  split
  · refine ⟨rfl, rfl, fun x => ?_⟩
    dsimp only
    have e1 := modify_pcb_same_created_fields s (s.terminals (s.pcb_mem pcb).tid).pcb
      (fun q => { q with child := pcb }) (fun q => ⟨rfl, rfl, rfl, rfl⟩) x
    have e2 := modify_pcb_same_created_fields
      (s.modify_pcb (s.terminals (s.pcb_mem pcb).tid).pcb (fun q => { q with child := pcb })) pcb
      (fun q => { q with parent := (s.terminals (s.pcb_mem pcb).tid).pcb })
      (fun q => ⟨rfl, rfl, rfl, rfl⟩) x
    have e3 := modify_pcb_same_created_fields
      ((s.modify_pcb (s.terminals (s.pcb_mem pcb).tid).pcb
        (fun q => { q with child := pcb })).modify_pcb pcb
        (fun q => { q with parent := (s.terminals (s.pcb_mem pcb).tid).pcb }))
      (s.terminals (s.pcb_mem pcb).tid).pcb
      (fun q => { q with esp := esp }) (fun q => ⟨rfl, rfl, rfl, rfl⟩) x
    have e4 := modify_pcb_same_created_fields
      (((s.modify_pcb (s.terminals (s.pcb_mem pcb).tid).pcb
        (fun q => { q with child := pcb })).modify_pcb pcb
        (fun q => { q with parent := (s.terminals (s.pcb_mem pcb).tid).pcb })).modify_pcb
        (s.terminals (s.pcb_mem pcb).tid).pcb (fun q => { q with esp := esp }))
      (s.terminals (s.pcb_mem pcb).tid).pcb
      (fun q => { q with ebp := ebp }) (fun q => ⟨rfl, rfl, rfl, rfl⟩) x
    exact same_created_fields_trans e4 (same_created_fields_trans e3
      (same_created_fields_trans e2 e1))
  · exact ⟨rfl, rfl, fun x => ⟨rfl, rfl, rfl, rfl⟩⟩

theorem execute_update_terminal_frame (s : KState) (cur_pid pcb : Nat) :
    (execute_update_terminal s cur_pid pcb).cur_terminal = s.cur_terminal ∧
    (execute_update_terminal s cur_pid pcb).pcb_mem = s.pcb_mem ∧
    ((execute_update_terminal s cur_pid pcb).terminals s.cur_terminal).pcb = pcb ∧
    ((execute_update_terminal s cur_pid pcb).terminals s.cur_terminal).pid = cur_pid := by
  simp [execute_update_terminal]

/-- What `execute` leaves behind once a pid has been found: it enters user mode, the
current terminal points at the PCB of the pid, and that PCB carries the descriptor
table, arguments, pid and tid written by the PCB-creation block. -/
theorem execute_launch_spec (s : KState) (filename args : List Nat) (cur_pid esp ebp : Nat)
    (o : exec_outcome) (s1 : KState)
    (h : execute_launch s filename args cur_pid esp ebp = some (o, s1)) :
    (∃ eip, o = .entered_user eip) ∧
    s1.cur_terminal = s.cur_terminal ∧
    (s1.terminals s1.cur_terminal).pcb = MB_8 - KB_8 * (cur_pid + 1) ∧
    (s1.pcb_mem (MB_8 - KB_8 * (cur_pid + 1))).same_created_fields
      (execute_create_pcb (s.pcb_mem (MB_8 - KB_8 * (cur_pid + 1))) cur_pid s.cur_terminal args) := by
  unfold execute_launch at h
  dsimp only at h
  split at h
  · simp at h
  · rename_i x s3 hcopy
    obtain ⟨_, _, f3, _, _, _, _, _, f9⟩ := copy_to_va_frame _ _ _ _ _ _ hcopy
    simp only [paging_syscall] at f3 f9
    simp only [Option.some.injEq, Prod.mk.injEq] at h
    obtain ⟨h1, h2⟩ := h
    obtain ⟨l1, l2, l3⟩ := execute_link_parent_frame
      (s3.modify_pcb (MB_8 - KB_8 * (cur_pid + 1))
        (fun q => execute_create_pcb q cur_pid s3.cur_terminal args))
      (MB_8 - KB_8 * (cur_pid + 1)) esp ebp
    obtain ⟨u1, u2, u3, _⟩ := execute_update_terminal_frame
      (execute_link_parent (s3.modify_pcb (MB_8 - KB_8 * (cur_pid + 1))
        (fun q => execute_create_pcb q cur_pid s3.cur_terminal args))
        (MB_8 - KB_8 * (cur_pid + 1)) esp ebp) cur_pid (MB_8 - KB_8 * (cur_pid + 1))
    have hct : s1.cur_terminal = s.cur_terminal := by
      rw [← h2]
      exact u1.trans (l1.trans f3)
    have hl : (execute_link_parent (s3.modify_pcb (MB_8 - KB_8 * (cur_pid + 1))
        (fun q => execute_create_pcb q cur_pid s3.cur_terminal args))
        (MB_8 - KB_8 * (cur_pid + 1)) esp ebp).cur_terminal = s.cur_terminal := l1.trans f3
    refine ⟨⟨_, h1.symm⟩, hct, ?_, ?_⟩
    · rw [hct, ← h2]
      rw [hl] at u3
      exact u3
    · rw [← h2]
      have m1 := modify_pcb_same_created_fields
        (execute_update_terminal
          (execute_link_parent (s3.modify_pcb (MB_8 - KB_8 * (cur_pid + 1))
            (fun q => execute_create_pcb q cur_pid s3.cur_terminal args))
            (MB_8 - KB_8 * (cur_pid + 1)) esp ebp) cur_pid (MB_8 - KB_8 * (cur_pid + 1)))
        (MB_8 - KB_8 * (cur_pid + 1))
        (fun q => { q with eip := entry_point (execute_update_terminal
          (execute_link_parent (s3.modify_pcb (MB_8 - KB_8 * (cur_pid + 1))
            (fun q => execute_create_pcb q cur_pid s3.cur_terminal args))
            (MB_8 - KB_8 * (cur_pid + 1)) esp ebp) cur_pid (MB_8 - KB_8 * (cur_pid + 1))) })
        (fun q => ⟨rfl, rfl, rfl, rfl⟩) (MB_8 - KB_8 * (cur_pid + 1))
      refine same_created_fields_trans m1 ?_
      rw [u2]
      refine same_created_fields_trans (l3 _) ?_
      simp only [KState.modify_pcb, Function.update_same, f9, f3]
      exact ⟨rfl, rfl, rfl, rfl⟩

/-- A call of `execute` that enters user mode: the command was parsed, the file passed
`is_executable`, a pid was found, and the PCB at the address of that pid carries the
descriptor table, arguments, pid and tid written by the PCB-creation block. -/
theorem execute_entered (s : KState) (command : Option (List Nat)) (ELF_chars : Buffer)
    (esp ebp eip : Nat) (s1 : KState)
    (h : execute s command ELF_chars esp ebp = some (.entered_user eip, s1)) :
    ∃ cmd filename args, command = some cmd ∧ execute_parse cmd = some (filename, args) ∧
      is_executable s.fs (some filename) ELF_chars = some 1 ∧
      find_avail_pid s ≠ -1 ∧
      s1.cur_terminal = s.cur_terminal ∧
      (s1.terminals s1.cur_terminal).pcb = MB_8 - KB_8 * ((find_avail_pid s).toNat + 1) ∧
      (s1.pcb_mem (MB_8 - KB_8 * ((find_avail_pid s).toNat + 1))).same_created_fields
        (execute_create_pcb (s.pcb_mem (MB_8 - KB_8 * ((find_avail_pid s).toNat + 1)))
          (find_avail_pid s).toNat s.cur_terminal args) := by
  unfold execute at h
  cases command with
  | none => simp at h
  | some cmd =>
    simp only at h
    split at h
    · simp at h
    · rename_i filename args hparse
      split at h
      · simp at h
      · rename_i r hexe
        split at h
        · simp at h
        · rename_i hr
          split at h
          · simp at h
          · rename_i hpid
            have hr1 : r = 1 := by
              by_contra hne
              exact hr hne
            subst hr1
            obtain ⟨_, a, b, c⟩ := execute_launch_spec _ _ _ _ _ _ _ _ h
            exact ⟨cmd, filename, args, rfl, hparse, hexe, hpid, a, b, c⟩

/-! ### The PCB built by `execute` -/

theorem store_arg_byte_file_array (pcb : PCB) (i b : Nat) :
    (pcb.store_arg_byte i b).file_array = pcb.file_array := by
  unfold PCB.store_arg_byte
  split
  · rfl
  · split
    · rfl
    · split <;> rfl

theorem strcpy_exe_args_file_array (args : List Nat) : ∀ (pcb : PCB) (i : Nat),
    (strcpy_exe_args pcb i args).file_array = pcb.file_array := by
  induction args with
  | nil => intro pcb i; exact store_arg_byte_file_array pcb i 0
  | cons c cs ih =>
    intro pcb i
    unfold strcpy_exe_args
    split
    · exact store_arg_byte_file_array pcb i 0
    · rw [ih, store_arg_byte_file_array]

/-- The descriptor table after the PCB-creation block: entries 0 and 1 receive the
stdin and stdout tables and `flags = 1`; no other entry is written. -/
theorem execute_create_pcb_file_array (pcb : PCB) (cur_pid cur_terminal : Nat) (args : List Nat) :
    ((execute_create_pcb pcb cur_pid cur_terminal args).file_array 0).fops_table = stdin_fops ∧
    ((execute_create_pcb pcb cur_pid cur_terminal args).file_array 0).flags = 1 ∧
    ((execute_create_pcb pcb cur_pid cur_terminal args).file_array 1).fops_table = stdout_fops ∧
    ((execute_create_pcb pcb cur_pid cur_terminal args).file_array 1).flags = 1 ∧
    ∀ i : Int, i ≠ 0 → i ≠ 1 →
      (execute_create_pcb pcb cur_pid cur_terminal args).file_array i = pcb.file_array i := by
  unfold execute_create_pcb
  simp only [strcpy_exe_args_file_array, PCB.modify_fd, STDIN_IDX, STDOUT_IDX]
  refine ⟨by simp, by simp, by simp, by simp, ?_⟩
  intro i h0 h1
  simp [Function.update_noteq h0, Function.update_noteq h1]

/-- C9 (as the code has it): once `execute` has built the PCB of a new process,
descriptor 0 is in use with a read and a close operation and no write operation,
descriptor 1 is in use with a write and a close operation and no read operation, and
every other descriptor is exactly what the memory of that PCB held before the call;
descriptors 2..7 are therefore unused when that memory held `flags = 0` for them. -/
theorem execute_fd_table (s : KState) (command : Option (List Nat)) (ELF_chars : Buffer)
    (esp ebp eip : Nat) (s1 : KState)
    (h : execute s command ELF_chars esp ebp = some (.entered_user eip, s1)) :
    (s1.terminals s1.cur_terminal).pcb = MB_8 - KB_8 * ((find_avail_pid s).toNat + 1) ∧
    (((s1.pcb_mem (s1.terminals s1.cur_terminal).pcb).file_array 0).flags = 1 ∧
      ((s1.pcb_mem (s1.terminals s1.cur_terminal).pcb).file_array 0).fops_table.read
        = some .terminal_read ∧
      ((s1.pcb_mem (s1.terminals s1.cur_terminal).pcb).file_array 0).fops_table.close
        = some .terminal_close ∧
      ((s1.pcb_mem (s1.terminals s1.cur_terminal).pcb).file_array 0).fops_table.write = none) ∧
    (((s1.pcb_mem (s1.terminals s1.cur_terminal).pcb).file_array 1).flags = 1 ∧
      ((s1.pcb_mem (s1.terminals s1.cur_terminal).pcb).file_array 1).fops_table.write
        = some .terminal_write ∧
      ((s1.pcb_mem (s1.terminals s1.cur_terminal).pcb).file_array 1).fops_table.close
        = some .terminal_close ∧
      ((s1.pcb_mem (s1.terminals s1.cur_terminal).pcb).file_array 1).fops_table.read = none) ∧
    (∀ i : Int, i ≠ 0 → i ≠ 1 →
      (s1.pcb_mem (s1.terminals s1.cur_terminal).pcb).file_array i
        = (s.pcb_mem (MB_8 - KB_8 * ((find_avail_pid s).toNat + 1))).file_array i) ∧
    ((∀ i : Int, 2 ≤ i → i ≤ 7 →
        ((s.pcb_mem (MB_8 - KB_8 * ((find_avail_pid s).toNat + 1))).file_array i).flags = 0) →
      ∀ i : Int, 2 ≤ i → i ≤ 7 →
        ((s1.pcb_mem (s1.terminals s1.cur_terminal).pcb).file_array i).flags = 0) := by
  obtain ⟨cmd, filename, args, _, _, _, _, _, hp, hsame⟩ :=
    execute_entered s command ELF_chars esp ebp eip s1 h
  obtain ⟨a0, a1, b0, b1, rest⟩ := execute_create_pcb_file_array
    (s.pcb_mem (MB_8 - KB_8 * ((find_avail_pid s).toNat + 1)))
    (find_avail_pid s).toNat s.cur_terminal args
  rw [hp, hsame.1]
  refine ⟨rfl, ⟨a1, ?_, ?_, ?_⟩, ⟨b1, ?_, ?_, ?_⟩, rest, ?_⟩
  · rw [a0]; rfl
  · rw [a0]; rfl
  · rw [a0]; rfl
  · rw [b0]; rfl
  · rw [b0]; rfl
  · rw [b0]; rfl
  · intro hz i h2 h7
    rw [rest i (by omega) (by omega)]
    exact hz i h2 h7

/-- Instance of `execute_fd_table`: executing the file of the demo image from the demo
state. -/
theorem execute_fd_table_witness :
    ∃ eip s1, execute demo_state (some [97]) (fun _ => 0) 0 0 = some (.entered_user eip, s1) ∧
      ((s1.pcb_mem (s1.terminals s1.cur_terminal).pcb).file_array 0).flags = 1 ∧
      ((s1.pcb_mem (s1.terminals s1.cur_terminal).pcb).file_array 1).fops_table.read = none := by
  have hd : (execute demo_state (some [97]) (fun _ => 0) 0 0).map (fun r => r.1)
      = some (.entered_user 454695192) := by decide
  cases hr : execute demo_state (some [97]) (fun _ => 0) 0 0 with
  | none => simp [hr] at hd
  | some r =>
    obtain ⟨o, s1⟩ := r
    simp only [hr, Option.map_some', Option.some.injEq] at hd
    subst hd
    have hspec := execute_fd_table demo_state (some [97]) (fun _ => 0) 0 0 454695192 s1 hr
    exact ⟨454695192, s1, rfl, hspec.2.1.1, hspec.2.2.1.2.2.2⟩

/-- C9 as stated fails: in the demo state the memory under the PCB of pid 1 holds a
record whose descriptor 2 is in use; after `execute` has built the PCB of the new
process there, its descriptor 2 is still marked in use. -/
theorem execute_leaves_stale_descriptor :
    (execute demo_state (some [97]) (fun _ => 0) 0 0).map
        (fun r => ((r.2.pcb_mem (r.2.terminals r.2.cur_terminal).pcb).file_array 2).flags)
      = some 1 := by
  decide

theorem strcpy_exe_args_short (args : List Nat) : ∀ (pcb : PCB) (i : Nat),
    i + args.length < 32 →
    (strcpy_exe_args pcb i args).pid = pcb.pid ∧ (strcpy_exe_args pcb i args).tid = pcb.tid := by
  induction args with
  | nil =>
    intro pcb i hi
    have : i < MAX_ARG_SEQ_SIZE := by unfold MAX_ARG_SEQ_SIZE; simpa using hi
    simp [strcpy_exe_args, PCB.store_arg_byte, this]
  | cons c cs ih =>
    intro pcb i hi
    simp only [List.length_cons] at hi
    have hlt : i < MAX_ARG_SEQ_SIZE := by unfold MAX_ARG_SEQ_SIZE; omega
    unfold strcpy_exe_args
    split
    · simp [PCB.store_arg_byte, hlt]
    · obtain ⟨h1, h2⟩ := ih (pcb.store_arg_byte i c) (i + 1) (by omega)
      rw [h1, h2]
      simp [PCB.store_arg_byte, hlt]

/-- For an argument tail shorter than 32 bytes the copy into `exe_args` stays inside
the buffer: the PCB keeps the pid and tid written just before. -/
theorem execute_create_pcb_short_args (pcb : PCB) (cur_pid cur_terminal : Nat) (args : List Nat)
    (hlen : args.length < 32) :
    (execute_create_pcb pcb cur_pid cur_terminal args).pid = cur_pid ∧
    (execute_create_pcb pcb cur_pid cur_terminal args).tid = cur_terminal := by
  unfold execute_create_pcb
  obtain ⟨h1, h2⟩ := strcpy_exe_args_short args
    ((((({ ({ pcb with pid := cur_pid } : PCB) with tid := cur_terminal } : PCB).modify_fd STDIN_IDX
      (fun e => { e with fops_table := stdin_fops })).modify_fd STDIN_IDX
      (fun e => { e with flags := 1 })).modify_fd STDOUT_IDX
      (fun e => { e with fops_table := stdout_fops })).modify_fd STDOUT_IDX
      (fun e => { e with flags := 1 })) 0 (by omega)
  exact ⟨h1, h2⟩

/-- C10 fails on the code: with an argument tail of 33 bytes, which the parser lets
through, `execute` claims pid 1 and builds the PCB at `8 MiB - 8 KiB * 2`, but the
copy of the arguments runs past the 32-byte buffer and the pid field of that PCB ends
up as 120 (the byte `x`); with a tail of 40 bytes the tid field is overwritten too. -/
theorem execute_args_overwrite_pid :
    (execute demo_state (some ([97, 32] ++ List.replicate 33 120)) (fun _ => 0) 0 0).map
        (fun r => ((r.2.terminals r.2.cur_terminal).pid, (r.2.terminals r.2.cur_terminal).pcb,
          (r.2.pcb_mem (MB_8 - KB_8 * 2)).pid, (r.2.pcb_mem (MB_8 - KB_8 * 2)).tid))
      = some (1, MB_8 - KB_8 * 2, 120, 0) ∧
    (execute demo_state (some ([97, 32] ++ List.replicate 40 120)) (fun _ => 0) 0 0).map
        (fun r => ((r.2.terminals r.2.cur_terminal).pid, r.2.cur_terminal,
          (r.2.pcb_mem (MB_8 - KB_8 * 2)).pid, (r.2.pcb_mem (MB_8 - KB_8 * 2)).tid))
      = some (1, 0, 2021161080, 2021161080) := by
  constructor <;> decide

/-! ### Failure paths of `execute` -/

theorem find_avail_pid_loop_full (pid_status : Nat → Int) : ∀ (n j : Nat),
    (∀ k, j ≤ k → k < j + n → pid_status k = 1) → find_avail_pid_loop pid_status n j = -1 := by
  intro n
  induction n with
  | zero => intro j _; rfl
  | succ n ih =>
    intro j h
    unfold find_avail_pid_loop
    rw [if_neg (by simp [h j (le_refl _) (by omega)])]
    exact ih (j + 1) (fun k h1 h2 => h k (by omega) (by omega))

/-- The calls that `execute` rejects: a null command, a command the parser refuses, a
file that `is_executable` does not accept (in particular a name that is not found or
a file whose type is not 2), and a full pid table.  Each returns -1 and leaves the
state as it was. -/
theorem execute_rejects (s : KState) (ELF_chars : Buffer) (esp ebp : Nat) :
    execute s none ELF_chars esp ebp = some (.returned (-1), s) ∧
    (∀ cmd, execute_parse cmd = none →
      execute s (some cmd) ELF_chars esp ebp = some (.returned (-1), s)) ∧
    (∀ cmd filename args r, execute_parse cmd = some (filename, args) →
      is_executable s.fs (some filename) ELF_chars = some r → r ≠ 1 →
      execute s (some cmd) ELF_chars esp ebp = some (.returned (-1), s)) ∧
    (∀ cmd filename args, execute_parse cmd = some (filename, args) →
      ((read_dentry_by_name s.fs (some filename) (some uninit_dentry)).1 ≠ 0 ∨
        ((read_dentry_by_name s.fs (some filename) (some uninit_dentry)).2.getD
          uninit_dentry).filetype ≠ 2) →
      execute s (some cmd) ELF_chars esp ebp = some (.returned (-1), s)) ∧
    (∀ cmd filename args, execute_parse cmd = some (filename, args) →
      is_executable s.fs (some filename) ELF_chars = some 1 →
      (∀ k, k < 6 → s.pid_status k = 1) →
      execute s (some cmd) ELF_chars esp ebp = some (.returned (-1), s)) := by
  refine ⟨rfl, ?_, ?_, ?_, ?_⟩
  · intro cmd h
    simp [execute, h]
  · intro cmd filename args r hp he hr
    simp [execute, hp, he, hr]
  · intro cmd filename args hp hno
    have he : is_executable s.fs (some filename) ELF_chars = some (-1) := by
      unfold is_executable
      rcases hno with h | h
      · simp [h]
      · simp only
        split
        · simp [h]
        · rfl
    simp [execute, hp, he]
  · intro cmd filename args hp he hfull
    have hpid : find_avail_pid s = -1 :=
      find_avail_pid_loop_full s.pid_status 6 0 (fun k _ h2 => hfull k (by omega))
    simp [execute, hp, he, hpid]

/-- C7 fails on the code: the only file of the image behind `empty_file_state` has
type 2 and no bytes at all, so it is not an executable; when the stack bytes under
`ELF_chars` are the magic number, `execute` of that file does not return -1: it
claims pid 1, remaps directory slot 32, moves the TSS stack pointer and enters user
mode. -/
theorem execute_empty_file_not_rejected :
    file_bytes empty_file_state.fs 0 = [] ∧
    (empty_file_state.pid_status 1, empty_file_state.page_directory 32,
      empty_file_state.tss_esp0) = (0, 0, 0) ∧
    (execute empty_file_state (some [97]) elf_magic 0 0).map
        (fun r => (r.1, r.2.pid_status 1, r.2.page_directory 32, r.2.tss_esp0))
      = some (.entered_user 0, 1, 12583047, 8380412) := by
  refine ⟨by decide, by decide, by decide⟩

/-! ### Descriptors 0 and 1 -/

theorem open_scan_ge (pcb : PCB) : ∀ (n : Nat) (i0 i : Int),
    open_scan pcb n i0 = some i → i0 ≤ i := by
  intro n
  induction n with
  | zero =>
    intro i0 i h
    simp only [open_scan, Option.some.injEq] at h
    omega
  | succ n ih =>
    intro i0 i h
    unfold open_scan at h
    split at h
    · simp only [Option.some.injEq] at h
      omega
    · split at h
      · simp at h
      · have := ih (i0 + 1) i h
        omega

theorem modify_fd_other (pcb : PCB) (i j : Int) (f : open_file → open_file) (h : j ≠ i) :
    (pcb.modify_fd i f).file_array j = pcb.file_array j := by
  simp [PCB.modify_fd, Function.update_noteq h]

/-- Updating entry `i ≥ 2` of the running process leaves its entries 0 and 1 alone. -/
theorem modify_pcb_fd_keeps (s : KState) (i j : Int) (f g : open_file → open_file)
    (h : j ≠ i) :
    ((s.modify_pcb (s.terminals s.cur_terminal).pcb
        (fun q => (q.modify_fd i f).modify_fd i g)).pcb_mem
      (s.terminals s.cur_terminal).pcb).file_array j
      = (s.pcb_mem (s.terminals s.cur_terminal).pcb).file_array j := by
  simp [KState.modify_pcb, PCB.modify_fd, Function.update_noteq h]

/-- The system call `open` does not touch descriptors 0 and 1 of the running process,
nor the terminal that is running. -/
theorem sys_open_keeps_low (s : KState) (filename : Option (List Nat)) (j : Int) (hj : j < 2) :
    (sys_open s filename).2.cur_terminal = s.cur_terminal ∧
    (sys_open s filename).2.terminals = s.terminals ∧
    ((sys_open s filename).2.pcb_mem (s.terminals s.cur_terminal).pcb).file_array j
      = (s.pcb_mem (s.terminals s.cur_terminal).pcb).file_array j := by
  unfold sys_open
  cases filename with
  | none => exact ⟨rfl, rfl, rfl⟩
  | some name =>
    dsimp only
    split
    · exact ⟨rfl, rfl, rfl⟩
    · split
      · exact ⟨rfl, rfl, rfl⟩
      · rename_i i hscan
        have hi : 2 ≤ i := open_scan_ge _ _ _ _ hscan
        have hne : j ≠ i := by omega
        have hdo : (directory_open s (some name)).2.cur_terminal = s.cur_terminal ∧
            (directory_open s (some name)).2.terminals = s.terminals ∧
            (directory_open s (some name)).2.pcb_mem = s.pcb_mem := by
          unfold directory_open
          dsimp only
          split
          · split <;> exact ⟨rfl, rfl, rfl⟩
          · exact ⟨rfl, rfl, rfl⟩
        have hfo : (file_open s (some name)).2.cur_terminal = s.cur_terminal ∧
            (file_open s (some name)).2.terminals = s.terminals ∧
            (file_open s (some name)).2.pcb_mem = s.pcb_mem := by
          unfold file_open
          dsimp only
          split <;> exact ⟨rfl, rfl, rfl⟩
        split
        · split
          · exact ⟨rfl, rfl, rfl⟩
          · refine ⟨rfl, rfl, ?_⟩
            simp [KState.modify_pcb, PCB.modify_fd, Function.update_noteq hne]
        · split
          · split
            · exact ⟨hdo.1, hdo.2.1, by rw [hdo.2.2]⟩
            · refine ⟨hdo.1, hdo.2.1, ?_⟩
              simp [KState.modify_pcb, PCB.modify_fd, Function.update_noteq hne, hdo.2.2]
          · split
            · split
              · exact ⟨hfo.1, hfo.2.1, by rw [hfo.2.2]⟩
              · refine ⟨hfo.1, hfo.2.1, ?_⟩
                simp [KState.modify_pcb, PCB.modify_fd, Function.update_noteq hne, hfo.2.2]
            · refine ⟨rfl, rfl, ?_⟩
              simp [KState.modify_pcb, PCB.modify_fd, Function.update_noteq hne]

/-- The system call `close` does not touch descriptors 0 and 1 of the running
process, nor the terminal that is running. -/
theorem sys_close_keeps_low (s : KState) (fd j : Int) (hj : j < 2) :
    (sys_close s fd).2.cur_terminal = s.cur_terminal ∧
    (sys_close s fd).2.terminals = s.terminals ∧
    ((sys_close s fd).2.pcb_mem (s.terminals s.cur_terminal).pcb).file_array j
      = (s.pcb_mem (s.terminals s.cur_terminal).pcb).file_array j := by
  unfold sys_close
  split
  · exact ⟨rfl, rfl, rfl⟩
  · rename_i hr
    have hne : j ≠ fd := by unfold FD_MIN at hr; omega
    dsimp only
    split
    · exact ⟨rfl, rfl, rfl⟩
    · split
      · exact ⟨rfl, rfl, rfl⟩
      · split
        · refine ⟨rfl, rfl, ?_⟩
          simp [KState.modify_pcb, PCB.modify_fd, Function.update_noteq hne]
        · rename_i f _
          obtain ⟨_, _, c3, c4, c5⟩ := call_close_ret f
            (s.modify_pcb (s.terminals s.cur_terminal).pcb (fun q =>
              (q.modify_fd fd (fun e => { e with file_position := 0 })).modify_fd fd
                (fun e => { e with flags := NOT_IN_USE }))) fd
          refine ⟨c4, c5, ?_⟩
          rw [c3]
          simp [KState.modify_pcb, PCB.modify_fd, Function.update_noteq hne]

/-! ### The system calls `read` and `write` -/

/-- C5: whatever the functions behind the operations tables do, `read` and `write`
return -1 and leave state and buffer untouched (no operation is called) when `fd` is
outside `[0, 7]`, the buffer is null, the count is negative, the entry's flags are 0 or
its read (respectively write) pointer is null; in every other case the result is
exactly the result of the call through the entry's own read (respectively write)
pointer.  `execute` enters a new process with the stdin and stdout entries in
descriptors 0 and 1; with these entries `read` on descriptor 1 and `write` on
descriptor 0 return -1, and `open` and `close` keep the two entries in place. -/
theorem sys_read_write_spec (ops : fop_calls) (s : KState) (fd : Int) (buf : Option Buffer)
    (nbytes : Int) :
    ((fd < 0 ∨ fd > 7 ∨ buf = none ∨ nbytes < 0 ∨
        ((s.pcb_mem (s.terminals s.cur_terminal).pcb).file_array fd).flags = 0 ∨
        ((s.pcb_mem (s.terminals s.cur_terminal).pcb).file_array fd).fops_table.read = none) →
      sys_read ops s fd buf nbytes = (-1, s, buf)) ∧
    (∀ f, 0 ≤ fd → fd ≤ 7 → buf ≠ none → 0 ≤ nbytes →
      ((s.pcb_mem (s.terminals s.cur_terminal).pcb).file_array fd).flags ≠ 0 →
      ((s.pcb_mem (s.terminals s.cur_terminal).pcb).file_array fd).fops_table.read = some f →
      sys_read ops s fd buf nbytes = ops.call_read f fd buf nbytes s) ∧
    ((fd < 0 ∨ fd > 7 ∨ buf = none ∨ nbytes < 0 ∨
        ((s.pcb_mem (s.terminals s.cur_terminal).pcb).file_array fd).flags = 0 ∨
        ((s.pcb_mem (s.terminals s.cur_terminal).pcb).file_array fd).fops_table.write = none) →
      sys_write ops s fd buf nbytes = (-1, s, buf)) ∧
    (∀ f, 0 ≤ fd → fd ≤ 7 → buf ≠ none → 0 ≤ nbytes →
      ((s.pcb_mem (s.terminals s.cur_terminal).pcb).file_array fd).flags ≠ 0 →
      ((s.pcb_mem (s.terminals s.cur_terminal).pcb).file_array fd).fops_table.write = some f →
      sys_write ops s fd buf nbytes = ops.call_write f fd buf nbytes s) ∧
    (∀ (s0 : KState) (command : Option (List Nat)) (ELF_chars : Buffer) (esp ebp eip : Nat),
      execute s0 command ELF_chars esp ebp = some (.entered_user eip, s) → std_descriptors s) ∧
    (std_descriptors s →
      sys_read ops s 1 buf nbytes = (-1, s, buf) ∧
      sys_write ops s 0 buf nbytes = (-1, s, buf) ∧
      (∀ filename, std_descriptors (sys_open s filename).2) ∧
      (∀ fd1, std_descriptors (sys_close s fd1).2)) := by
  have hread : (fd < 0 ∨ fd > 7 ∨ buf = none ∨ nbytes < 0 ∨
        ((s.pcb_mem (s.terminals s.cur_terminal).pcb).file_array fd).flags = 0 ∨
        ((s.pcb_mem (s.terminals s.cur_terminal).pcb).file_array fd).fops_table.read = none) →
      sys_read ops s fd buf nbytes = (-1, s, buf) := by
    intro h
    unfold sys_read
    by_cases hg : fd < 0 ∨ fd > FD_MAX ∨ buf.isNone = true ∨ nbytes < 0
    · rw [if_pos hg]
    · rw [if_neg hg]
      simp only [FD_MAX, Option.isNone_iff_eq_none, not_or, not_lt] at hg
      by_cases hfl : ((s.pcb_mem (s.terminals s.cur_terminal).pcb).file_array fd).flags = 0
      · simp only [NOT_IN_USE, hfl, if_true]
      · simp only [NOT_IN_USE, hfl, if_false]
        have hn : ((s.pcb_mem (s.terminals s.cur_terminal).pcb).file_array fd).fops_table.read
            = none := by
          rcases h with h | h | h | h | h | h
          · omega
          · omega
          · exact absurd h hg.2.2.1
          · omega
          · exact absurd h hfl
          · exact h
        rw [hn]
  have hwrite : (fd < 0 ∨ fd > 7 ∨ buf = none ∨ nbytes < 0 ∨
        ((s.pcb_mem (s.terminals s.cur_terminal).pcb).file_array fd).flags = 0 ∨
        ((s.pcb_mem (s.terminals s.cur_terminal).pcb).file_array fd).fops_table.write = none) →
      sys_write ops s fd buf nbytes = (-1, s, buf) := by
    intro h
    unfold sys_write
    by_cases hg : fd < 0 ∨ fd > FD_MAX ∨ buf.isNone = true ∨ nbytes < 0
    · rw [if_pos hg]
    · rw [if_neg hg]
      simp only [FD_MAX, Option.isNone_iff_eq_none, not_or, not_lt] at hg
      by_cases hfl : ((s.pcb_mem (s.terminals s.cur_terminal).pcb).file_array fd).flags = 0
      · simp only [NOT_IN_USE, hfl, if_true]
      · simp only [NOT_IN_USE, hfl, if_false]
        have hn : ((s.pcb_mem (s.terminals s.cur_terminal).pcb).file_array fd).fops_table.write
            = none := by
          rcases h with h | h | h | h | h | h
          · omega
          · omega
          · exact absurd h hg.2.2.1
          · omega
          · exact absurd h hfl
          · exact h
        rw [hn]
  refine ⟨hread, ?_, hwrite, ?_, ?_, ?_⟩
  · intro f h0 h7 hb hn hfl hf
    have hg : ¬ (fd < 0 ∨ fd > FD_MAX ∨ buf.isNone = true ∨ nbytes < 0) := by
      simp only [FD_MAX, Option.isNone_iff_eq_none, not_or, not_lt]
      exact ⟨h0, h7, hb, hn⟩
    unfold sys_read
    rw [if_neg hg]
    simp only [NOT_IN_USE, hfl, if_false, hf]
  · intro f h0 h7 hb hn hfl hf
    have hg : ¬ (fd < 0 ∨ fd > FD_MAX ∨ buf.isNone = true ∨ nbytes < 0) := by
      simp only [FD_MAX, Option.isNone_iff_eq_none, not_or, not_lt]
      exact ⟨h0, h7, hb, hn⟩
    unfold sys_write
    rw [if_neg hg]
    simp only [NOT_IN_USE, hfl, if_false, hf]
  · intro s0 command ELF_chars esp ebp eip hexec
    obtain ⟨cmd, filename, args, _, _, _, _, _, hp, hsame⟩ :=
      execute_entered s0 command ELF_chars esp ebp eip s hexec
    obtain ⟨a0, a1, b0, b1, _⟩ := execute_create_pcb_file_array
      (s0.pcb_mem (MB_8 - KB_8 * ((find_avail_pid s0).toNat + 1)))
      (find_avail_pid s0).toNat s0.cur_terminal args
    unfold std_descriptors
    rw [hp, hsame.1]
    exact ⟨a0, a1, b0, b1⟩
  · intro hstd
    obtain ⟨a0, a1, b0, b1⟩ := hstd
    refine ⟨?_, ?_, ?_, ?_⟩
    · unfold sys_read
      split
      · rfl
      · simp only [b0]
        split <;> rfl
    · unfold sys_write
      split
      · rfl
      · simp only [a0]
        split <;> rfl
    · intro filename
      obtain ⟨k1, k2, k3⟩ := sys_open_keeps_low s filename 0 (by decide)
      obtain ⟨_, _, k4⟩ := sys_open_keeps_low s filename 1 (by decide)
      unfold std_descriptors
      rw [k1, k2, k3, k4]
      exact ⟨a0, a1, b0, b1⟩
    · intro fd1
      obtain ⟨k1, k2, k3⟩ := sys_close_keeps_low s fd1 0 (by decide)
      obtain ⟨_, _, k4⟩ := sys_close_keeps_low s fd1 1 (by decide)
      unfold std_descriptors
      rw [k1, k2, k3, k4]
      exact ⟨a0, a1, b0, b1⟩

/-- Instance of `sys_read_write_spec` in the demo state: `read` on stdout fails without
a call, `read` on the open file forwards to `file_read`, `write` on stdin fails. -/
theorem sys_read_write_spec_witness :
    sys_read demo_ops demo_state 1 (some (fun _ => 0)) 5 = (-1, demo_state, some (fun _ => 0)) ∧
    sys_read demo_ops demo_state 2 (some (fun _ => 0)) 5
      = demo_ops.call_read .file_read 2 (some (fun _ => 0)) 5 demo_state ∧
    sys_write demo_ops demo_state 0 (some (fun _ => 0)) 5 = (-1, demo_state, some (fun _ => 0)) :=
  ⟨(sys_read_write_spec demo_ops demo_state 1 (some (fun _ => 0)) 5).1
      (Or.inr (Or.inr (Or.inr (Or.inr (Or.inr rfl))))),
   (sys_read_write_spec demo_ops demo_state 2 (some (fun _ => 0)) 5).2.1 .file_read
      (by decide) (by decide) (by simp) (by decide) (by decide) rfl,
   (sys_read_write_spec demo_ops demo_state 0 (some (fun _ => 0)) 5).2.2.1
      (Or.inr (Or.inr (Or.inr (Or.inr (Or.inr rfl)))))⟩

/-! ### The system call `open` (main statement) -/

/-- C4 (as the code has it): `open` returns -1 and leaves the state (hence the
descriptor table) unchanged
when the name is null, when `read_dentry_by_name` does not find it, or when every
descriptor in `[2, 7]` is in use; otherwise, for a directory entry of type 0, 1 or 2,
it returns the lowest descriptor in `[2, 7]` whose flags are 0 and sets exactly that
entry to the operations table of the type, inode 0 (RTC, directory) or the entry's
inode (regular file), `file_position = 0` and `flags = 1`, leaving every other
descriptor and every other PCB as they were.  With descriptors 2..7 all unused a
successful `open` returns 2; `execute` does not write descriptors 2..7, so this is the
case for the first `open` of a new process when the memory under the new PCB held no
descriptor 2..7 in use. -/
theorem sys_open_spec (s : KState) (filename : Option (List Nat)) :
    (filename = none → sys_open s filename = (-1, s)) ∧
    (∀ name, filename = some name →
      (read_dentry_by_name s.fs (some name) (some uninit_dentry)).1 ≠ 0 →
      sys_open s filename = (-1, s)) ∧
    (∀ name, filename = some name →
      (∀ i : Int, 2 ≤ i → i ≤ 7 →
        ((s.pcb_mem (s.terminals s.cur_terminal).pcb).file_array i).flags ≠ 0) →
      sys_open s filename = (-1, s)) ∧
    (∀ name d (i : Int), filename = some name →
      read_dentry_by_name s.fs (some name) (some uninit_dentry) = (0, some d) →
      (d.filetype = 0 ∨ d.filetype = 1 ∨ d.filetype = 2) →
      2 ≤ i → i ≤ 7 →
      ((s.pcb_mem (s.terminals s.cur_terminal).pcb).file_array i).flags = 0 →
      (∀ j : Int, 2 ≤ j → j < i →
        ((s.pcb_mem (s.terminals s.cur_terminal).pcb).file_array j).flags ≠ 0) →
      (sys_open s filename).1 = i ∧
      ((sys_open s filename).2.pcb_mem (s.terminals s.cur_terminal).pcb).file_array
        = Function.update (s.pcb_mem (s.terminals s.cur_terminal).pcb).file_array i
            ⟨fops_of_type d.filetype, inode_of_dentry d, 0, 1⟩ ∧
      (∀ a, a ≠ (s.terminals s.cur_terminal).pcb →
        (sys_open s filename).2.pcb_mem a = s.pcb_mem a) ∧
      (sys_open s filename).2.cur_terminal = s.cur_terminal ∧
      (sys_open s filename).2.terminals = s.terminals) ∧
    (∀ name, filename = some name →
      (read_dentry_by_name s.fs (some name) (some uninit_dentry)).1 = 0 →
      (∀ i : Int, 2 ≤ i → i ≤ 7 →
        ((s.pcb_mem (s.terminals s.cur_terminal).pcb).file_array i).flags = 0) →
      (sys_open s filename).1 = 2) ∧
    (∀ (s0 : KState) (command : Option (List Nat)) (ELF_chars : Buffer) (esp ebp eip : Nat) name,
      execute s0 command ELF_chars esp ebp = some (.entered_user eip, s) →
      (∀ i : Int, 2 ≤ i → i ≤ 7 →
        ((s0.pcb_mem (MB_8 - KB_8 * ((find_avail_pid s0).toNat + 1))).file_array i).flags = 0) →
      filename = some name →
      (read_dentry_by_name s.fs (some name) (some uninit_dentry)).1 = 0 →
      (sys_open s filename).1 = 2) := by
  refine ⟨?_, ?_, ?_, ?_, ?_, ?_⟩
  · intro h
    subst h
    rfl
  · intro name h hnf
    subst h
    have hret := read_dentry_by_name_ret s.fs (some name) (some uninit_dentry)
    have hm1 : (read_dentry_by_name s.fs (some name) (some uninit_dentry)).1 = -1 := by
      rcases hret with h | h
      · exact absurd h hnf
      · exact h
    simp only [sys_open, hm1, if_true]
  · intro name h hall
    subst h
    have hscan := open_scan_none (s.pcb_mem (s.terminals s.cur_terminal).pcb) 6 2
      (by omega) (by omega) (fun j h1 h2 => hall j h1 h2)
    simp only [sys_open, FD_MIN, hscan]
    split <;> rfl
  · intro name d i h hfound htype h2 h7 hfree hlow
    subst h
    have hscan := open_scan_found (s.pcb_mem (s.terminals s.cur_terminal).pcb) 6 2 i
      h2 h7 (by push_cast; omega) hfree hlow
    have hdir : d.filetype = 1 → directory_open s (some name) = (0, { s with dir_index := 0 }) := by
      intro h1
      simp [directory_open, hfound, h1]
    have hfile : file_open s (some name)
        = (0, { s with opfile_inode := to_int32 d.inode_num, opfile_bytes_read := 0 }) := by
      simp [file_open, hfound]
    rcases htype with h0 | h1 | h2
    · simp [sys_open, hfound, FD_MIN, hscan, h0, RTC_TYPE, rtc_open, KState.modify_pcb,
        PCB.modify_fd, fops_of_type, inode_of_dentry, FILE_TYPE]
      intro a ha
      simp [Function.update_noteq ha]
    · simp [sys_open, hfound, FD_MIN, hscan, h1, RTC_TYPE, DIR_TYPE, hdir h1, KState.modify_pcb,
        PCB.modify_fd, fops_of_type, inode_of_dentry, FILE_TYPE]
      intro a ha
      simp [Function.update_noteq ha]
    · simp [sys_open, hfound, FD_MIN, hscan, h2, RTC_TYPE, DIR_TYPE, hfile, KState.modify_pcb,
        PCB.modify_fd, fops_of_type, inode_of_dentry, FILE_TYPE]
      intro a ha
      simp [Function.update_noteq ha]
  · intro name h hfound hall
    subst h
    exact sys_open_ret s name 2 hfound (le_refl _) (by omega) (hall 2 (le_refl _) (by omega))
      (fun j h1 h2 => by omega)
  · intro s0 command ELF_chars esp ebp eip name hexec hprior h hfound
    subst h
    obtain ⟨cmd, fname, args, _, _, _, _, _, hp, hsame⟩ :=
      execute_entered s0 command ELF_chars esp ebp eip s hexec
    obtain ⟨_, _, _, _, hrest⟩ := execute_create_pcb_file_array
      (s0.pcb_mem (MB_8 - KB_8 * ((find_avail_pid s0).toNat + 1)))
      (find_avail_pid s0).toNat s0.cur_terminal args
    have hfree : ((s.pcb_mem (s.terminals s.cur_terminal).pcb).file_array 2).flags = 0 := by
      rw [hp, hsame.1, hrest 2 (by decide) (by decide)]
      exact hprior 2 (le_refl _) (by omega)
    exact sys_open_ret s name 2 hfound (le_refl _) (by omega) hfree (fun j h1 h2 => by omega)

/-- Instance of `sys_open_spec`: in the demo state, where descriptor 2 is in use,
opening the file of the image returns descriptor 3. -/
theorem sys_open_spec_witness :
    (sys_open demo_state (some [97])).1 = 3 ∧
    ((sys_open demo_state (some [97])).2.pcb_mem (demo_state.terminals demo_state.cur_terminal).pcb).file_array
      = Function.update (demo_state.pcb_mem (demo_state.terminals demo_state.cur_terminal).pcb).file_array 3
          ⟨fops_of_type 2, inode_of_dentry ⟨[97], 2, 0⟩, 0, 1⟩ :=
  ⟨((sys_open_spec demo_state (some [97])).2.2.2.1 [97]
      ⟨strncpy [97] 32, 2, 0⟩ 3 rfl (by decide) (by decide) (by decide) (by decide) (by decide)
      (fun j h1 h2 => by
        have hj : j = 2 := by omega
        subst hj
        decide)).1,
   ((sys_open_spec demo_state (some [97])).2.2.2.1 [97]
      ⟨strncpy [97] 32, 2, 0⟩ 3 rfl (by decide) (by decide) (by decide) (by decide) (by decide)
      (fun j h1 h2 => by
        have hj : j = 2 := by omega
        subst hj
        decide)).2.1⟩

/-! ### Failure returns of `read_data` -/

theorem read_data_loop_total (fs : FileSystem) (ino : inode_t) (block_offset length : Nat)
    (hlen : length < WORD) :
    ∀ (fuel i bytes_copied : Nat) (buf : Buffer),
      bytes_copied ≤ length → length - bytes_copied < fuel →
      ∃ r, read_data_loop fs ino block_offset length fuel i bytes_copied buf = some r := by
  intro fuel
  induction fuel with
  | zero => intro i bc buf _ hf; omega
  | succ fuel ih =>
    intro i bc buf hle hf
    unfold read_data_loop
    by_cases hlt : bc < length
    · simp only [if_pos hlt]
      split
      · exact ⟨_, rfl⟩
      · by_cases hc : length - bc < BLOCK_SIZE
        · simp only [if_pos hc]
          rw [u32_add_small (by omega)]
          exact ih _ _ _ (by omega) (by omega)
        · simp only [if_neg hc]
          unfold BLOCK_SIZE at hc ⊢
          rw [u32_add_small (by omega)]
          exact ih _ _ _ (by omega) (by omega)
    · rw [if_neg hlt]
      exact ⟨_, rfl⟩

/-- The fuel that `read_data` gives its loop always suffices: for every request of a
32-bit length the function returns. -/
theorem read_data_total (fs : FileSystem) (inode offset len : Nat) (buf : Option Buffer)
    (hlen : len < WORD) : ∃ r, read_data fs inode offset buf len = some r := by
  unfold read_data
  split
  · exact ⟨_, rfl⟩
  · cases buf with
    | none => exact ⟨_, rfl⟩
    | some b =>
      dsimp only
      split
      · exact ⟨_, rfl⟩
      · rename_i hoff
        split
        · exact ⟨_, rfl⟩
        · have hcl : (if len > (fs.inodes inode).length - offset
              then (fs.inodes inode).length - offset else len) < WORD := by
            split <;> omega
          generalize (if len > (fs.inodes inode).length - offset
              then (fs.inodes inode).length - offset else len) = n at hcl ⊢
          have hc : (if n < BLOCK_SIZE - offset % BLOCK_SIZE then n
              else BLOCK_SIZE - offset % BLOCK_SIZE) ≤ n := by
            split <;> omega
          obtain ⟨r, hr⟩ := read_data_loop_total fs (fs.inodes inode) (offset / BLOCK_SIZE) n hcl
            (n + 1) 1
            (if n < BLOCK_SIZE - offset % BLOCK_SIZE then n else BLOCK_SIZE - offset % BLOCK_SIZE)
            (memcpy b 0 (fun j => fs.datablocks ((fs.inodes inode).data_block_num
              (offset / BLOCK_SIZE)) (offset % BLOCK_SIZE + j))
              (if n < BLOCK_SIZE - offset % BLOCK_SIZE then n
                else BLOCK_SIZE - offset % BLOCK_SIZE))
            hc (by omega)
          rw [hr]
          exact ⟨_, rfl⟩

/-- C17 (as the code has it): for a well-formed file of length `L` and a non-null
buffer, `read_data` returns -1 whenever `offset ≥ L`, in particular at `offset = L`;
for `offset < L` it returns `min len (L - offset)`; hence it returns 0 exactly when
`offset < L` and the requested length is 0. -/
theorem read_data_offset_cases (fs : FileSystem) (inode offset len : Nat) (buf : Buffer)
    (hok : file_ok fs inode) :
    ((fs.inodes inode).length ≤ offset →
      read_data fs inode offset (some buf) len = some (-1, some buf)) ∧
    (offset < (fs.inodes inode).length →
      ∃ out, read_data fs inode offset (some buf) len
        = some (((min len ((fs.inodes inode).length - offset) : Nat) : Int), some out)) ∧
    (∀ r out, read_data fs inode offset (some buf) len = some (r, out) →
      (r = 0 ↔ offset < (fs.inodes inode).length ∧ len = 0)) := by
  obtain ⟨hN, hB, hinode, hmax, hblk⟩ := hok
  have hsubN := u32_sub_one (by omega : 0 < fs.max_inodes) hN
  have hend : (fs.inodes inode).length ≤ offset →
      read_data fs inode offset (some buf) len = some (-1, some buf) := by
    intro h
    unfold read_data
    rw [if_neg (by omega)]
    simp only [ge_iff_le, h, if_true]
  have hin : offset < (fs.inodes inode).length →
      ∃ out, read_data fs inode offset (some buf) len
        = some (((min len ((fs.inodes inode).length - offset) : Nat) : Int), some out) := by
    intro h
    obtain ⟨out, hread, _⟩ := read_data_pointwise fs inode offset len buf hN hB hinode hmax hblk h
    exact ⟨out, hread⟩
  refine ⟨hend, hin, ?_⟩
  intro r out hr
  by_cases h : offset < (fs.inodes inode).length
  · obtain ⟨out1, h1⟩ := hin h
    rw [h1] at hr
    simp only [Option.some.injEq, Prod.mk.injEq] at hr
    rw [← hr.1]
    constructor
    · intro hz
      exact ⟨h, by omega⟩
    · intro hz
      omega
  · rw [hend (by omega)] at hr
    simp only [Option.some.injEq, Prod.mk.injEq] at hr
    rw [← hr.1]
    constructor
    · intro hz
      omega
    · intro hz
      exact absurd hz.1 h

/-- Instance of `read_data_offset_cases` on the 5000-byte file of the demo image. -/
theorem read_data_offset_cases_witness :
    read_data demo_fs 0 5000 (some (fun _ => 0)) 10 = some (-1, some (fun _ => 0)) ∧
    ∃ out, read_data demo_fs 0 10 (some (fun _ => 0)) 0
      = some (((min 0 ((demo_fs.inodes 0).length - 10) : Nat) : Int), some out) :=
  ⟨(read_data_offset_cases demo_fs 0 5000 10 (fun _ => 0)
      ⟨by decide, by decide, by decide, by decide,
        fun k _ => by simp only [demo_fs, FileSystem.max_datablocks]; split <;> omega⟩).1
      (by decide),
   (read_data_offset_cases demo_fs 0 10 0 (fun _ => 0)
      ⟨by decide, by decide, by decide, by decide,
        fun k _ => by simp only [demo_fs, FileSystem.max_datablocks]; split <;> omega⟩).2.1
      (by decide)⟩

/-- C17 as stated fails in both directions on the 5000-byte file of the demo image:
at `offset = L` the function returns -1, not 0, and at an offset below `L` it returns
0 when asked for 0 bytes. -/
theorem read_data_zero_return_counterexample :
    (read_data demo_fs 0 5000 (some (fun _ => 0)) 10).map (fun r => r.1) = some (-1) ∧
    (read_data demo_fs 0 10 (some (fun _ => 0)) 0).map (fun r => r.1) = some 0 := by
  constructor <;> decide

/-- C18 fails on the code for an empty inode table or an empty data region: the range
tests are written `index > count - 1` in unsigned arithmetic, and `0 - 1` wraps to
`2 ^ 32 - 1`.  With inode count 0 the inode index 0 is accepted, and with data-block
count 0 the block index 1 is accepted; both calls return 4 instead of -1. -/
theorem read_data_accepts_out_of_range :
    (no_inode_fs.max_inodes = 0 ∧
      (read_data no_inode_fs 0 0 (some (fun _ => 0)) 4).map (fun r => r.1) = some 4) ∧
    (no_block_fs.max_datablocks = 0 ∧
      (no_block_fs.inodes 0).data_block_num 0 = 1 ∧
      (read_data no_block_fs 0 0 (some (fun _ => 0)) 4).map (fun r => r.1) = some 4) := by
  refine ⟨⟨rfl, by decide⟩, rfl, rfl, by decide⟩

/-- With at least one inode and one data block, `read_data` returns -1 for an inode
index that is not below the inode count, for a null buffer, and when the block that
holds the first requested byte has an index that is not below the data-block count. -/
theorem read_data_rejects (fs : FileSystem) (inode offset len : Nat) (buf : Option Buffer)
    (hN0 : 0 < fs.max_inodes) (hN : fs.max_inodes < WORD)
    (hB0 : 0 < fs.max_datablocks) (hB : fs.max_datablocks < WORD) :
    (fs.max_inodes ≤ inode → read_data fs inode offset buf len = some (-1, buf)) ∧
    read_data fs inode offset none len = some (-1, none) ∧
    (∀ b, inode < fs.max_inodes → offset < (fs.inodes inode).length →
      fs.max_datablocks ≤ (fs.inodes inode).data_block_num (offset / BLOCK_SIZE) →
      read_data fs inode offset (some b) len = some (-1, some b)) := by
  have hsubN := u32_sub_one hN0 hN
  have hsubB := u32_sub_one hB0 hB
  refine ⟨?_, ?_, ?_⟩
  · intro h
    unfold read_data
    rw [if_pos (by omega)]
  · unfold read_data
    split <;> rfl
  · intro b hi ho hb
    unfold read_data
    rw [if_neg (by omega)]
    simp only [ge_iff_le]
    rw [if_neg (by omega), if_pos (by omega)]

/-- The loop of `read_data` returns -1 at the first block whose index is not below the
data-block count, when the request reaches that block. -/
theorem read_data_loop_rejects (fs : FileSystem) (ino : inode_t) (block_offset length : Nat)
    (hlen : length < WORD) (hB0 : 0 < fs.max_datablocks) (hB : fs.max_datablocks < WORD) :
    ∀ (t fuel i bytes_copied : Nat) (buf : Buffer),
      (∀ j, j < t → ino.data_block_num (u32_add (i + j) block_offset) < fs.max_datablocks) →
      fs.max_datablocks ≤ ino.data_block_num (u32_add (i + t) block_offset) →
      bytes_copied + t * 4096 < length → length - bytes_copied < fuel →
      ∃ out, read_data_loop fs ino block_offset length fuel i bytes_copied buf
        = some (-1, out) := by
  have hsubB := u32_sub_one hB0 hB
  intro t
  induction t with
  | zero =>
    intro fuel i bc buf _ hbad hreach hf
    cases fuel with
    | zero => omega
    | succ fuel =>
      unfold read_data_loop
      rw [if_pos (by omega)]
      simp only [Nat.add_zero] at hbad
      simp only [hsubB]
      rw [if_pos (by omega)]
      exact ⟨_, rfl⟩
  | succ t ih =>
    intro fuel i bc buf hgood hbad hreach hf
    cases fuel with
    | zero => omega
    | succ fuel =>
      unfold read_data_loop
      rw [if_pos (by omega)]
      have h0 := hgood 0 (by omega)
      simp only [Nat.add_zero] at h0
      simp only [hsubB]
      rw [if_neg (by omega)]
      have hc : ¬ length - bc < BLOCK_SIZE := by unfold BLOCK_SIZE; omega
      simp only [if_neg hc]
      unfold BLOCK_SIZE
      rw [u32_add_small (by omega)]
      apply ih
      · intro j hj
        have := hgood (j + 1) (by omega)
        rw [show i + (j + 1) = i + 1 + j by omega] at this
        exact this
      · rw [show i + 1 + t = i + (t + 1) by omega]
        exact hbad
      · omega
      · omega

/-- With at least one data block, `read_data` returns -1 when a block after the first
one of the request has an index that is not below the data-block count: block `k` of
the file holds a requested byte, every block of the request before it is valid and
block `k` is not. -/
theorem read_data_rejects_later_block (fs : FileSystem) (inode offset len k : Nat) (b : Buffer)
    (hN0 : 0 < fs.max_inodes) (hN : fs.max_inodes < WORD)
    (hB0 : 0 < fs.max_datablocks) (hB : fs.max_datablocks < WORD)
    (hinode : inode < fs.max_inodes) (hlen : len < WORD) (hoffw : offset < WORD)
    (hoff : offset < (fs.inodes inode).length)
    (hk : offset / 4096 < k)
    (hreach : k * 4096 < offset + min len ((fs.inodes inode).length - offset))
    (hgood : ∀ j, offset / 4096 ≤ j → j < k →
      (fs.inodes inode).data_block_num j < fs.max_datablocks)
    (hbad : fs.max_datablocks ≤ (fs.inodes inode).data_block_num k) :
    ∃ out, read_data fs inode offset (some b) len = some (-1, some out) := by
  have hsubN := u32_sub_one hN0 hN
  have hsubB := u32_sub_one hB0 hB
  obtain ⟨n, hn⟩ : ∃ n, n = min len ((fs.inodes inode).length - offset) := ⟨_, rfl⟩
  have hclamp : (if len > (fs.inodes inode).length - offset
      then (fs.inodes inode).length - offset else len) = n := by
    rw [hn]
    split <;> omega
  rw [← hn] at hreach
  have hfirst := hgood (offset / 4096) (le_refl _) hk
  have hc0 : (if n < BLOCK_SIZE - offset % BLOCK_SIZE then n
      else BLOCK_SIZE - offset % BLOCK_SIZE) = 4096 - offset % 4096 := by
    unfold BLOCK_SIZE
    rw [if_neg (by omega)]
  have hidx : ∀ j, j ≤ k - offset / 4096 - 1 →
      u32_add (1 + j) (offset / BLOCK_SIZE) = offset / 4096 + 1 + j := by
    intro j hj
    unfold BLOCK_SIZE
    rw [u32_add_small (by unfold WORD at *; omega)]
    omega
  obtain ⟨out, hout⟩ := read_data_loop_rejects fs (fs.inodes inode) (offset / BLOCK_SIZE) n
    (by omega) hB0 hB (k - offset / 4096 - 1) (n + 1) 1 (4096 - offset % 4096)
    (memcpy b 0 (fun j => fs.datablocks ((fs.inodes inode).data_block_num
      (offset / BLOCK_SIZE)) (offset % BLOCK_SIZE + j)) (4096 - offset % 4096))
    (by
      intro j hj
      rw [hidx j (by omega)]
      exact hgood _ (by omega) (by omega))
    (by
      rw [hidx _ (le_refl _)]
      rw [show offset / 4096 + 1 + (k - offset / 4096 - 1) = k by omega]
      exact hbad)
    (by omega) (by omega)
  refine ⟨out, ?_⟩
  unfold read_data
  rw [if_neg (by omega)]
  simp only [ge_iff_le, hclamp]
  rw [if_neg (by omega), if_neg (by unfold BLOCK_SIZE; omega), hc0, hout]
  rfl

/-! ### `is_executable` -/

/-- C16 fails on the code: the only file of the image behind `empty_file_state` has
type 2 and no bytes; `read_data` fails on it and copies nothing, its result is not
examined, and `is_executable` compares whatever its uninitialised array `ELF_chars`
held.  When that is the magic number the function returns 1. -/
theorem is_executable_accepts_empty_file :
    file_bytes empty_file_state.fs 0 = [] ∧
    (read_data empty_file_state.fs 0 0 (some elf_magic) 4).map (fun r => r.1) = some (-1) ∧
    is_executable empty_file_state.fs (some [97]) elf_magic = some 1 := by
  refine ⟨by decide, by decide, by decide⟩

/-- On a name that resolves to a type-2 entry whose file is well formed and has at
least four bytes, `is_executable` returns 1 exactly when the first four bytes of the
file are the magic number, whatever its array held before; a name that is not found or
an entry of another type gives -1. -/
theorem is_executable_long_file (fs : FileSystem) (name : List Nat) (ELF_chars : Buffer) :
    ((read_dentry_by_name fs (some name) (some uninit_dentry)).1 ≠ 0 →
      is_executable fs (some name) ELF_chars = some (-1)) ∧
    (((read_dentry_by_name fs (some name) (some uninit_dentry)).2.getD uninit_dentry).filetype ≠ 2 →
      is_executable fs (some name) ELF_chars = some (-1)) ∧
    (∀ d, read_dentry_by_name fs (some name) (some uninit_dentry) = (0, some d) →
      d.filetype = 2 → file_ok fs d.inode_num → 4 ≤ (fs.inodes d.inode_num).length →
      is_executable fs (some name) ELF_chars
        = some (if (file_bytes fs d.inode_num).take 4 = [127, 69, 76, 70] then 1 else -1)) := by
  refine ⟨?_, ?_, ?_⟩
  · intro h
    simp [is_executable, h]
  · intro h
    unfold is_executable
    simp only
    split
    · simp [h]
    · rfl
  · intro d hd ht hok h4
    obtain ⟨hN, hB, hinode, hmax, hblk⟩ := hok
    obtain ⟨out, hread, hpt⟩ := read_data_pointwise fs d.inode_num 0 4 ELF_chars hN hB hinode
      hmax hblk (by omega)
    have hmin : min 4 ((fs.inodes d.inode_num).length - 0) = 4 := by omega
    rw [hmin] at hread hpt
    have hb := range_map_eq_file_bytes fs d.inode_num 0 4 out (by omega) hpt
    simp only [List.drop_zero] at hb
    rw [← hb]
    simp only [is_executable, hd, Option.getD_some, ht, ne_eq, not_true_eq_false, if_false,
      if_true, hread]
    have hr : List.range 4 = [0, 1, 2, 3] := by decide
    simp only [hr, List.map_cons, List.map_nil, List.cons.injEq, and_true]
    split <;> rfl

/-! ### `paging_syscall` -/

theorem paging_syscall_slot (s : KState) (pid : Nat) (hpid : pid ≤ 5) :
    (paging_syscall s (pid : Int)).page_directory USER_PAGE = MB_8 + pid * MB_4 + 135 := by
  unfold paging_syscall
  simp only [Function.update_same]
  interval_cases pid <;> decide

/-- C14: for every pid in `[0, 5]`, `paging_syscall` sets slot 32 of the page directory
to `8 MiB + pid * 4 MiB` combined with the present, read-write, user and page-size
bits: the frame-address bits of the entry are exactly that address and the low bits
are exactly the four flags; every other slot keeps its value.  The frames of distinct
pids are disjoint, lie inside `[8 MiB, 32 MiB)` and so do not meet the kernel page
`[4 MiB, 8 MiB)`. -/
theorem paging_syscall_spec (s : KState) (pid : Nat) (hpid : pid ≤ 5) :
    (paging_syscall s (pid : Int)).page_directory USER_PAGE
      = (MB_8 + pid * MB_4) ||| (PAGE_P ||| PAGE_RW ||| PAGE_US ||| PAGE_PS) ∧
    (paging_syscall s (pid : Int)).page_directory USER_PAGE / MB_4 * MB_4 = MB_8 + pid * MB_4 ∧
    (paging_syscall s (pid : Int)).page_directory USER_PAGE % MB_4
      = PAGE_P + PAGE_RW + PAGE_US + PAGE_PS ∧
    (∀ i, i ≠ USER_PAGE →
      (paging_syscall s (pid : Int)).page_directory i = s.page_directory i) ∧
    (∀ (s2 : KState) (q : Nat), q ≤ 5 → q ≠ pid →
      (paging_syscall s (pid : Int)).page_directory USER_PAGE / MB_4 * MB_4 + MB_4
          ≤ (paging_syscall s2 (q : Int)).page_directory USER_PAGE / MB_4 * MB_4 ∨
      (paging_syscall s2 (q : Int)).page_directory USER_PAGE / MB_4 * MB_4 + MB_4
          ≤ (paging_syscall s (pid : Int)).page_directory USER_PAGE / MB_4 * MB_4) ∧
    MB_8 ≤ (paging_syscall s (pid : Int)).page_directory USER_PAGE / MB_4 * MB_4 ∧
    (paging_syscall s (pid : Int)).page_directory USER_PAGE / MB_4 * MB_4 + MB_4
      ≤ 32 * 1024 * 1024 := by
  have hslot := paging_syscall_slot s pid hpid
  have hframe : ∀ (s1 : KState) (p : Nat), p ≤ 5 →
      (paging_syscall s1 (p : Int)).page_directory USER_PAGE / MB_4 * MB_4 = MB_8 + p * MB_4 := by
    intro s1 p hp
    rw [paging_syscall_slot s1 p hp]
    unfold MB_8 MB_4
    omega
  refine ⟨?_, hframe s pid hpid, ?_, ?_, ?_, ?_, ?_⟩
  · rw [hslot]
    interval_cases pid <;> decide
  · rw [hslot]
    unfold MB_8 MB_4 PAGE_P PAGE_RW PAGE_US PAGE_PS
    omega
  · intro i hi
    unfold paging_syscall
    simp only [Function.update_noteq hi]
  · intro s2 q hq hne
    rw [hframe s pid hpid, hframe s2 q hq]
    unfold MB_8 MB_4
    omega
  · rw [hframe s pid hpid]
    unfold MB_8 MB_4
    omega
  · rw [hframe s pid hpid]
    unfold MB_8 MB_4
    omega

/-- Instance of `paging_syscall_spec` for pid 3 in the demo state. -/
theorem paging_syscall_spec_witness :
    (paging_syscall demo_state ((3 : Nat) : Int)).page_directory USER_PAGE
      = (MB_8 + 3 * MB_4) ||| (PAGE_P ||| PAGE_RW ||| PAGE_US ||| PAGE_PS) ∧
    (paging_syscall demo_state ((3 : Nat) : Int)).page_directory USER_PAGE / MB_4 * MB_4
      = MB_8 + 3 * MB_4 :=
  ⟨(paging_syscall_spec demo_state 3 (by decide)).1,
   (paging_syscall_spec demo_state 3 (by decide)).2.1⟩

/-! ### Writes to files, directories and the RTC -/

/-- C19 (as the code has it): with the write functions of the kernel behind the
operations tables, a write through a descriptor whose table is that of a regular file
or of a directory returns -1 for every buffer and byte count; a write through a
descriptor of the RTC returns 0 when the descriptor is in use, the buffer is not null,
the count is 4 and the four bytes hold one of the frequencies 2, 4, ..., 1024, and -1
in every other case.  No such write changes the state or the buffer. -/
theorem sys_write_devices (ops : fop_calls) (hops : ops.call_write = call_write) (s : KState)
    (fd : Int) (buf : Option Buffer) (nbytes : Int) :
    (file_write fd buf nbytes = -1 ∧ directory_write fd buf nbytes = -1) ∧
    ((((s.pcb_mem (s.terminals s.cur_terminal).pcb).file_array fd).fops_table = file_fops ∨
        ((s.pcb_mem (s.terminals s.cur_terminal).pcb).file_array fd).fops_table = dir_fops) →
      sys_write ops s fd buf nbytes = (-1, s, buf)) ∧
    (((s.pcb_mem (s.terminals s.cur_terminal).pcb).file_array fd).fops_table = rtc_fops →
      (sys_write ops s fd buf nbytes).2 = (s, buf) ∧
      ((sys_write ops s fd buf nbytes).1 = 0 ∨ (sys_write ops s fd buf nbytes).1 = -1) ∧
      ((sys_write ops s fd buf nbytes).1 = 0 ↔
        0 ≤ fd ∧ fd ≤ 7 ∧
        ((s.pcb_mem (s.terminals s.cur_terminal).pcb).file_array fd).flags ≠ 0 ∧
        nbytes = 4 ∧
        ∃ b, buf = some b ∧
          (load_int32 b = 2 ∨ load_int32 b = 4 ∨ load_int32 b = 8 ∨ load_int32 b = 16 ∨
            load_int32 b = 32 ∨ load_int32 b = 64 ∨ load_int32 b = 128 ∨ load_int32 b = 256 ∨
            load_int32 b = 512 ∨ load_int32 b = 1024))) := by
  refine ⟨⟨rfl, rfl⟩, ?_, ?_⟩
  · intro h
    unfold sys_write
    split
    · rfl
    · dsimp only
      split
      · rfl
      · rcases h with h | h
        · simp [h, file_fops, hops, call_write, file_write]
        · simp [h, dir_fops, hops, call_write, directory_write]
  · intro h
    unfold sys_write
    by_cases hg : fd < 0 ∨ fd > FD_MAX ∨ buf.isNone = true ∨ nbytes < 0
    · rw [if_pos hg]
      refine ⟨rfl, Or.inr rfl, ?_⟩
      simp only [FD_MAX, Option.isNone_iff_eq_none] at hg
      constructor
      · intro h0
        simp at h0
      · rintro ⟨h1, h2, _, h4, b, hb, _⟩
        rcases hg with hg | hg | hg | hg
        · omega
        · omega
        · simp [hb] at hg
        · omega
    · rw [if_neg hg]
      simp only [FD_MAX, Option.isNone_iff_eq_none, not_or, not_lt] at hg
      obtain ⟨g1, g2, g3, g4⟩ := hg
      dsimp only
      by_cases hfl : ((s.pcb_mem (s.terminals s.cur_terminal).pcb).file_array fd).flags = 0
      · rw [if_pos (show _ = NOT_IN_USE from hfl)]
        refine ⟨rfl, Or.inr rfl, ?_⟩
        constructor
        · intro h0
          simp at h0
        · rintro ⟨_, _, h3, _⟩
          exact absurd hfl h3
      · rw [if_neg (show ¬ _ = NOT_IN_USE from hfl), h]
        simp only [rtc_fops, hops, call_write]
        cases buf with
        | none => exact absurd rfl g3
        | some b =>
          simp only [rtc_write]
          by_cases hn : nbytes = 4
          · rw [if_neg (not_not.mpr hn)]
            simp only [rtc_set_freq]
            refine ⟨trivial, ?_, ?_⟩
            · split
              · exact Or.inl rfl
              · exact Or.inr rfl
            · constructor
              · intro h0
                refine ⟨g1, g2, hfl, hn, b, rfl, ?_⟩
                by_contra hno
                rw [if_neg hno] at h0
                simp at h0
              · rintro ⟨_, _, _, _, b1, hb1, hf⟩
                simp only [Option.some.injEq] at hb1
                subst hb1
                rw [if_pos hf]
          · rw [if_pos hn]
            refine ⟨trivial, Or.inr rfl, ?_⟩
            constructor
            · intro h0
              simp at h0
            · rintro ⟨_, _, _, h4, _⟩
              exact absurd h4 hn

/-- Instance of `sys_write_devices`: a write through descriptor 2 of the demo state,
which is open on a regular file. -/
theorem sys_write_devices_witness :
    sys_write ⟨demo_ops.call_read, call_write⟩ demo_state 2 (some freq_2) 4
      = (-1, demo_state, some freq_2) :=
  (sys_write_devices ⟨demo_ops.call_read, call_write⟩ rfl demo_state 2 (some freq_2) 4).2.1
    (Or.inl rfl)

/-- C19 as stated fails for the RTC: after `open` of the entry `rtc` (type 0) in
`dev_state`, which returns descriptor 3, a write of the four bytes of the value 2
through that descriptor returns 0. -/
theorem rtc_write_succeeds :
    (sys_open dev_state (some [114, 116, 99])).1 = 3 ∧
    (sys_write ⟨demo_ops.call_read, call_write⟩ (sys_open dev_state (some [114, 116, 99])).2 3
      (some freq_2) 4).1 = 0 := by
  constructor <;> decide

/-! ### String routines -/

theorem strncpy_length (l : List Nat) (n : Nat) : (strncpy l n).length = n := by
  induction n generalizing l with
  | zero => cases l <;> rfl
  | succ n ih =>
    cases l with
    | nil => simp [strncpy, ih]
    | cons c cs =>
      simp only [strncpy]
      split <;> simp [ih]

theorem strncpy_getD (l : List Nat) (n j : Nat) :
    (strncpy l n).getD j 0 = if j < n ∧ j < strlen l then l.getD j 0 else 0 := by
  simp only [List.getD_eq_getElem?_getD]
  induction n generalizing l j with
  | zero => cases l <;> simp [strncpy]
  | succ n ih =>
    cases l with
    | nil =>
      cases j with
      | zero => simp [strncpy, strlen]
      | succ j =>
        have h := ih [] j
        simp only [strlen, Nat.not_lt_zero, and_false, if_false] at h
        simp [strncpy, strlen, h]
    | cons c cs =>
      simp only [strncpy, strlen]
      by_cases hc : c = 0
      · simp only [hc, if_true]
        cases j with
        | zero => simp
        | succ j =>
          have h := ih [] j
          simp only [strlen, Nat.not_lt_zero, and_false, if_false] at h
          simp [h]
      · simp only [hc, if_false]
        cases j with
        | zero => simp
        | succ j => simp [ih cs j]

theorem strlen_map_range (f : Nat → Nat) (n k : Nat) (hk : ∀ j, j < k → f j ≠ 0)
    (hz : k < n → f k = 0) : strlen ((List.range n).map f) = min n k := by
  induction n generalizing f k with
  | zero => simp [strlen]
  | succ n ih =>
    rw [List.range_succ_eq_map, List.map_cons, List.map_map]
    cases k with
    | zero =>
      have h0 : f 0 = 0 := hz (Nat.succ_pos n)
      simp [strlen, h0]
    | succ k =>
      have h0 : f 0 ≠ 0 := hk 0 (Nat.succ_pos k)
      simp only [strlen, h0, if_false]
      rw [ih (f ∘ Nat.succ) k (fun j hj => hk (j + 1) (by omega)) (fun h => hz (by omega))]
      omega

/-! ### getargs -/

theorem getargs_copy (s : KState) (b : Buffer) (nbytes : Int) (above : Buffer) (k : Nat)
    (hn : 0 ≤ nbytes) (hk0 : 0 < k) (hk32 : k < MAX_ARG_SEQ_SIZE)
    (hk : ∀ j, j < k → (s.pcb_mem (s.terminals s.cur_terminal).pcb).exe_args j ≠ 0)
    (hz : (s.pcb_mem (s.terminals s.cur_terminal).pcb).exe_args k = 0) :
    ∃ out, getargs s (some b) nbytes above = (0, some out) ∧
      (∀ j, j < k → j < nbytes.toNat →
        out j = (s.pcb_mem (s.terminals s.cur_terminal).pcb).exe_args j) ∧
      (∀ j, k ≤ j → j < nbytes.toNat → out j = 0) ∧
      (∀ j, nbytes.toNat ≤ j → out j = b j) := by
  have hab : ∀ j, j < MAX_ARG_SEQ_SIZE →
      (s.pcb_mem (s.terminals s.cur_terminal).pcb).arg_byte above j
        = (s.pcb_mem (s.terminals s.cur_terminal).pcb).exe_args j := by
    intro j hj
    simp [PCB.arg_byte, hj]
  have hlen : strlen ((List.range nbytes.toNat).map
      ((s.pcb_mem (s.terminals s.cur_terminal).pcb).arg_byte above)) = min nbytes.toNat k := by
    apply strlen_map_range
    · intro j hj
      rw [hab j (by omega)]
      exact hk j hj
    · intro _
      rw [hab k hk32]
      exact hz
  unfold getargs
  simp only [not_lt.mpr hn, if_false, hk 0 hk0]
  refine ⟨_, rfl, ?_, ?_, ?_⟩
  · intro j hj hjn
    simp only [hjn, if_true, strncpy_getD, hlen]
    rw [if_pos ⟨trivial, by omega⟩]
    simp [hjn, hab j (by omega)]
  · intro j hj hjn
    simp only [hjn, if_true, strncpy_getD, hlen]
    rw [if_neg (by omega)]
  · intro j hj
    simp only [not_lt.mpr hj, if_false]

/-- C20 (as the code has it): `getargs` returns -1 and leaves the buffer as it was when
the buffer is null, the count is negative or the argument buffer of the current PCB
starts with NUL; it returns 0 in every other case.  When it returns 0 and the argument
string has `k < 32` bytes, the first `n` bytes of the buffer are the first `min k n`
bytes of the string followed by NUL bytes, so a terminating NUL lies within them only
when `k < n`; the bytes from `n` on are untouched. -/
theorem getargs_spec (s : KState) (buf : Option Buffer) (nbytes : Int) (above : Buffer) :
    ((buf = none ∨ nbytes < 0 ∨ (s.pcb_mem (s.terminals s.cur_terminal).pcb).exe_args 0 = 0) →
      getargs s buf nbytes above = (-1, buf)) ∧
    (¬ (buf = none ∨ nbytes < 0 ∨ (s.pcb_mem (s.terminals s.cur_terminal).pcb).exe_args 0 = 0) →
      (getargs s buf nbytes above).1 = 0) ∧
    (∀ k b, 0 < k → k < MAX_ARG_SEQ_SIZE →
      (∀ j, j < k → (s.pcb_mem (s.terminals s.cur_terminal).pcb).exe_args j ≠ 0) →
      (s.pcb_mem (s.terminals s.cur_terminal).pcb).exe_args k = 0 →
      buf = some b → 0 ≤ nbytes →
      ∃ out, getargs s buf nbytes above = (0, some out) ∧
        (∀ j, j < k → j < nbytes.toNat →
          out j = (s.pcb_mem (s.terminals s.cur_terminal).pcb).exe_args j) ∧
        (∀ j, k ≤ j → j < nbytes.toNat → out j = 0) ∧
        (∀ j, nbytes.toNat ≤ j → out j = b j)) := by
  refine ⟨?_, ?_, ?_⟩
  · intro h
    unfold getargs
    cases buf with
    | none => rfl
    | some b =>
      dsimp only
      split
      · rfl
      · split
        · rfl
        · rename_i h1 h2
          rcases h with h | h | h
          · cases h
          · exact absurd h h1
          · exact absurd h h2
  · intro h
    simp only [not_or, not_lt] at h
    obtain ⟨h1, h2, h3⟩ := h
    unfold getargs
    cases buf with
    | none => exact absurd rfl h1
    | some b =>
      dsimp only
      rw [if_neg (not_lt.mpr h2), if_neg h3]
  · intro k b hk0 hk32 hk hz hb hn
    subst hb
    exact getargs_copy s b nbytes above k hn hk0 hk32 hk hz

/-- Instance of `getargs_spec`: the argument string `abc` copied into five bytes. -/
theorem getargs_spec_witness :
    ∃ out, getargs args_state (some (fun _ => 7)) 5 (fun _ => 0) = (0, some out) ∧
      (∀ j, j < 3 → j < (5 : Int).toNat →
        out j = (args_state.pcb_mem (args_state.terminals args_state.cur_terminal).pcb).exe_args j) ∧
      (∀ j, 3 ≤ j → j < (5 : Int).toNat → out j = 0) ∧
      (∀ j, (5 : Int).toNat ≤ j → out j = (fun _ => 7) j) :=
  (getargs_spec args_state (some (fun _ => 7)) 5 (fun _ => 0)).2.2 3 (fun _ => 7)
    (by decide) (by decide) (fun j hj => by interval_cases j <;> decide) (by decide) rfl
    (by decide)

/-- C20 as stated fails: with the argument string `abc` and `n = 2`, `getargs` returns
0 and the two bytes written are `a` and `b`; no NUL lies within them. -/
theorem getargs_no_terminator :
    (getargs args_state (some (fun _ => 7)) 2 (fun _ => 0)).1 = 0 ∧
    (getargs args_state (some (fun _ => 7)) 2 (fun _ => 0)).2.map (fun out => (out 0, out 1))
      = some (97, 98) := by
  constructor <;> decide

/-! ### Directory listing -/

theorem strlen_strncpy (l : List Nat) (n : Nat) : strlen (strncpy l n) = min n (strlen l) := by
  induction n generalizing l with
  | zero => cases l <;> simp [strncpy, strlen]
  | succ n ih =>
    cases l with
    | nil => simp [strncpy, strlen]
    | cons c cs =>
      simp only [strncpy, strlen]
      by_cases hc : c = 0
      · simp [hc, strlen]
      · simp only [hc, if_false, strlen, ih]
        omega

theorem takeWhile_take_length (l : List Nat) (n : Nat) :
    ((l.take n).takeWhile (fun c => c ≠ 0)).length = min n (strlen l) := by
  induction l generalizing n with
  | nil => simp [strlen]
  | cons c cs ih =>
    cases n with
    | zero => simp
    | succ n =>
      simp only [List.take_succ_cons, List.takeWhile_cons, strlen]
      by_cases hc : c = 0
      · simp [hc]
      · simp only [ne_eq, hc, not_false_eq_true, decide_True, if_true, if_false,
          List.length_cons, ih]
        omega

theorem takeWhile_take_getD (l : List Nat) (n j : Nat) (hj : j < min n (strlen l)) :
    ((l.take n).takeWhile (fun c => c ≠ 0)).getD j 0 = l.getD j 0 := by
  induction l generalizing n j with
  | nil => simp [strlen] at hj
  | cons c cs ih =>
    cases n with
    | zero => simp at hj
    | succ n =>
      simp only [strlen] at hj
      by_cases hc : c = 0
      · simp [hc] at hj
      · simp only [hc, if_false] at hj
        simp only [List.take_succ_cons, List.takeWhile_cons, ne_eq, hc, not_false_eq_true,
          decide_True, if_true]
        cases j with
        | zero => simp
        | succ j =>
          simp only [List.getD_cons_succ]
          exact ih n j (by omega)

theorem name32_length (l : List Nat) : (name32 l).length = min 32 (strlen l) :=
  takeWhile_take_length l 32

/-- Copying a name field with `strncpy` over 32 bytes and then over its length, as
`read_dentry_by_index` and `directory_read` do, yields the bytes of the name. -/
theorem strncpy_name (l : List Nat) :
    (List.range (min 32 (strlen l))).map
        (fun j => (strncpy (strncpy l 32) (min 32 (strlen l))).getD j 0) = name32 l := by
  apply List.ext_getElem
  · simp [name32_length]
  · intro j h1 h2
    simp only [List.length_map, List.length_range] at h1
    have hg : (name32 l).getD j 0 = l.getD j 0 := takeWhile_take_getD l 32 j h1
    have h3 : (name32 l)[j] = (name32 l).getD j 0 := by
      simp [List.getD_eq_getElem?_getD, List.getElem?_eq_getElem h2]
    rw [h3, hg]
    simp only [List.getElem_map, List.getElem_range]
    rw [strncpy_getD, strlen_strncpy, if_pos ⟨h1, by omega⟩, strncpy_getD,
      if_pos ⟨by omega, by omega⟩]

theorem directory_open_ok (s : KState) (filename : Option (List Nat))
    (h : (directory_open s filename).1 = 0) :
    (directory_open s filename).2 = { s with dir_index := 0 } := by
  unfold directory_open at h ⊢
  cases filename with
  | none => simp at h
  | some name =>
    dsimp only at h ⊢
    split
    · split
      · rfl
      · rename_i h1 h2
        rw [if_pos h1, if_neg h2] at h
        simp at h
    · rename_i h1
      rw [if_neg h1] at h
      simp at h

/-- One call of `directory_read` while the index is below the number of entries. -/
theorem directory_read_entry (s : KState) (fd : Int) (b : Buffer) (nb : Int) (i : Nat)
    (hi : s.dir_index = (i : Int)) (hlt : i < s.fs.num_entries) (hD : s.fs.num_entries < WORD)
    (hnb : 0 ≤ nb) :
    directory_read s fd (some b) nb
      = (((min 32 (strlen (s.fs.fs_boot_block.direntries i).filename) : Nat) : Int),
          { s with dir_index := (i : Int) + 1 },
          some (fun j =>
            if j < min 32 (strlen (s.fs.fs_boot_block.direntries i).filename) then
              (strncpy (strncpy (s.fs.fs_boot_block.direntries i).filename 32)
                (min 32 (strlen (s.fs.fs_boot_block.direntries i).filename))).getD j 0
            else b j)) := by
  have h1 : ¬ s.dir_index = -1 := by omega
  have h2 : to_uint32 (i : Int) = i := to_uint32_ofNat (by omega)
  have h3 : ¬ i > u32_sub s.fs.num_entries 1 := by
    rw [u32_sub_one (by omega) hD]
    omega
  have h4 : (if strlen (strncpy (s.fs.fs_boot_block.direntries i).filename 32) < 32 then
        strlen (strncpy (s.fs.fs_boot_block.direntries i).filename 32) else 32)
      = min 32 (strlen (s.fs.fs_boot_block.direntries i).filename) := by
    rw [strlen_strncpy]
    split <;> omega
  unfold directory_read
  rw [if_neg h1]
  simp only [hi, not_lt.mpr hnb, if_false, h2, read_dentry_by_index, h3, Option.getD_some,
    MAX_FILENAME_SIZE, if_true, h4]

/-- One call of `directory_read` once the index has reached the number of entries. -/
theorem directory_read_eof (s : KState) (fd : Int) (b : Buffer) (nb : Int) (i : Nat)
    (hi : s.dir_index = (i : Int)) (hge : s.fs.num_entries ≤ i) (hD0 : 0 < s.fs.num_entries)
    (hD : s.fs.num_entries < WORD) (hiW : i < WORD) (hnb : 0 ≤ nb) :
    directory_read s fd (some b) nb = (0, s, some b) := by
  have h1 : ¬ s.dir_index = -1 := by omega
  have h2 : to_uint32 s.dir_index = i := by
    rw [hi]
    exact to_uint32_ofNat hiW
  have h3 : i > u32_sub s.fs.num_entries 1 := by
    rw [u32_sub_one hD0 hD]
    omega
  unfold directory_read
  rw [if_neg h1]
  simp [not_lt.mpr hnb, h2, read_dentry_by_index, h3]

/-- The state after `k` calls of `directory_read` that follow a successful open. -/
theorem directory_read_repeat_state (s : KState) (fd : Int) (bufs : Nat → Buffer)
    (nbytes : Nat → Int) (hD0 : 0 < s.fs.num_entries) (hD : s.fs.num_entries < WORD)
    (hnb : ∀ i, 0 ≤ nbytes i) (k : Nat) :
    directory_read_repeat { s with dir_index := 0 } fd bufs nbytes k
      = { s with dir_index := ((min k s.fs.num_entries : Nat) : Int) } := by
  induction k with
  | zero => simp [directory_read_repeat]
  | succ k ih =>
    simp only [directory_read_repeat, ih]
    by_cases hk : k < s.fs.num_entries
    · have hstep := directory_read_entry
        { s with dir_index := ((min k s.fs.num_entries : Nat) : Int) } fd (bufs k) (nbytes k)
        (min k s.fs.num_entries) rfl
        (show min k s.fs.num_entries < s.fs.num_entries by omega) hD (hnb k)
      rw [hstep]
      have e : ((min k s.fs.num_entries : Nat) : Int) + 1
          = ((min (k + 1) s.fs.num_entries : Nat) : Int) := by omega
      simp only [e]
    · have hstep := directory_read_eof
        { s with dir_index := ((min k s.fs.num_entries : Nat) : Int) } fd (bufs k) (nbytes k)
        (min k s.fs.num_entries) rfl
        (show s.fs.num_entries ≤ min k s.fs.num_entries by omega) hD0 hD (by omega) (hnb k)
      rw [hstep]
      have e : min k s.fs.num_entries = min (k + 1) s.fs.num_entries := by omega
      simp only [e]

/-- C15: for a boot block with `D` directory entries, `1 ≤ D ≤ 63`, after
`directory_open` of `.` has succeeded, call number `i + 1` of `directory_read`
(`i < D`, any non-negative count) returns the length of the name of entry `i`, which
is at most 32, copies exactly that name to the front of the buffer and leaves the rest
of the buffer alone; every call after the first `D` returns 0 and changes neither the
state nor the buffer. -/
theorem directory_read_enumerates (s : KState) (fd : Int) (bufs : Nat → Buffer)
    (nbytes : Nat → Int) (hD1 : 1 ≤ s.fs.num_entries) (hD63 : s.fs.num_entries ≤ 63)
    (hopen : (directory_open s (some [46])).1 = 0) (hnb : ∀ i, 0 ≤ nbytes i) :
    (∀ i, i < s.fs.num_entries →
      ∃ out,
        (directory_read (directory_read_repeat (directory_open s (some [46])).2 fd bufs nbytes i)
            fd (some (bufs i)) (nbytes i)).1
          = ((name32 (s.fs.fs_boot_block.direntries i).filename).length : Int) ∧
        (directory_read (directory_read_repeat (directory_open s (some [46])).2 fd bufs nbytes i)
            fd (some (bufs i)) (nbytes i)).2.2 = some out ∧
        (name32 (s.fs.fs_boot_block.direntries i).filename).length ≤ 32 ∧
        (List.range (name32 (s.fs.fs_boot_block.direntries i).filename).length).map out
          = name32 (s.fs.fs_boot_block.direntries i).filename ∧
        ∀ j, (name32 (s.fs.fs_boot_block.direntries i).filename).length ≤ j →
          out j = bufs i j) ∧
    (∀ i, s.fs.num_entries ≤ i →
      directory_read (directory_read_repeat (directory_open s (some [46])).2 fd bufs nbytes i)
          fd (some (bufs i)) (nbytes i)
        = (0, directory_read_repeat (directory_open s (some [46])).2 fd bufs nbytes i,
            some (bufs i))) := by
  have hW : s.fs.num_entries < WORD := by
    unfold WORD
    omega
  rw [directory_open_ok s _ hopen]
  constructor
  · intro i hi
    rw [directory_read_repeat_state s fd bufs nbytes (by omega) hW hnb i]
    have hstep := directory_read_entry
      { s with dir_index := ((min i s.fs.num_entries : Nat) : Int) } fd (bufs i) (nbytes i) i
      (show ((min i s.fs.num_entries : Nat) : Int) = (i : Int) by omega)
      (show i < s.fs.num_entries from hi) hW (hnb i)
    rw [hstep, name32_length]
    refine ⟨_, rfl, rfl, by omega, ?_, ?_⟩
    · rw [← strncpy_name (s.fs.fs_boot_block.direntries i).filename]
      apply List.map_congr_left
      intro j hj
      rw [List.mem_range] at hj
      exact if_pos hj
    · intro j hj
      dsimp only at hj ⊢
      exact if_neg (by omega)
  · intro i hi
    rw [directory_read_repeat_state s fd bufs nbytes (by omega) hW hnb i]
    exact directory_read_eof
      { s with dir_index := ((min i s.fs.num_entries : Nat) : Int) } fd (bufs i) (nbytes i)
      (min i s.fs.num_entries) rfl
      (show s.fs.num_entries ≤ min i s.fs.num_entries by omega)
      (show 0 < s.fs.num_entries by omega) hW
      (show min i s.fs.num_entries < WORD by unfold WORD; omega) (hnb i)

/-- Instance of `directory_read_enumerates`: the second call on the image `dev_fs`
produces the name of entry 1. -/
theorem directory_read_enumerates_witness :
    ∃ out,
      (directory_read
          (directory_read_repeat (directory_open dev_state (some [46])).2 3 (fun _ _ => 0)
            (fun _ => 32) 1)
          3 (some ((fun _ _ => 0) 1)) ((fun _ => 32) 1)).1
        = ((name32 (dev_state.fs.fs_boot_block.direntries 1).filename).length : Int) ∧
      (directory_read
          (directory_read_repeat (directory_open dev_state (some [46])).2 3 (fun _ _ => 0)
            (fun _ => 32) 1)
          3 (some ((fun _ _ => 0) 1)) ((fun _ => 32) 1)).2.2 = some out ∧
      (name32 (dev_state.fs.fs_boot_block.direntries 1).filename).length ≤ 32 ∧
      (List.range (name32 (dev_state.fs.fs_boot_block.direntries 1).filename).length).map out
        = name32 (dev_state.fs.fs_boot_block.direntries 1).filename ∧
      ∀ j, (name32 (dev_state.fs.fs_boot_block.direntries 1).filename).length ≤ j →
        out j = (fun _ _ => 0) 1 j :=
  (directory_read_enumerates dev_state 3 (fun _ _ => 0) (fun _ => 32) (by decide) (by decide)
    (by decide) (fun _ => (by decide : (0 : Int) ≤ 32))).1 1 (by decide)

/-! ### scheduler -/

theorem to_uint32_user_frame (p : Nat) :
    to_uint32 ((MB_8 : Int) + to_int32 p * (MB_4 : Int)) = (MB_8 + p * MB_4) % WORD := by
  unfold to_uint32 to_int32 MB_8 MB_4 WORD at *
  split <;> omega

theorem to_uint32_kernel_stack (p : Nat) :
    to_uint32 ((MB_8 : Int) - (KB_8 : Int) * to_int32 p - 4)
      = to_uint32 ((MB_8 : Int) - (KB_8 : Int) * (p : Int) - 4) := by
  unfold to_uint32 to_int32 MB_8 KB_8 WORD at *
  split <;> omega

theorem lor_flags (x : Nat) (hx : x % MB_4 = 0) :
    (((x ||| PAGE_P) ||| PAGE_RW) ||| PAGE_US) ||| PAGE_PS = x + 135 := by
  have e : x = 2 ^ 22 * (x / MB_4) := by
    unfold MB_4 at *
    omega
  rw [Nat.lor_assoc, Nat.lor_assoc, Nat.lor_assoc]
  have f : (PAGE_P ||| (PAGE_RW ||| (PAGE_US ||| PAGE_PS))) = 135 := by decide
  rw [f, e, ← Nat.mul_add_lt_is_or (by decide : 135 < 2 ^ 22)]

theorem scheduler_find_first (s : KState) (fuel n : Nat)
    (h : ¬ scheduler_skips (s.terminals n)) :
    scheduler_find s (fuel + 1) n = some (some n) := by
  simp [scheduler_find, h]

theorem scheduler_find_second (s : KState) (fuel n : Nat)
    (h1 : scheduler_skips (s.terminals n)) (hne : (n + 1) % MAX_TERMINALS ≠ s.cur_terminal)
    (h2 : ¬ scheduler_skips (s.terminals ((n + 1) % MAX_TERMINALS))) :
    scheduler_find s (fuel + 2) n = some (some ((n + 1) % MAX_TERMINALS)) := by
  simp [scheduler_find, h1, h2, hne]

theorem scheduler_find_none (s : KState) (fuel n : Nat)
    (h1 : scheduler_skips (s.terminals n)) (hne : (n + 1) % MAX_TERMINALS ≠ s.cur_terminal)
    (h2 : scheduler_skips (s.terminals ((n + 1) % MAX_TERMINALS)))
    (hc : ((n + 1) % MAX_TERMINALS + 1) % MAX_TERMINALS = s.cur_terminal) :
    scheduler_find s (fuel + 2) n = some none := by
  simp [scheduler_find, h1, h2, hne, hc]

/-- The state that `scheduler` leaves when its search loop ends at terminal `n`. -/
theorem scheduler_switch (s : KState) (user_table_addr esp ebp fuel n : Nat)
    (hpid : to_int32 (s.terminals s.cur_terminal).pid ≠ -1)
    (hfind : scheduler_find s fuel ((s.cur_terminal + 1) % MAX_TERMINALS) = some (some n)) :
    ∃ regs s2, scheduler s user_table_addr esp ebp fuel = some (some regs, s2) ∧
      s2.cur_terminal = n ∧
      s2.page_directory USER_PAGE = (MB_8 + (s.terminals n).pid * MB_4) % WORD + 135 ∧
      s2.tss_esp0 = to_uint32 ((MB_8 : Int) - (KB_8 : Int) * ((s.terminals n).pid : Int) - 4) ∧
      s2.display_terminal = s.display_terminal ∧ s2.terminals = s.terminals ∧
      s2.pid_status = s.pid_status := by
  unfold scheduler
  simp only [hpid, if_false, hfind]
  refine ⟨_, _, rfl, ?_, ?_, ?_, ?_, ?_, ?_⟩
  · simp only [restore_stack, paging_syscall, video_paging, save_stack, KState.modify_pcb]
  · simp only [restore_stack, paging_syscall, video_paging, save_stack, KState.modify_pcb,
      Function.update_same]
    rw [to_uint32_user_frame, lor_flags]
    unfold MB_8 MB_4 WORD
    omega
  · simp only [restore_stack, paging_syscall, video_paging, save_stack, KState.modify_pcb]
    exact to_uint32_kernel_stack _
  · simp only [restore_stack, paging_syscall, video_paging, save_stack, KState.modify_pcb]
  · simp only [restore_stack, paging_syscall, video_paging, save_stack, KState.modify_pcb]
  · simp only [restore_stack, paging_syscall, video_paging, save_stack, KState.modify_pcb]

/-- C12: from a state with `cur_terminal = c < 3`, one call of `scheduler` returns
(two iterations of its search loop suffice).  When the pid of terminal `c` is -1, or
both other terminals are skipped (no running process, or pid -1), the state is
unchanged.  Otherwise `cur_terminal` becomes the first of `(c + 1) % 3`, `(c + 2) % 3`
that is not skipped, never `c` itself; with `p` the pid of that terminal, slot 32 of
the page directory holds `8 MiB + p * 4 MiB` (in 32-bit arithmetic) with the flag bits
135 and `esp0` is `8 MiB - 8 KiB * p - 4` (in 32-bit arithmetic), which are the plain
values for every `p < 1022`; `display_terminal`, every terminal record and the pid
table are unchanged. -/
theorem scheduler_spec (s : KState) (user_table_addr esp ebp fuel : Nat)
    (hc : s.cur_terminal < MAX_TERMINALS) (hw : (s.terminals s.cur_terminal).pid < WORD)
    (hfuel : 2 ≤ fuel) :
    (∃ r, scheduler s user_table_addr esp ebp fuel = some r) ∧
    (((s.terminals s.cur_terminal).pid = 4294967295 ∨
        (scheduler_skips (s.terminals ((s.cur_terminal + 1) % 3)) ∧
          scheduler_skips (s.terminals ((s.cur_terminal + 2) % 3)))) →
      scheduler s user_table_addr esp ebp fuel = some (none, s)) ∧
    ((s.terminals s.cur_terminal).pid ≠ 4294967295 →
      ∀ n, ((n = (s.cur_terminal + 1) % 3 ∧ ¬ scheduler_skips (s.terminals n)) ∨
          (n = (s.cur_terminal + 2) % 3 ∧
            scheduler_skips (s.terminals ((s.cur_terminal + 1) % 3)) ∧
            ¬ scheduler_skips (s.terminals n))) →
        n ≠ s.cur_terminal ∧
        ∃ regs s2, scheduler s user_table_addr esp ebp fuel = some (some regs, s2) ∧
          s2.cur_terminal = n ∧
          s2.page_directory USER_PAGE = (MB_8 + (s.terminals n).pid * MB_4) % WORD + 135 ∧
          s2.tss_esp0
            = to_uint32 ((MB_8 : Int) - (KB_8 : Int) * ((s.terminals n).pid : Int) - 4) ∧
          ((s.terminals n).pid < 1022 →
            s2.page_directory USER_PAGE / MB_4 * MB_4 = MB_8 + (s.terminals n).pid * MB_4 ∧
            s2.tss_esp0 = MB_8 - KB_8 * (s.terminals n).pid - 4) ∧
          s2.display_terminal = s.display_terminal ∧ s2.terminals = s.terminals ∧
          s2.pid_status = s.pid_status) := by
  obtain ⟨f, rfl⟩ : ∃ f, fuel = f + 2 := ⟨fuel - 2, by omega⟩
  have e1 : (s.cur_terminal + 1) % MAX_TERMINALS = (s.cur_terminal + 1) % 3 := rfl
  have e2 : ((s.cur_terminal + 1) % 3 + 1) % MAX_TERMINALS = (s.cur_terminal + 2) % 3 := by
    unfold MAX_TERMINALS
    omega
  have e3 : (s.cur_terminal + 2) % 3 ≠ s.cur_terminal := by
    unfold MAX_TERMINALS at hc
    omega
  have e4 : ((s.cur_terminal + 2) % 3 + 1) % MAX_TERMINALS = s.cur_terminal := by
    unfold MAX_TERMINALS at hc ⊢
    omega
  have e5 : (s.cur_terminal + 1) % 3 ≠ s.cur_terminal := by
    unfold MAX_TERMINALS at hc
    omega
  have hm1 : to_int32 (s.terminals s.cur_terminal).pid = -1 ↔
      (s.terminals s.cur_terminal).pid = 4294967295 := by
    unfold to_int32 WORD at *
    split <;> omega
  have hnone : (s.terminals s.cur_terminal).pid = 4294967295 ∨
      (scheduler_skips (s.terminals ((s.cur_terminal + 1) % 3)) ∧
        scheduler_skips (s.terminals ((s.cur_terminal + 2) % 3))) →
      scheduler s user_table_addr esp ebp (f + 2) = some (none, s) := by
    intro h
    unfold scheduler
    by_cases hp : to_int32 (s.terminals s.cur_terminal).pid = -1
    · simp only [hp, if_true]
    · rcases h with h | ⟨h1, h2⟩
      · exact absurd (hm1.mpr h) hp
      · simp only [hp, if_false]
        rw [e1, scheduler_find_none s f _ h1 (by rw [e2]; exact e3) (by rw [e2]; exact h2)
          (by rw [e2]; exact e4)]
  have hsw : (s.terminals s.cur_terminal).pid ≠ 4294967295 →
      ∀ n, ((n = (s.cur_terminal + 1) % 3 ∧ ¬ scheduler_skips (s.terminals n)) ∨
          (n = (s.cur_terminal + 2) % 3 ∧
            scheduler_skips (s.terminals ((s.cur_terminal + 1) % 3)) ∧
            ¬ scheduler_skips (s.terminals n))) →
        scheduler_find s (f + 2) ((s.cur_terminal + 1) % MAX_TERMINALS) = some (some n) ∧
          n ≠ s.cur_terminal := by
    intro _ n hn
    rcases hn with ⟨rfl, h1⟩ | ⟨rfl, h1, h2⟩
    · exact ⟨scheduler_find_first s (f + 1) _ h1, e5⟩
    · refine ⟨?_, e3⟩
      rw [e1, scheduler_find_second s f _ h1 (by rw [e2]; exact e3) (by rw [e2]; exact h2), e2]
  refine ⟨?_, hnone, ?_⟩
  · by_cases hp : (s.terminals s.cur_terminal).pid = 4294967295
    · exact ⟨_, hnone (Or.inl hp)⟩
    · by_cases h1 : scheduler_skips (s.terminals ((s.cur_terminal + 1) % 3))
      · by_cases h2 : scheduler_skips (s.terminals ((s.cur_terminal + 2) % 3))
        · exact ⟨_, hnone (Or.inr ⟨h1, h2⟩)⟩
        · obtain ⟨regs, s2, h, _⟩ := scheduler_switch s user_table_addr esp ebp (f + 2) _
            (fun h => hp (hm1.mp h)) (hsw hp _ (Or.inr ⟨rfl, h1, h2⟩)).1
          exact ⟨_, h⟩
      · obtain ⟨regs, s2, h, _⟩ := scheduler_switch s user_table_addr esp ebp (f + 2) _
          (fun h => hp (hm1.mp h)) (hsw hp _ (Or.inl ⟨rfl, h1⟩)).1
        exact ⟨_, h⟩
  · intro hp n hn
    obtain ⟨hfind, hne⟩ := hsw hp n hn
    obtain ⟨regs, s2, h, g1, g2, g3, g4, g5, g6⟩ := scheduler_switch s user_table_addr esp ebp
      (f + 2) n (fun h => hp (hm1.mp h)) hfind
    refine ⟨hne, regs, s2, h, g1, g2, g3, ?_, g4, g5, g6⟩
    intro hsmall
    rw [g2, g3]
    unfold to_uint32 MB_8 MB_4 KB_8 WORD
    omega

/-- Instance of `scheduler_spec`: in `two_terminal_state` the scheduler moves from
terminal 0 to terminal 1. -/
theorem scheduler_spec_witness :
    1 ≠ two_terminal_state.cur_terminal ∧
    ∃ regs s2, scheduler two_terminal_state 0 0 0 2 = some (some regs, s2) ∧
      s2.cur_terminal = 1 ∧
      s2.page_directory USER_PAGE
        = (MB_8 + (two_terminal_state.terminals 1).pid * MB_4) % WORD + 135 ∧
      s2.tss_esp0 = to_uint32
        ((MB_8 : Int) - (KB_8 : Int) * ((two_terminal_state.terminals 1).pid : Int) - 4) ∧
      ((two_terminal_state.terminals 1).pid < 1022 →
        s2.page_directory USER_PAGE / MB_4 * MB_4
          = MB_8 + (two_terminal_state.terminals 1).pid * MB_4 ∧
        s2.tss_esp0 = MB_8 - KB_8 * (two_terminal_state.terminals 1).pid - 4) ∧
      s2.display_terminal = two_terminal_state.display_terminal ∧
      s2.terminals = two_terminal_state.terminals ∧
      s2.pid_status = two_terminal_state.pid_status :=
  (scheduler_spec two_terminal_state 0 0 0 2 (by decide) (by decide) (by decide)).2.2
    (by decide) 1 (Or.inl ⟨by decide, by decide⟩)

/-! ### halt -/

theorem close_frame_refl (s : KState) : close_frame s s :=
  ⟨rfl, rfl, rfl, rfl, rfl, rfl, rfl, rfl, fun _ => ⟨rfl, rfl, rfl, rfl, fun _ => rfl⟩⟩

theorem close_frame_trans {s s1 s2 : KState} (h1 : close_frame s s1) (h2 : close_frame s1 s2) :
    close_frame s s2 := by
  obtain ⟨a1, a2, a3, a4, a5, a6, a7, a8, a9⟩ := h1
  obtain ⟨b1, b2, b3, b4, b5, b6, b7, b8, b9⟩ := h2
  refine ⟨b1.trans a1, b2.trans a2, b3.trans a3, b4.trans a4, b5.trans a5, b6.trans a6,
    b7.trans a7, b8.trans a8, fun a => ?_⟩
  obtain ⟨c1, c2, c3, c4, c5⟩ := a9 a
  obtain ⟨d1, d2, d3, d4, d5⟩ := b9 a
  exact ⟨d1.trans c1, d2.trans c2, d3.trans c3, d4.trans c4, fun j => (d5 j).trans (c5 j)⟩

theorem call_close_frame (f : close_fn) (s : KState) (fd : Int) :
    close_frame s (call_close f s fd).2 ∧ (call_close f s fd).2.pcb_mem = s.pcb_mem := by
  cases f <;> exact ⟨close_frame_refl _, rfl⟩

/-- The effect of `close` on the state: only the flags and position of descriptor `fd`
of the running process can change, and the flags become 0 when `fd` is in `[2, 7]` and
the entry has a close operation. -/
theorem sys_close_effect (s : KState) (fd : Int) :
    close_frame s (sys_close s fd).2 ∧
    (∀ a j, (a ≠ (s.terminals s.cur_terminal).pcb ∨ j ≠ fd) →
      (((sys_close s fd).2.pcb_mem a).file_array j).flags = ((s.pcb_mem a).file_array j).flags) ∧
    (2 ≤ fd → fd ≤ 7 →
      ((s.pcb_mem (s.terminals s.cur_terminal).pcb).file_array fd).fops_table.close ≠ none →
      (((sys_close s fd).2.pcb_mem (s.terminals s.cur_terminal).pcb).file_array fd).flags = 0) ∧
    (¬ (2 ≤ fd ∧ fd ≤ 7 ∧
        ((s.pcb_mem (s.terminals s.cur_terminal).pcb).file_array fd).fops_table.close ≠ none) →
      (((sys_close s fd).2.pcb_mem (s.terminals s.cur_terminal).pcb).file_array fd).flags
        = ((s.pcb_mem (s.terminals s.cur_terminal).pcb).file_array fd).flags) := by
  unfold sys_close
  by_cases hr : fd < FD_MIN ∨ fd > FD_MAX
  · rw [if_pos hr]
    refine ⟨close_frame_refl _, fun _ _ _ => rfl, ?_, fun _ => rfl⟩
    intro h1 h2
    unfold FD_MIN FD_MAX at hr
    omega
  · rw [if_neg hr]
    dsimp only
    by_cases hfl : ((s.pcb_mem (s.terminals s.cur_terminal).pcb).file_array fd).flags = NOT_IN_USE
    · rw [if_pos hfl]
      exact ⟨close_frame_refl _, fun _ _ _ => rfl, fun _ _ _ => hfl, fun _ => rfl⟩
    · rw [if_neg hfl]
      cases hcl : ((s.pcb_mem (s.terminals s.cur_terminal).pcb).file_array fd).fops_table.close with
      | none =>
        exact ⟨close_frame_refl _, fun _ _ _ => rfl, fun _ _ h => absurd rfl h, fun _ => rfl⟩
      | some f0 =>
        dsimp only
        have hmod : close_frame s (s.modify_pcb (s.terminals s.cur_terminal).pcb (fun q =>
            (q.modify_fd fd (fun e => { e with file_position := 0 })).modify_fd fd
              (fun e => { e with flags := NOT_IN_USE }))) := by
          refine ⟨rfl, rfl, rfl, rfl, rfl, rfl, rfl, rfl, fun a => ?_⟩
          by_cases ha : a = (s.terminals s.cur_terminal).pcb
          · subst ha
            refine ⟨?_, ?_, ?_, ?_, fun j => ?_⟩ <;>
              simp [KState.modify_pcb, PCB.modify_fd, Function.update_apply]
            split <;> simp_all
          · refine ⟨?_, ?_, ?_, ?_, fun j => ?_⟩ <;>
              simp [KState.modify_pcb, Function.update_noteq ha]
        have hcl1 : (((s.modify_pcb (s.terminals s.cur_terminal).pcb (fun q =>
            (q.modify_fd fd (fun e => { e with file_position := 0 })).modify_fd fd
              (fun e => { e with flags := NOT_IN_USE }))).pcb_mem
            (s.terminals s.cur_terminal).pcb).file_array fd).fops_table.close = some f0 := by
          rw [(hmod.2.2.2.2.2.2.2.2 _).2.2.2.2 fd, hcl]
        rw [hcl1]
        dsimp only
        obtain ⟨c1, c2⟩ := call_close_frame f0 (s.modify_pcb (s.terminals s.cur_terminal).pcb
          (fun q => (q.modify_fd fd (fun e => { e with file_position := 0 })).modify_fd fd
            (fun e => { e with flags := NOT_IN_USE }))) fd
        refine ⟨close_frame_trans hmod c1, ?_, ?_, ?_⟩
        · intro a j h
          rw [c2]
          by_cases ha : a = (s.terminals s.cur_terminal).pcb
          · subst ha
            have hj : j ≠ fd := by
              rcases h with h | h
              · exact absurd rfl h
              · exact h
            simp [KState.modify_pcb, PCB.modify_fd, Function.update_noteq hj]
          · simp [KState.modify_pcb, Function.update_noteq ha]
        · intro _ _ _
          rw [c2]
          simp [KState.modify_pcb, PCB.modify_fd, NOT_IN_USE]
        · intro h
          unfold FD_MIN FD_MAX at hr
          exact absurd ⟨by omega, by omega, by simp⟩ h

/-- The descriptor-closing loop of `halt_extend`, run over the indices `i .. i + n - 1`
on the PCB of the running process. -/
theorem halt_close_fds_spec (n : Nat) : ∀ (s : KState) (i : Int),
    close_frame s (halt_close_fds s (s.terminals s.cur_terminal).pcb n i) ∧
    (∀ j, 2 ≤ j → j ≤ 7 → i ≤ j → j < i + n →
      ((s.pcb_mem (s.terminals s.cur_terminal).pcb).file_array j).fops_table.close ≠ none →
      (((halt_close_fds s (s.terminals s.cur_terminal).pcb n i).pcb_mem
        (s.terminals s.cur_terminal).pcb).file_array j).flags = 0) ∧
    (∀ j, ¬ (2 ≤ j ∧ j ≤ 7 ∧ i ≤ j ∧ j < i + n ∧
        ((s.pcb_mem (s.terminals s.cur_terminal).pcb).file_array j).fops_table.close ≠ none) →
      (((halt_close_fds s (s.terminals s.cur_terminal).pcb n i).pcb_mem
        (s.terminals s.cur_terminal).pcb).file_array j).flags
        = ((s.pcb_mem (s.terminals s.cur_terminal).pcb).file_array j).flags) := by
  induction n with
  | zero =>
    intro s i
    refine ⟨close_frame_refl _, ?_, fun _ _ => rfl⟩
    intro j _ _ h1 h2
    simp only [Nat.cast_zero, add_zero] at h2
    omega
  | succ n ih =>
    intro s i
    have hstep : ∃ s1,
        (if ((s.pcb_mem (s.terminals s.cur_terminal).pcb).file_array i).flags ≠ 0
          then (sys_close s i).2 else s) = s1 ∧
        close_frame s s1 ∧
        (∀ j, j ≠ i → ((s1.pcb_mem (s.terminals s.cur_terminal).pcb).file_array j).flags
          = ((s.pcb_mem (s.terminals s.cur_terminal).pcb).file_array j).flags) ∧
        (2 ≤ i → i ≤ 7 →
          ((s.pcb_mem (s.terminals s.cur_terminal).pcb).file_array i).fops_table.close ≠ none →
          ((s1.pcb_mem (s.terminals s.cur_terminal).pcb).file_array i).flags = 0) ∧
        (¬ (2 ≤ i ∧ i ≤ 7 ∧
            ((s.pcb_mem (s.terminals s.cur_terminal).pcb).file_array i).fops_table.close ≠ none) →
          ((s1.pcb_mem (s.terminals s.cur_terminal).pcb).file_array i).flags
            = ((s.pcb_mem (s.terminals s.cur_terminal).pcb).file_array i).flags) := by
      by_cases hfl : ((s.pcb_mem (s.terminals s.cur_terminal).pcb).file_array i).flags = 0
      · refine ⟨s, ?_, close_frame_refl _, fun _ _ => rfl, fun _ _ _ => hfl, fun _ => rfl⟩
        rw [if_neg (not_not.mpr hfl)]
      · obtain ⟨e1, e2, e3, e4⟩ := sys_close_effect s i
        refine ⟨(sys_close s i).2, ?_, e1, fun j hj => e2 _ j (Or.inr hj), e3, e4⟩
        rw [if_pos hfl]
    obtain ⟨s1, hs1, f1, f2, f3, f4⟩ := hstep
    have hA : (s1.terminals s1.cur_terminal).pcb = (s.terminals s.cur_terminal).pcb := by
      rw [f1.2.2.1, f1.2.2.2.2.1]
    have hfop : ∀ j, ((s1.pcb_mem (s.terminals s.cur_terminal).pcb).file_array j).fops_table
        = ((s.pcb_mem (s.terminals s.cur_terminal).pcb).file_array j).fops_table :=
      fun j => (f1.2.2.2.2.2.2.2.2 _).2.2.2.2 j
    obtain ⟨g1, g2, g3⟩ := ih s1 (i + 1)
    rw [hA] at g1 g2 g3
    have hdef : halt_close_fds s (s.terminals s.cur_terminal).pcb (n + 1) i
        = halt_close_fds s1 (s.terminals s.cur_terminal).pcb n (i + 1) := by
      rw [← hs1]
      rfl
    rw [hdef]
    refine ⟨close_frame_trans f1 g1, ?_, ?_⟩
    · intro j h2 h7 hi hn hc
      by_cases hji : j = i
      · subst hji
        rw [g3 j (by omega)]
        exact f3 h2 h7 hc
      · apply g2 j h2 h7 (by omega) (by push_cast at hn ⊢; omega)
        rw [hfop]
        exact hc
    · intro j hj
      by_cases hji : j = i
      · subst hji
        rw [g3 j (by omega)]
        apply f4
        intro h
        apply hj
        exact ⟨h.1, h.2.1, le_refl _, by push_cast; omega, h.2.2⟩
      · rw [g3 j, f2 j hji]
        intro h
        apply hj
        refine ⟨h.1, h.2.1, by omega, by have := h.2.2.2.1; push_cast; omega, ?_⟩
        rw [← hfop]
        exact h.2.2.2.2

theorem find_avail_pid_loop_least (pid_status : Nat → Int) (n : Nat) : ∀ (j p : Nat),
    j ≤ p → p < j + n → pid_status p ≠ 1 →
    ∃ r : Nat, find_avail_pid_loop pid_status n j = (r : Int) ∧ j ≤ r ∧ r ≤ p ∧
      pid_status r ≠ 1 ∧ ∀ k, j ≤ k → k < r → pid_status k = 1 := by
  induction n with
  | zero =>
    intro j p h1 h2 _
    omega
  | succ n ih =>
    intro j p h1 h2 h3
    unfold find_avail_pid_loop
    by_cases hj : pid_status j ≠ 1
    · rw [if_pos hj]
      exact ⟨j, rfl, le_refl _, h1, hj, fun k a b => by omega⟩
    · rw [if_neg hj]
      have hne : j ≠ p := fun e => hj (e ▸ h3)
      obtain ⟨r, e1, e2, e3, e4, e5⟩ := ih (j + 1) p (by omega) (by omega) h3
      refine ⟨r, e1, by omega, e3, e4, fun k a b => ?_⟩
      by_cases hk : k = j
      · subst hk
        exact not_not.mp hj
      · exact e5 k (by omega) b

theorem copy_to_va_total (s : KState) (filename : Option (List Nat)) (va : Nat) :
    ∃ r, copy_to_va s filename va MB_4 = some r := by
  unfold copy_to_va
  cases filename with
  | none => exact ⟨_, rfl⟩
  | some name =>
    dsimp only
    split
    · obtain ⟨r, hr⟩ := read_data_total s.fs
        ((read_dentry_by_name s.fs (some name) (some uninit_dentry)).2.getD uninit_dentry).inode_num
        0 MB_4 (some (fun j => s.phys_mem (user_phys s va + j))) (by decide)
      rw [hr]
      exact ⟨_, rfl⟩
    · exact ⟨_, rfl⟩

/-- A call of `execute` enters user mode when the command is parsed, the file passes
`is_executable` and a pid is free. -/
theorem execute_succeeds (s : KState) (cmd filename args : List Nat) (ELF_chars : Buffer)
    (esp ebp : Nat) (hparse : execute_parse cmd = some (filename, args))
    (hexe : is_executable s.fs (some filename) ELF_chars = some 1)
    (hpid : find_avail_pid s ≠ -1) :
    ∃ eip s1, execute s (some cmd) ELF_chars esp ebp = some (.entered_user eip, s1) := by
  unfold execute
  simp only [hparse, hexe, ne_eq, not_true_eq_false, if_false, hpid]
  unfold execute_launch
  dsimp only
  obtain ⟨r, hr⟩ := copy_to_va_total
    (paging_syscall { s with pid_status := Function.update s.pid_status (find_avail_pid s).toNat 1 }
      ((find_avail_pid s).toNat : Int)) (some filename) PROGRAM_IMAGE_ADDR
  rw [hr]
  exact ⟨_, _, rfl⟩

theorem modify_pcb_child_fields (s : KState) (b v a : Nat) :
    ((s.modify_pcb b (fun q => { q with child := v })).pcb_mem a).tid = (s.pcb_mem a).tid ∧
    ((s.modify_pcb b (fun q => { q with child := v })).pcb_mem a).pid = (s.pcb_mem a).pid ∧
    ((s.modify_pcb b (fun q => { q with child := v })).pcb_mem a).parent = (s.pcb_mem a).parent ∧
    ((s.modify_pcb b (fun q => { q with child := v })).pcb_mem a).file_array
      = (s.pcb_mem a).file_array ∧
    ((s.modify_pcb b (fun q => { q with child := v })).pcb_mem a).exe_args
      = (s.pcb_mem a).exe_args ∧
    ((s.modify_pcb b (fun q => { q with child := v })).pcb_mem b).child = v := by
  by_cases h : a = b
  · subst h
    simp [KState.modify_pcb]
  · simp [KState.modify_pcb, Function.update_noteq h]

/-- The part of `halt_extend` that hands the terminal back to the parent. -/
theorem halt_to_parent_spec (s : KState) (pcb : Nat) (status : Int) (c parent q : Nat)
    (htid : (s.pcb_mem pcb).tid = c) (hparent : (s.pcb_mem pcb).parent = parent)
    (hq : (s.pcb_mem parent).pid = q) (hq6 : q < 1022) :
    (halt_to_parent s pcb status).1 = .returned_to_parent status parent ∧
    ((halt_to_parent s pcb status).2.terminals c).pid = q ∧
    ((halt_to_parent s pcb status).2.terminals c).pcb = parent ∧
    ((halt_to_parent s pcb status).2.terminals c).running_processes
      = (s.terminals c).running_processes ∧
    (∀ t, t ≠ c → (halt_to_parent s pcb status).2.terminals t = s.terminals t) ∧
    ((halt_to_parent s pcb status).2.pcb_mem parent).child = 0 ∧
    (halt_to_parent s pcb status).2.page_directory USER_PAGE = MB_8 + q * MB_4 + 135 ∧
    (halt_to_parent s pcb status).2.tss_esp0 = MB_8 - KB_8 * q - 4 ∧
    (halt_to_parent s pcb status).2.pid_status = s.pid_status ∧
    (halt_to_parent s pcb status).2.fs = s.fs ∧
    (halt_to_parent s pcb status).2.cur_terminal = s.cur_terminal ∧
    (∀ a, ((halt_to_parent s pcb status).2.pcb_mem a).file_array = (s.pcb_mem a).file_array ∧
      ((halt_to_parent s pcb status).2.pcb_mem a).exe_args = (s.pcb_mem a).exe_args) := by
  obtain ⟨m1, _, _, _, _, _⟩ := modify_pcb_child_fields s parent 0 pcb
  obtain ⟨_, n2, _, _, _, n6⟩ := modify_pcb_child_fields s parent 0 parent
  rw [htid] at m1
  rw [hq] at n2
  have hint : to_int32 q = (q : Int) := by
    unfold to_int32 WORD
    split <;> omega
  have hframe : to_uint32 ((MB_8 : Int) + (q : Int) * (MB_4 : Int)) = MB_8 + q * MB_4 := by
    unfold to_uint32 MB_8 MB_4
    omega
  refine ⟨?_, ?_, ?_, ?_, ?_, ?_, ?_, ?_, rfl, rfl, rfl, ?_⟩
  · simp only [halt_to_parent, hparent]
  · simp only [halt_to_parent, hparent, m1, n2, hint, paging_syscall, Function.update_same]
    unfold to_uint32
    omega
  · simp only [halt_to_parent, hparent, m1, n2, hint, paging_syscall, Function.update_same]
  · simp only [halt_to_parent, hparent, m1, n2, hint, paging_syscall, Function.update_same]
    rfl
  · intro t ht
    simp only [halt_to_parent, hparent, m1, paging_syscall, Function.update_noteq ht]
    rfl
  · simp only [halt_to_parent, hparent, paging_syscall]
    exact n6
  · simp only [halt_to_parent, hparent, n2, hint, paging_syscall, Function.update_same, hframe]
    rw [lor_flags]
    unfold MB_8 MB_4
    omega
  · simp only [halt_to_parent, hparent, n2, hint, paging_syscall]
    unfold to_uint32 MB_8 KB_8
    omega
  · intro a
    obtain ⟨_, _, _, k4, k5, _⟩ := modify_pcb_child_fields s parent 0 a
    simp only [halt_to_parent, hparent, paging_syscall]
    exact ⟨k4, k5⟩

/-- The state that `halt_extend` reaches before it tests `running_processes`, for a
process whose PCB names the current terminal. -/
theorem halt_release_spec (s : KState) (hp6 : (s.terminals s.cur_terminal).pid < 6)
    (htid : (s.pcb_mem (s.terminals s.cur_terminal).pcb).tid = s.cur_terminal) :
    (halt_release s).fs = s.fs ∧ (halt_release s).cur_terminal = s.cur_terminal ∧
    (halt_release s).pid_status
      = Function.update s.pid_status (s.terminals s.cur_terminal).pid (-1) ∧
    ((halt_release s).terminals s.cur_terminal).running_processes
      = ((s.terminals s.cur_terminal).running_processes + 255) % 256 ∧
    ((halt_release s).terminals s.cur_terminal).pid = (s.terminals s.cur_terminal).pid ∧
    ((halt_release s).terminals s.cur_terminal).pcb = (s.terminals s.cur_terminal).pcb ∧
    (∀ t, t ≠ s.cur_terminal → (halt_release s).terminals t = s.terminals t) ∧
    (∀ a, ((halt_release s).pcb_mem a).pid = (s.pcb_mem a).pid ∧
      ((halt_release s).pcb_mem a).tid = (s.pcb_mem a).tid ∧
      ((halt_release s).pcb_mem a).parent = (s.pcb_mem a).parent) ∧
    (∀ j, j < MAX_ARG_SEQ_SIZE →
      ((halt_release s).pcb_mem (s.terminals s.cur_terminal).pcb).exe_args j = 0) ∧
    (∀ j, 2 ≤ j → j ≤ 7 →
      ((s.pcb_mem (s.terminals s.cur_terminal).pcb).file_array j).fops_table.close ≠ none →
      (((halt_release s).pcb_mem (s.terminals s.cur_terminal).pcb).file_array j).flags = 0) ∧
    (∀ j, ¬ (2 ≤ j ∧ j ≤ 7 ∧
        ((s.pcb_mem (s.terminals s.cur_terminal).pcb).file_array j).fops_table.close ≠ none) →
      (((halt_release s).pcb_mem (s.terminals s.cur_terminal).pcb).file_array j).flags
        = ((s.pcb_mem (s.terminals s.cur_terminal).pcb).file_array j).flags) := by
  have hint : to_int32 (s.terminals s.cur_terminal).pid
      = ((s.terminals s.cur_terminal).pid : Int) := by
    unfold to_int32 WORD
    split <;> omega
  obtain ⟨f1, f2, f3⟩ := halt_close_fds_spec FDA_SIZE
    { s with pid_status := Function.update s.pid_status (s.terminals s.cur_terminal).pid (-1) } 0
  dsimp only at f1 f2 f3
  obtain ⟨c1, c2, c3, c4, c5, c6, c7, c8, c9⟩ := f1
  dsimp only at c1 c2 c3 c4 c5 c6 c7 c8 c9
  have hrel : halt_release s
      = { (halt_close_fds
            { s with pid_status := Function.update s.pid_status (s.terminals s.cur_terminal).pid (-1) }
            (s.terminals s.cur_terminal).pcb FDA_SIZE 0).modify_pcb (s.terminals s.cur_terminal).pcb
              halt_clear_args with
          terminals := Function.update s.terminals s.cur_terminal
            { s.terminals s.cur_terminal with
              running_processes := ((s.terminals s.cur_terminal).running_processes + 255) % 256 } } := by
    unfold halt_release
    simp only [hint, Int.natCast_nonneg, if_true, Int.toNat_ofNat]
    have ht : (((halt_close_fds
        { s with pid_status := Function.update s.pid_status (s.terminals s.cur_terminal).pid (-1) }
        (s.terminals s.cur_terminal).pcb FDA_SIZE 0).modify_pcb (s.terminals s.cur_terminal).pcb
          halt_clear_args).pcb_mem (s.terminals s.cur_terminal).pcb).tid = s.cur_terminal := by
      simp only [KState.modify_pcb, Function.update_same, halt_clear_args]
      rw [(c9 _).2.1]
      exact htid
    rw [ht]
    simp only [KState.modify_pcb, c5]
  rw [hrel]
  refine ⟨?_, ?_, ?_, ?_, ?_, ?_, ?_, ?_, ?_, ?_, ?_⟩
  · simp only [KState.modify_pcb]
    exact c1
  · simp only [KState.modify_pcb]
    exact c3
  · simp only [KState.modify_pcb]
    exact c2
  · simp only [Function.update_same]
  · simp only [Function.update_same]
  · simp only [Function.update_same]
  · intro t ht
    simp only [Function.update_noteq ht]
  · intro a
    by_cases ha : a = (s.terminals s.cur_terminal).pcb
    · subst ha
      simp only [KState.modify_pcb, Function.update_same, halt_clear_args]
      exact ⟨(c9 _).1, (c9 _).2.1, (c9 _).2.2.1⟩
    · simp only [KState.modify_pcb, Function.update_noteq ha]
      exact ⟨(c9 _).1, (c9 _).2.1, (c9 _).2.2.1⟩
  · intro j hj
    simp only [KState.modify_pcb, Function.update_same, halt_clear_args, hj, if_true]
  · intro j h2 h7 hc
    simp only [KState.modify_pcb, Function.update_same, halt_clear_args]
    exact f2 j h2 h7 (by omega) (by unfold FDA_SIZE; omega) hc
  · intro j hj
    simp only [KState.modify_pcb, Function.update_same, halt_clear_args]
    apply f3 j
    intro h
    exact hj ⟨h.1, h.2.1, h.2.2.2.2⟩

theorem find_avail_pid_none_iff (t : KState) :
    find_avail_pid t = -1 ↔ ∀ k, k < 6 → t.pid_status k = 1 := by
  constructor
  · intro h k hk
    by_contra hne
    obtain ⟨r, e, _⟩ := find_avail_pid_loop_least t.pid_status 6 0 k (by omega) (by omega) hne
    unfold find_avail_pid MAX_PROCESSES at h
    rw [e] at h
    omega
  · intro h
    exact find_avail_pid_loop_full t.pid_status 6 0 (fun k _ h2 => h k (by omega))

/-- C13 (as the code has it): when the process of the current terminal halts while
the terminal runs at least two processes, where the terminal holds a pid `p < 6`, the
tid field of the halting PCB holds the current terminal and the pid field of its
parent PCB holds a value `q < 6`, `halt_extend` resumes the parent with `status`.
Afterwards slot `p` of the pid table is -1 and the other slots are as before, so
`find_avail_pid` (which is -1 only when all six slots are 1) returns the lowest index
whose slot is not 1, an index `≤ p`, and `execute` of every command that names an
executable enters user mode; the count of the terminal is one less; the terminal holds
the pid and PCB of the parent, whose child link is null; slot 32 maps
`8 MiB + q * 4 MiB` and `esp0 = 8 MiB - 8 KiB * q - 4`; every descriptor 2..7 of the
halted PCB that has a close operation or was unused is unused, while a descriptor
without a close operation keeps its flags; the 32 argument bytes are 0; the other
terminal records are unchanged. -/
theorem halt_extend_spec (s : KState) (status : Int) (ELF_chars : Buffer) (esp ebp : Nat)
    (parent q : Nat) (hp6 : (s.terminals s.cur_terminal).pid < 6)
    (hrp : 2 ≤ (s.terminals s.cur_terminal).running_processes)
    (hrp256 : (s.terminals s.cur_terminal).running_processes < 256)
    (htid : (s.pcb_mem (s.terminals s.cur_terminal).pcb).tid = s.cur_terminal)
    (hparent : (s.pcb_mem (s.terminals s.cur_terminal).pcb).parent = parent)
    (hq : (s.pcb_mem parent).pid = q) (hq6 : q < 6) :
    (∀ t : KState, find_avail_pid t = -1 ↔ ∀ k, k < 6 → t.pid_status k = 1) ∧
    ∃ s2, halt_extend s status ELF_chars esp ebp
        = some (.returned_to_parent status parent, s2) ∧
      s2.pid_status (s.terminals s.cur_terminal).pid = -1 ∧
      (∀ k, k ≠ (s.terminals s.cur_terminal).pid → s2.pid_status k = s.pid_status k) ∧
      (∃ r : Nat, find_avail_pid s2 = (r : Int) ∧ r ≤ (s.terminals s.cur_terminal).pid ∧
        s2.pid_status r ≠ 1 ∧ ∀ k, k < r → s2.pid_status k = 1) ∧
      (∀ cmd filename args E e1 e2, execute_parse cmd = some (filename, args) →
        is_executable s.fs (some filename) E = some 1 →
        ∃ eip s3, execute s2 (some cmd) E e1 e2 = some (.entered_user eip, s3)) ∧
      (s2.terminals s.cur_terminal).running_processes
        = (s.terminals s.cur_terminal).running_processes - 1 ∧
      (s2.terminals s.cur_terminal).pid = q ∧ (s2.terminals s.cur_terminal).pcb = parent ∧
      (s2.pcb_mem parent).child = 0 ∧
      s2.page_directory USER_PAGE = MB_8 + q * MB_4 + 135 ∧
      s2.page_directory USER_PAGE / MB_4 * MB_4 = MB_8 + q * MB_4 ∧
      s2.tss_esp0 = MB_8 - KB_8 * q - 4 ∧
      (∀ j, 2 ≤ j → j ≤ 7 →
        (((s.pcb_mem (s.terminals s.cur_terminal).pcb).file_array j).fops_table.close ≠ none ∨
          ((s.pcb_mem (s.terminals s.cur_terminal).pcb).file_array j).flags = 0) →
        ((s2.pcb_mem (s.terminals s.cur_terminal).pcb).file_array j).flags = 0) ∧
      (∀ j, ((s.pcb_mem (s.terminals s.cur_terminal).pcb).file_array j).fops_table.close = none →
        ((s2.pcb_mem (s.terminals s.cur_terminal).pcb).file_array j).flags
          = ((s.pcb_mem (s.terminals s.cur_terminal).pcb).file_array j).flags) ∧
      (∀ j, j < MAX_ARG_SEQ_SIZE →
        (s2.pcb_mem (s.terminals s.cur_terminal).pcb).exe_args j = 0) ∧
      (∀ t, t ≠ s.cur_terminal → s2.terminals t = s.terminals t) := by
  refine ⟨find_avail_pid_none_iff, ?_⟩
  obtain ⟨r1, r2, r3, r4, r5, r6, r7, r8, r9, r10, r11⟩ := halt_release_spec s hp6 htid
  have htid4 : ((halt_release s).pcb_mem (s.terminals s.cur_terminal).pcb).tid
      = s.cur_terminal := by
    rw [(r8 _).2.1, htid]
  have hbranch : ¬ ((halt_release s).terminals
      ((halt_release s).pcb_mem (s.terminals s.cur_terminal).pcb).tid).running_processes = 0 := by
    rw [htid4, r4]
    omega
  obtain ⟨t1, t2, t3, t4, t5, t6, t7, t8, t9, t10, t11, t12⟩ :=
    halt_to_parent_spec (halt_release s) (s.terminals s.cur_terminal).pcb status s.cur_terminal
      parent q htid4 (by rw [(r8 _).2.2, hparent]) (by rw [(r8 _).1, hq]) (by omega)
  have hfree : (halt_to_parent (halt_release s) (s.terminals s.cur_terminal).pcb status).2.pid_status
      (s.terminals s.cur_terminal).pid ≠ 1 := by
    rw [t9, r3, Function.update_same]
    decide
  refine ⟨(halt_to_parent (halt_release s) (s.terminals s.cur_terminal).pcb status).2,
    ?_, ?_, ?_, ?_, ?_, ?_, t2, t3, t6, t7, ?_, t8, ?_, ?_, ?_, ?_⟩
  · unfold halt_extend
    dsimp only
    rw [if_neg hbranch]
    exact congrArg some (Prod.ext t1 rfl)
  · rw [t9, r3, Function.update_same]
  · intro k hk
    rw [t9, r3, Function.update_noteq hk]
  · obtain ⟨r, e1, _, e3, e4, e5⟩ := find_avail_pid_loop_least _ 6 0
      (s.terminals s.cur_terminal).pid (by omega) (by omega) hfree
    exact ⟨r, e1, e3, e4, fun k hk => e5 k (by omega) hk⟩
  · intro cmd filename args E e1 e2 hparse hexe
    apply execute_succeeds _ cmd filename args E e1 e2 hparse
    · rw [t10, r1]
      exact hexe
    · intro h
      have := (find_avail_pid_none_iff _).mp h (s.terminals s.cur_terminal).pid hp6
      exact hfree this
  · rw [t4, r4]
    omega
  · rw [t7]
    unfold MB_8 MB_4
    omega
  · intro j h2 h7 h
    rw [(t12 _).1]
    by_cases hc : ((s.pcb_mem (s.terminals s.cur_terminal).pcb).file_array j).fops_table.close
        = none
    · rw [r11 j (fun g => g.2.2 hc)]
      rcases h with h | h
      · exact absurd hc h
      · exact h
    · exact r10 j h2 h7 hc
  · intro j hc
    rw [(t12 _).1]
    exact r11 j (fun g => g.2.2 hc)
  · intro j hj
    rw [(t12 _).2]
    exact r9 j hj
  · intro t ht
    rw [t5 t ht, r7 t ht]

/-- Instance of `halt_extend_spec`: the child of `child_state` halts and the process
of pid 0 is resumed. -/
theorem halt_extend_spec_witness :
    ∃ s2, halt_extend child_state 5 (fun _ => 0) 0 0
        = some (.returned_to_parent 5 0x7FE000, s2) ∧
      s2.pid_status 1 = -1 ∧ (s2.terminals 0).running_processes = 1 ∧
      (s2.terminals 0).pid = 0 ∧ (s2.terminals 0).pcb = 0x7FE000 ∧
      s2.page_directory USER_PAGE = MB_8 + 0 * MB_4 + 135 := by
  obtain ⟨s2, h1, h2, _, _, _, h6, h7, h8, _, h10, _⟩ :=
    (halt_extend_spec child_state 5 (fun _ => 0) 0 0 0x7FE000 0 (by decide) (by decide)
      (by decide) (by decide) (by decide) (by decide) (by decide)).2
  exact ⟨s2, h1, h2, h6, h7, h8, h10⟩

/-! ### Terminal records -/

theorem execute_link_parent_links (s : KState) (pcb esp ebp : Nat)
    (hpid : (s.terminals s.cur_terminal).pid ≠ 4294967295) :
    ((execute_link_parent s pcb esp ebp).pcb_mem pcb).parent
      = (s.terminals (s.pcb_mem pcb).tid).pcb := by
  unfold execute_link_parent
  rw [if_pos hpid]
  dsimp only
  generalize (s.terminals (s.pcb_mem pcb).tid).pcb = B
  by_cases hB : pcb = B
  · subst hB
    simp [KState.modify_pcb]
  · simp [KState.modify_pcb, Function.update_apply, hB]

theorem execute_update_terminal_count (s : KState) (cur_pid pcb : Nat) :
    ((execute_update_terminal s cur_pid pcb).terminals s.cur_terminal).running_processes
      = ((s.terminals s.cur_terminal).running_processes + 1) % 256 := by
  simp [execute_update_terminal]

/-- The links that `execute` sets up for a child of the process that runs in the
current terminal, when the argument tail fits the buffer. -/
theorem execute_launch_links (s : KState) (filename args : List Nat) (cur_pid esp ebp : Nat)
    (o : exec_outcome) (s1 : KState)
    (h : execute_launch s filename args cur_pid esp ebp = some (o, s1))
    (hlen : args.length < 32) (hpid : (s.terminals s.cur_terminal).pid ≠ 4294967295) :
    (s1.terminals s.cur_terminal).pid = cur_pid ∧
    (s1.terminals s.cur_terminal).running_processes
      = ((s.terminals s.cur_terminal).running_processes + 1) % 256 ∧
    (s1.pcb_mem (MB_8 - KB_8 * (cur_pid + 1))).parent = (s.terminals s.cur_terminal).pcb ∧
    (s1.pcb_mem (MB_8 - KB_8 * (cur_pid + 1))).tid = s.cur_terminal ∧
    ∀ x, x ≠ MB_8 - KB_8 * (cur_pid + 1) → (s1.pcb_mem x).pid = (s.pcb_mem x).pid := by
  unfold execute_launch at h
  dsimp only at h
  split at h
  · simp at h
  · rename_i x s3 hcopy
    obtain ⟨_, _, f3, _, f5, _, _, _, f9⟩ := copy_to_va_frame _ _ _ _ _ _ hcopy
    simp only [paging_syscall] at f3 f5 f9
    simp only [Option.some.injEq, Prod.mk.injEq] at h
    obtain ⟨_, h2⟩ := h
    have hcreate := execute_create_pcb_short_args (s3.pcb_mem (MB_8 - KB_8 * (cur_pid + 1)))
      cur_pid s3.cur_terminal args hlen
    generalize hS4 : s3.modify_pcb (MB_8 - KB_8 * (cur_pid + 1))
      (fun q => execute_create_pcb q cur_pid s3.cur_terminal args) = S4 at h2
    have a1 : S4.cur_terminal = s.cur_terminal := by rw [← hS4]; exact f3
    have a2 : S4.terminals = s.terminals := by rw [← hS4]; exact f5
    have a3 : (S4.pcb_mem (MB_8 - KB_8 * (cur_pid + 1))).tid = s.cur_terminal := by
      rw [← hS4]
      simp only [KState.modify_pcb, Function.update_same]
      rw [hcreate.2, f3]
    have a4 : ∀ y, y ≠ MB_8 - KB_8 * (cur_pid + 1) → S4.pcb_mem y = s.pcb_mem y := by
      intro y hy
      rw [← hS4]
      simp only [KState.modify_pcb, Function.update_noteq hy, f9]
    obtain ⟨l1, l2, l3⟩ := execute_link_parent_frame S4 (MB_8 - KB_8 * (cur_pid + 1)) esp ebp
    have l4 := execute_link_parent_links S4 (MB_8 - KB_8 * (cur_pid + 1)) esp ebp
      (by rw [a1, a2]; exact hpid)
    rw [a3, a2] at l4
    generalize execute_link_parent S4 (MB_8 - KB_8 * (cur_pid + 1)) esp ebp = S5 at h2 l1 l2 l3 l4
    obtain ⟨u1, u2, _, u4⟩ := execute_update_terminal_frame S5 cur_pid (MB_8 - KB_8 * (cur_pid + 1))
    have u5 := execute_update_terminal_count S5 cur_pid (MB_8 - KB_8 * (cur_pid + 1))
    rw [l1, a1] at u4 u5
    rw [l2, a2] at u5
    generalize execute_update_terminal S5 cur_pid (MB_8 - KB_8 * (cur_pid + 1)) = S7 at h2 u1 u2 u4 u5
    rw [← h2]
    refine ⟨u4, u5, ?_, ?_, ?_⟩
    · simp only [KState.modify_pcb, Function.update_same, u2]
      exact l4
    · simp only [KState.modify_pcb, Function.update_same, u2]
      rw [(l3 _).2.2.2]
      exact a3
    · intro y hy
      simp only [KState.modify_pcb, Function.update_noteq hy, u2]
      rw [(l3 y).2.2.1, a4 y hy]

/-- The links set up by a call of `execute` that enters user mode from a terminal that
already runs a process, when the argument tail fits the buffer. -/
theorem execute_links (s : KState) (cmd filename args : List Nat) (ELF_chars : Buffer)
    (esp ebp eip n : Nat) (s1 : KState)
    (h : execute s (some cmd) ELF_chars esp ebp = some (.entered_user eip, s1))
    (hparse : execute_parse cmd = some (filename, args)) (hlen : args.length < 32)
    (hpid : (s.terminals s.cur_terminal).pid ≠ 4294967295)
    (hfind : find_avail_pid s = (n : Int)) :
    s1.cur_terminal = s.cur_terminal ∧
    (s1.terminals s.cur_terminal).pcb = MB_8 - KB_8 * (n + 1) ∧
    (s1.terminals s.cur_terminal).pid = n ∧
    (s1.terminals s.cur_terminal).running_processes
      = ((s.terminals s.cur_terminal).running_processes + 1) % 256 ∧
    (s1.pcb_mem (MB_8 - KB_8 * (n + 1))).parent = (s.terminals s.cur_terminal).pcb ∧
    (s1.pcb_mem (MB_8 - KB_8 * (n + 1))).tid = s.cur_terminal ∧
    ∀ x, x ≠ MB_8 - KB_8 * (n + 1) → (s1.pcb_mem x).pid = (s.pcb_mem x).pid := by
  unfold execute at h
  simp only [hparse] at h
  split at h
  · simp at h
  · split at h
    · simp at h
    · split at h
      · simp at h
      · rw [hfind, Int.toNat_ofNat] at h
        obtain ⟨_, a, b, _⟩ := execute_launch_spec _ _ _ _ _ _ _ _ h
        obtain ⟨c1, c2, c3, c4, c5⟩ := execute_launch_links _ _ _ _ _ _ _ _ h hlen hpid
        rw [a] at b
        exact ⟨a, b, c1, c2, c3, c4, c5⟩

/-- The terminal record that `halt_extend` writes when it hands the terminal back:
the pid stored is the pid field of the parent PCB, whatever its value. -/
theorem halt_to_parent_terminal (s : KState) (pcb : Nat) (status : Int) (c parent q : Nat)
    (htid : (s.pcb_mem pcb).tid = c) (hparent : (s.pcb_mem pcb).parent = parent)
    (hq : (s.pcb_mem parent).pid = q) (hqW : q < WORD) :
    (halt_to_parent s pcb status).1 = .returned_to_parent status parent ∧
    ((halt_to_parent s pcb status).2.terminals c).pid = q ∧
    ((halt_to_parent s pcb status).2.terminals c).running_processes
      = (s.terminals c).running_processes := by
  obtain ⟨m1, _, _, _, _, _⟩ := modify_pcb_child_fields s parent 0 pcb
  obtain ⟨_, n2, _, _, _, _⟩ := modify_pcb_child_fields s parent 0 parent
  rw [htid] at m1
  rw [hq] at n2
  refine ⟨?_, ?_, ?_⟩
  · simp only [halt_to_parent, hparent]
  · simp only [halt_to_parent, hparent, m1, n2, paging_syscall, Function.update_same]
    unfold to_uint32 to_int32 WORD at *
    split <;> omega
  · simp only [halt_to_parent, hparent, m1, n2, paging_syscall, Function.update_same]
    rfl

/-- The shell and then the program `a` with the 36-byte argument are executed after
`terminal_init`: the state that the second call leaves, evaluated. -/
theorem long_args_prefix :
    ((execute (terminal_init boot_state) (some [115, 104, 101, 108, 108]) (fun _ => 0) 0 0).bind
      fun r1 => (execute r1.2 (some long_args_command) (fun _ => 0) 0 0).map fun r2 =>
        (r1.1.entered && r2.1.entered,
          [(r1.2.terminals 0).running_processes, (r1.2.terminals 0).pid,
            r2.2.cur_terminal, (r2.2.terminals 0).running_processes,
            (r2.2.terminals 0).pid, (r2.2.terminals 0).pcb, (r2.2.pcb_mem 0x7FC000).pid],
          find_avail_pid r2.2, is_executable r2.2.fs (some [97]) (fun _ => 0)))
      = some (true, [1, 0, 0, 2, 1, 0x7FC000, 4294967295], 2, some 1) := by
  decide

/-- C11 fails on the code: after `terminal_init`, `execute` of the shell, `execute` by
the shell of the program `a` with an argument of 36 bytes that ends in four bytes
0xFF, `execute` of `a` by that program and `halt` of the last process, each call
completed, terminal 0 has `running_processes = 2` and `pid = -1` (stored as
`2 ^ 32 - 1`).  Before the `halt` the counts and pids of terminal 0 are 1 and 0, 2 and
1, 3 and 2. -/
theorem terminal_invariant_broken :
    ∃ r1 r2 r3 r4,
      execute (terminal_init boot_state) (some [115, 104, 101, 108, 108]) (fun _ => 0) 0 0
        = some r1 ∧
      execute r1.2 (some long_args_command) (fun _ => 0) 0 0 = some r2 ∧
      execute r2.2 (some [97]) (fun _ => 0) 0 0 = some r3 ∧
      halt_extend r3.2 0 (fun _ => 0) 0 0 = some r4 ∧
      r1.1.entered = true ∧ r2.1.entered = true ∧ r3.1.entered = true ∧
      r4.1 = .returned_to_parent 0 0x7FC000 ∧
      ((r1.2.terminals 0).running_processes, (r1.2.terminals 0).pid) = (1, 0) ∧
      ((r2.2.terminals 0).running_processes, (r2.2.terminals 0).pid) = (2, 1) ∧
      ((r3.2.terminals 0).running_processes, (r3.2.terminals 0).pid) = (3, 2) ∧
      (r4.2.terminals 0).running_processes = 2 ∧ (r4.2.terminals 0).pid = 4294967295 := by
  have hp := long_args_prefix
  cases h1 : execute (terminal_init boot_state) (some [115, 104, 101, 108, 108]) (fun _ => 0) 0 0 with
  | none =>
    rw [h1] at hp
    simp at hp
  | some r1 =>
    rw [h1] at hp
    simp only [Option.some_bind] at hp
    cases h2 : execute r1.2 (some long_args_command) (fun _ => 0) 0 0 with
    | none =>
      rw [h2] at hp
      simp at hp
    | some r2 =>
      rw [h2] at hp
      simp only [Option.map_some', Option.some.injEq, Prod.mk.injEq, Bool.and_eq_true,
        List.cons.injEq, and_true] at hp
      obtain ⟨⟨d1, d4⟩, ⟨d2, d3, d5, d6, d7, d8, d9⟩, d10, d11⟩ := hp
      have hparse : execute_parse [97] = some ([97], []) := by decide
      have hpid2 : (r2.2.terminals r2.2.cur_terminal).pid ≠ 4294967295 := by
        rw [d5, d7]
        decide
      obtain ⟨eip, s3, h3⟩ := execute_succeeds r2.2 [97] [97] [] (fun _ => 0) 0 0 hparse d11
        (by rw [d10]; decide)
      obtain ⟨e1, e2, e3, e4, e5, e6, e7⟩ := execute_links r2.2 [97] [97] [] (fun _ => 0) 0 0
        eip 2 s3 h3 hparse (by decide) hpid2 d10
      rw [d5] at e1 e2 e3 e4 e5 e6
      rw [d6] at e4
      rw [d8] at e5
      have hB : (s3.pcb_mem 0x7FC000).pid = 4294967295 := by
        rw [e7 0x7FC000 (by decide), d9]
      have hp6 : (s3.terminals s3.cur_terminal).pid < 6 := by
        rw [e1, e3]
        decide
      have htid : (s3.pcb_mem (s3.terminals s3.cur_terminal).pcb).tid = s3.cur_terminal := by
        rw [e1, e2, e6]
      obtain ⟨_, _, _, q4, _, _, _, q8, _, _, _⟩ := halt_release_spec s3 hp6 htid
      rw [e1] at q4
      have htid4 : ((halt_release s3).pcb_mem (MB_8 - KB_8 * (2 + 1))).tid = 0 := by
        rw [(q8 _).2.1, e6]
      have hbranch : ¬ ((halt_release s3).terminals
          ((halt_release s3).pcb_mem (s3.terminals s3.cur_terminal).pcb).tid).running_processes
            = 0 := by
        rw [e1, e2, htid4, q4, e4]
        decide
      obtain ⟨t1, t2, t3⟩ := halt_to_parent_terminal (halt_release s3) (MB_8 - KB_8 * (2 + 1)) 0 0
        0x7FC000 4294967295 htid4 (by rw [(q8 _).2.2, e5]) (by rw [(q8 _).1, hB]) (by decide)
      have h4 : halt_extend s3 0 (fun _ => 0) 0 0
          = some (halt_to_parent (halt_release s3) (MB_8 - KB_8 * (2 + 1)) 0) := by
        unfold halt_extend
        dsimp only
        rw [if_neg hbranch, e1, e2]
      refine ⟨r1, r2, (.entered_user eip, s3), _, rfl, h2, h3, h4, d1, d4, rfl, t1, ?_, ?_, ?_,
        ?_, t2⟩
      · rw [d2, d3]
      · rw [d6, d7]
      · rw [e3, e4]
      · rw [t3, q4, e4]

/-! ### Failed reads and the file position -/

/-- The calls that `file_read` rejects before it looks at the descriptor: the state,
hence the file position, is as before. -/
theorem file_read_rejects (s : KState) (fd : Int) (buf : Option Buffer) (nbytes : Int)
    (h : buf = none ∨ nbytes < 0) : file_read s fd buf nbytes = some (-1, s, buf) := by
  unfold file_read
  rw [if_pos]
  rcases h with h | h
  · left
    rw [h]
    rfl
  · right
    exact h

/-- C29 fails on the code: on an image whose inode names a data block that does not
exist, `read_data` fails and `file_read` returns -1, but the file position of the
descriptor is not what it was: from 10 it goes to 9, and from 0 it goes to
`2 ^ 32 - 1`. -/
theorem file_read_failure_moves_position :
    (((bad_block_state.pcb_mem (get_PCB bad_block_state)).file_array 2).file_position,
      ((bad_block_state.pcb_mem (get_PCB bad_block_state)).file_array 3).file_position)
      = (10, 0) ∧
    (file_read bad_block_state 2 (some (fun _ => 0)) 100).map
        (fun r => (r.1, ((r.2.1.pcb_mem (get_PCB bad_block_state)).file_array 2).file_position))
      = some (-1, 9) ∧
    (file_read bad_block_state 3 (some (fun _ => 0)) 100).map
        (fun r => (r.1, ((r.2.1.pcb_mem (get_PCB bad_block_state)).file_array 3).file_position))
      = some (-1, 4294967295) := by
  refine ⟨by decide, by decide, by decide⟩

/-! ### The directory index -/

/-- C30 (as the code has it): the read position of directories is the single global
`dir_index`.  `directory_read` does not look at its descriptor; a successful
`directory_open` through any descriptor sets the index to 0 and `directory_close`
through any descriptor sets it to -1, after which every `directory_read` returns -1
with nothing changed; and a read that finds an entry, through whichever descriptor,
moves the index on by one. -/
theorem directory_index_shared :
    (∀ (s : KState) (fd1 fd2 : Int) (buf : Option Buffer) (nbytes : Int),
      directory_read s fd1 buf nbytes = directory_read s fd2 buf nbytes) ∧
    (∀ (s : KState) (name : Option (List Nat)), (directory_open s name).1 = 0 →
      (directory_open s name).2 = { s with dir_index := 0 }) ∧
    (∀ (s : KState) (fd : Int),
      call_close .directory_close s fd = (0, { s with dir_index := -1 })) ∧
    (∀ (s : KState) (fd : Int) (buf : Option Buffer) (nbytes : Int), s.dir_index = -1 →
      directory_read s fd buf nbytes = (-1, s, buf)) ∧
    (∀ (s : KState) (fd : Int) (b : Buffer) (nbytes : Int) (i : Nat),
      s.dir_index = (i : Int) → i < s.fs.num_entries → s.fs.num_entries < WORD → 0 ≤ nbytes →
      (directory_read s fd (some b) nbytes).2.1 = { s with dir_index := (i : Int) + 1 }) := by
  refine ⟨fun _ _ _ _ _ => rfl, directory_open_ok, fun _ _ => rfl, ?_, ?_⟩
  · intro s fd buf nbytes h
    unfold directory_read
    rw [if_pos h]
  · intro s fd b nbytes i hi hlt hW hn
    rw [directory_read_entry s fd b nbytes i hi hlt hW hn]

/-- Instance of `directory_index_shared`: a read through descriptor 5 in `dev_state`. -/
theorem directory_index_shared_witness :
    (directory_read dev_state 5 (some (fun _ => 0)) 32).2.1
      = { dev_state with dir_index := ((0 : Nat) : Int) + 1 } :=
  directory_index_shared.2.2.2.2 dev_state 5 (fun _ => 0) 32 0 (by decide) (by decide)
    (by decide) (by decide)

/-- C30 as stated fails: in `dev_state` the directory is opened twice, on descriptors 3
and 4.  A first read through descriptor 4 returns the name of entry 0, one byte; after
one read through descriptor 3 the first read through descriptor 4 returns the name of
entry 1, three bytes; and after `close` of descriptor 3 it returns -1. -/
theorem directory_reads_interfere :
    (sys_open dev_state (some [46])).1 = 3 ∧
    (sys_open (sys_open dev_state (some [46])).2 (some [46])).1 = 4 ∧
    (directory_read (sys_open (sys_open dev_state (some [46])).2 (some [46])).2 4
      (some (fun _ => 0)) 32).1 = 1 ∧
    (directory_read (sys_open (sys_open dev_state (some [46])).2 (some [46])).2 4
      (some (fun _ => 0)) 32).2.2.map (fun out => out 0) = some 46 ∧
    (directory_read
      (directory_read (sys_open (sys_open dev_state (some [46])).2 (some [46])).2 3
        (some (fun _ => 0)) 32).2.1 4 (some (fun _ => 0)) 32).1 = 3 ∧
    (directory_read
      (directory_read (sys_open (sys_open dev_state (some [46])).2 (some [46])).2 3
        (some (fun _ => 0)) 32).2.1 4 (some (fun _ => 0)) 32).2.2.map (fun out => out 0)
      = some 114 ∧
    (directory_read
      (sys_close (sys_open (sys_open dev_state (some [46])).2 (some [46])).2 3).2 4
        (some (fun _ => 0)) 32).1 = -1 := by
  refine ⟨by decide, by decide, by decide, by decide, by decide, by decide, by decide⟩

/-! ### close after open -/

/-- The descriptor table after a successful `open` of an entry of type 0, 1 or 2. -/
theorem sys_open_effect (s : KState) (name : List Nat) (d : dentry_t) (i : Int)
    (hfound : read_dentry_by_name s.fs (some name) (some uninit_dentry) = (0, some d))
    (htype : d.filetype = 0 ∨ d.filetype = 1 ∨ d.filetype = 2)
    (h2 : 2 ≤ i) (h7 : i ≤ 7)
    (hfree : ((s.pcb_mem (s.terminals s.cur_terminal).pcb).file_array i).flags = 0)
    (hlow : ∀ j : Int, 2 ≤ j → j < i →
      ((s.pcb_mem (s.terminals s.cur_terminal).pcb).file_array j).flags ≠ 0) :
    (sys_open s (some name)).1 = i ∧
    ((sys_open s (some name)).2.pcb_mem (s.terminals s.cur_terminal).pcb).file_array
      = Function.update (s.pcb_mem (s.terminals s.cur_terminal).pcb).file_array i
          ⟨fops_of_type d.filetype, inode_of_dentry d, 0, 1⟩ ∧
    (sys_open s (some name)).2.cur_terminal = s.cur_terminal ∧
    (sys_open s (some name)).2.terminals = s.terminals := by
  have hscan := open_scan_found (s.pcb_mem (s.terminals s.cur_terminal).pcb) 6 2 i
    h2 h7 (by push_cast; omega) hfree hlow
  have hdir : d.filetype = 1 → directory_open s (some name) = (0, { s with dir_index := 0 }) := by
    intro h1
    simp [directory_open, hfound, h1]
  have hfile : file_open s (some name)
      = (0, { s with opfile_inode := to_int32 d.inode_num, opfile_bytes_read := 0 }) := by
    simp [file_open, hfound]
  rcases htype with h0 | h1 | h2
  · simp [sys_open, hfound, FD_MIN, hscan, h0, RTC_TYPE, rtc_open, KState.modify_pcb,
      PCB.modify_fd, fops_of_type, inode_of_dentry, FILE_TYPE]
  · simp [sys_open, hfound, FD_MIN, hscan, h1, RTC_TYPE, DIR_TYPE, hdir h1, KState.modify_pcb,
      PCB.modify_fd, fops_of_type, inode_of_dentry, FILE_TYPE]
  · simp [sys_open, hfound, FD_MIN, hscan, h2, RTC_TYPE, DIR_TYPE, hfile, KState.modify_pcb,
      PCB.modify_fd, fops_of_type, inode_of_dentry, FILE_TYPE]

/-- The descriptor table after a `close` that goes through: the entry keeps its
operations table and inode, its position and flags are 0. -/
theorem sys_close_table (s : KState) (fd : Int) (f : close_fn) (h2 : 2 ≤ fd) (h7 : fd ≤ 7)
    (hfl : ((s.pcb_mem (s.terminals s.cur_terminal).pcb).file_array fd).flags ≠ 0)
    (hcl : ((s.pcb_mem (s.terminals s.cur_terminal).pcb).file_array fd).fops_table.close
      = some f) :
    (sys_close s fd).1 = 0 ∧
    ((sys_close s fd).2.pcb_mem (s.terminals s.cur_terminal).pcb).file_array
      = Function.update (s.pcb_mem (s.terminals s.cur_terminal).pcb).file_array fd
          { (s.pcb_mem (s.terminals s.cur_terminal).pcb).file_array fd with
            file_position := 0, flags := 0 } := by
  have hr : ¬ (fd < FD_MIN ∨ fd > FD_MAX) := by
    unfold FD_MIN FD_MAX
    omega
  unfold sys_close
  rw [if_neg hr]
  dsimp only
  rw [if_neg (show ¬ _ = NOT_IN_USE from hfl), hcl]
  dsimp only
  have hcl1 : (((s.modify_pcb (s.terminals s.cur_terminal).pcb (fun q =>
      (q.modify_fd fd (fun e => { e with file_position := 0 })).modify_fd fd
        (fun e => { e with flags := NOT_IN_USE }))).pcb_mem
      (s.terminals s.cur_terminal).pcb).file_array fd).fops_table.close = some f := by
    simp [KState.modify_pcb, PCB.modify_fd, hcl]
  rw [hcl1]
  dsimp only
  obtain ⟨c1, _, c3, _, _⟩ := call_close_ret f (s.modify_pcb (s.terminals s.cur_terminal).pcb
    (fun q => (q.modify_fd fd (fun e => { e with file_position := 0 })).modify_fd fd
      (fun e => { e with flags := NOT_IN_USE }))) fd
  refine ⟨c1, ?_⟩
  rw [c3]
  simp [KState.modify_pcb, PCB.modify_fd, NOT_IN_USE]

/-- C22 (as the code has it): when `open` of an entry of type 0, 1 or 2 succeeds, it
returns the lowest free descriptor `i` of `[2, 7]`, `close` of that descriptor returns
0, and afterwards every other descriptor is exactly as before the `open`, while
descriptor `i` has the flags it had before (0), position 0, and the operations table
and inode that `open` stored; these two fields are not restored. -/
theorem close_open_table (s : KState) (name : List Nat) (d : dentry_t) (i : Int)
    (hfound : read_dentry_by_name s.fs (some name) (some uninit_dentry) = (0, some d))
    (htype : d.filetype = 0 ∨ d.filetype = 1 ∨ d.filetype = 2)
    (h2 : 2 ≤ i) (h7 : i ≤ 7)
    (hfree : ((s.pcb_mem (s.terminals s.cur_terminal).pcb).file_array i).flags = 0)
    (hlow : ∀ j : Int, 2 ≤ j → j < i →
      ((s.pcb_mem (s.terminals s.cur_terminal).pcb).file_array j).flags ≠ 0) :
    (sys_open s (some name)).1 = i ∧
    (sys_close (sys_open s (some name)).2 i).1 = 0 ∧
    ((sys_close (sys_open s (some name)).2 i).2.pcb_mem (s.terminals s.cur_terminal).pcb).file_array
      = Function.update (s.pcb_mem (s.terminals s.cur_terminal).pcb).file_array i
          ⟨fops_of_type d.filetype, inode_of_dentry d, 0, 0⟩ ∧
    (∀ j, j ≠ i →
      ((sys_close (sys_open s (some name)).2 i).2.pcb_mem
          (s.terminals s.cur_terminal).pcb).file_array j
        = (s.pcb_mem (s.terminals s.cur_terminal).pcb).file_array j) ∧
    (((sys_close (sys_open s (some name)).2 i).2.pcb_mem
        (s.terminals s.cur_terminal).pcb).file_array i).flags
      = ((s.pcb_mem (s.terminals s.cur_terminal).pcb).file_array i).flags := by
  obtain ⟨o1, o2, o3, o4⟩ := sys_open_effect s name d i hfound htype h2 h7 hfree hlow
  have hA : ((sys_open s (some name)).2.terminals (sys_open s (some name)).2.cur_terminal).pcb
      = (s.terminals s.cur_terminal).pcb := by rw [o3, o4]
  have hclose : ∃ f, (fops_of_type d.filetype).close = some f := by
    unfold fops_of_type
    split
    · exact ⟨_, rfl⟩
    · split <;> exact ⟨_, rfl⟩
  obtain ⟨f, hf⟩ := hclose
  obtain ⟨c1, c2⟩ := sys_close_table (sys_open s (some name)).2 i f h2 h7
    (by rw [hA, o2]; simp) (by rw [hA, o2]; simpa using hf)
  rw [hA, o2] at c2
  have htab : ((sys_close (sys_open s (some name)).2 i).2.pcb_mem
      (s.terminals s.cur_terminal).pcb).file_array
      = Function.update (s.pcb_mem (s.terminals s.cur_terminal).pcb).file_array i
          ⟨fops_of_type d.filetype, inode_of_dentry d, 0, 0⟩ := by
    rw [c2]
    simp
  refine ⟨o1, c1, htab, ?_, ?_⟩
  · intro j hj
    rw [htab, Function.update_noteq hj]
  · rw [htab, Function.update_same, hfree]

/-- Instance of `close_open_table`: the file of the demo image is opened on descriptor
3 of the demo state and closed again. -/
theorem close_open_table_witness :
    (sys_open demo_state (some [97])).1 = 3 ∧
    (sys_close (sys_open demo_state (some [97])).2 3).1 = 0 ∧
    ((sys_close (sys_open demo_state (some [97])).2 3).2.pcb_mem
        (demo_state.terminals demo_state.cur_terminal).pcb).file_array
      = Function.update (demo_state.pcb_mem (demo_state.terminals demo_state.cur_terminal).pcb).file_array
          3 ⟨fops_of_type 2, inode_of_dentry ⟨strncpy [97] 32, 2, 0⟩, 0, 0⟩ := by
  obtain ⟨a, b, c, _⟩ := close_open_table demo_state [97] ⟨strncpy [97] 32, 2, 0⟩ 3 (by decide)
    (Or.inr (Or.inr rfl)) (by decide) (by decide) (by decide)
    (fun j h1 h2 => by
      have hj : j = 2 := by omega
      subst hj
      decide)
  exact ⟨a, b, c⟩

/-- C22 as stated fails: descriptor 3 of the demo state is unused and its operations
table holds null pointers; after `open` of the file of the image, which returns 3, and
`close` of 3, the entry holds the operations table of regular files. -/
theorem close_open_changes_entry :
    (demo_state.pcb_mem (demo_state.terminals demo_state.cur_terminal).pcb).file_array 3
      = ⟨⟨none, none, none, none⟩, 0, 0, 0⟩ ∧
    (sys_open demo_state (some [97])).1 = 3 ∧
    (sys_close (sys_open demo_state (some [97])).2 3).1 = 0 ∧
    ((sys_close (sys_open demo_state (some [97])).2 3).2.pcb_mem
        (demo_state.terminals demo_state.cur_terminal).pcb).file_array 3
      = ⟨file_fops, 0, 0, 0⟩ := by
  refine ⟨by decide, by decide, by decide, by decide⟩

/-! ### Stores of the parser -/

theorem parse_filename_stores_le (l : List Nat) : ∀ (n : Nat), n ≤ 33 →
    ∀ p ∈ parse_filename_stores l n, p.1 ≤ 33 := by
  induction l with
  | nil =>
    intro n hn p hp
    simp only [parse_filename_stores, List.mem_singleton] at hp
    rw [hp]
    exact hn
  | cons c cs ih =>
    intro n hn p hp
    unfold parse_filename_stores at hp
    split at hp
    · split at hp
      · simp at hp
      · rename_i hlen
        unfold MAX_FILENAME_LEN at hlen
        rcases List.mem_cons.mp hp with h | h
        · rw [h]
          exact hn
        · exact ih (n + 1) (by omega) p h
    · simp only [List.mem_singleton] at hp
      rw [hp]
      exact hn

theorem parse_args_stores_le (l : List Nat) : ∀ (n : Nat), n ≤ 101 →
    ∀ p ∈ parse_args_stores l n, p.1 ≤ 101 := by
  induction l with
  | nil =>
    intro n hn p hp
    simp only [parse_args_stores, List.mem_singleton] at hp
    rw [hp]
    exact hn
  | cons c cs ih =>
    intro n hn p hp
    unfold parse_args_stores at hp
    split at hp
    · split at hp
      · simp at hp
      · rename_i hlen
        unfold MAX_COMMAND_LEN at hlen
        rcases List.mem_cons.mp hp with h | h
        · rw [h]
          exact hn
        · exact ih (n + 1) (by omega) p h
    · simp only [List.mem_singleton] at hp
      rw [hp]
      exact hn

/-- The terminator of an accepted first word is stored at the index that equals the
length of the word. -/
theorem parse_filename_stores_nul (l : List Nat) : ∀ (filename f rest : List Nat),
    parse_filename l filename = some (f, rest) →
    (f.length, 0) ∈ parse_filename_stores l filename.length := by
  induction l with
  | nil =>
    intro filename f rest h
    simp only [parse_filename, Option.some.injEq, Prod.mk.injEq] at h
    rw [← h.1]
    simp [parse_filename_stores]
  | cons c cs ih =>
    intro filename f rest h
    unfold parse_filename at h
    unfold parse_filename_stores
    split at h
    · rename_i hc
      rw [if_pos hc]
      split at h
      · simp at h
      · rename_i hlen
        rw [if_neg hlen]
        have := ih (filename ++ [c]) f rest h
        rw [List.length_append, List.length_singleton] at this
        exact List.mem_cons_of_mem _ this
    · rename_i hc
      rw [if_neg hc]
      simp only [Option.some.injEq, Prod.mk.injEq] at h
      rw [← h.1]
      simp

theorem parse_filename_stores_ge (l : List Nat) : ∀ (n : Nat) (q : Nat × Nat),
    q ∈ parse_filename_stores l n → n ≤ q.1 := by
  induction l with
  | nil =>
    intro n q hq
    simp only [parse_filename_stores, List.mem_singleton] at hq
    rw [hq]
  | cons d ds ih =>
    intro n q hq
    unfold parse_filename_stores at hq
    split at hq
    · split at hq
      · simp at hq
      · rcases List.mem_cons.mp hq with e | e
        · rw [e]
        · have := ih (n + 1) q e
          omega
    · simp only [List.mem_singleton] at hq
      rw [hq]

theorem parse_filename_stores_le_len (l : List Nat) : ∀ (filename f rest : List Nat),
    parse_filename l filename = some (f, rest) →
    ∀ p ∈ parse_filename_stores l filename.length, p.1 ≤ f.length := by
  induction l with
  | nil =>
    intro filename f rest h p hp
    simp only [parse_filename, Option.some.injEq, Prod.mk.injEq] at h
    simp only [parse_filename_stores, List.mem_singleton] at hp
    rw [hp, ← h.1]
  | cons c cs ih =>
    intro filename f rest h p hp
    unfold parse_filename at h
    unfold parse_filename_stores at hp
    split at h
    · rename_i hc
      rw [if_pos hc] at hp
      split at h
      · simp at h
      · rename_i hlen
        rw [if_neg hlen] at hp
        have hrec := ih (filename ++ [c]) f rest h
        have hnul := parse_filename_stores_nul cs (filename ++ [c]) f rest h
        rw [List.length_append, List.length_singleton] at hrec hnul
        rcases List.mem_cons.mp hp with e | e
        · have hge := parse_filename_stores_ge cs _ _ hnul
          rw [e]
          simp only at hge ⊢
          omega
        · exact hrec p e
    · rename_i hc
      rw [if_neg hc] at hp
      simp only [Option.some.injEq, Prod.mk.injEq] at h
      simp only [List.mem_singleton] at hp
      rw [hp, ← h.1]

theorem parse_filename_long (word : List Nat) : ∀ (rest filename : List Nat),
    (∀ c ∈ word, c ≠ 32 ∧ c ≠ 10 ∧ c ≠ 0) → 34 ≤ filename.length + word.length →
    filename.length ≤ 33 → parse_filename (word ++ rest) filename = none := by
  induction word with
  | nil =>
    intro rest filename _ h1 h2
    simp at h1
    omega
  | cons c cs ih =>
    intro rest filename hw h1 h2
    have hc := hw c (List.mem_cons_self _ _)
    rw [List.cons_append]
    unfold parse_filename
    rw [if_pos ⟨hc.2.2, hc.1, hc.2.1⟩]
    by_cases hlen : filename.length > MAX_FILENAME_LEN
    · rw [if_pos hlen]
    · rw [if_neg hlen]
      unfold MAX_FILENAME_LEN at hlen
      apply ih rest (filename ++ [c]) (fun d hd => hw d (List.mem_cons_of_mem _ hd))
      · rw [List.length_append, List.length_singleton]
        simp only [List.length_cons] at h1
        omega
      · rw [List.length_append, List.length_singleton]
        omega

/-- The bounds that do hold for the parser of `execute`: no store lands above index 33
of `filename` or above index 101 of `args`; when the parser accepts a command whose
first word has at most 32 bytes, every store into `filename` is at an index of at most
32; and a first word of 34 bytes or more is rejected. -/
theorem execute_parse_stores_bounds (command : List Nat) :
    (∀ p ∈ (execute_parse_stores command).1, p.1 ≤ 33) ∧
    (∀ p ∈ (execute_parse_stores command).2, p.1 ≤ 101) ∧
    (∀ filename rest, parse_filename (skip_spaces command) [] = some (filename, rest) →
      filename.length ≤ 32 → ∀ p ∈ (execute_parse_stores command).1, p.1 ≤ 32) ∧
    (∀ word rest, (∀ c ∈ word, c ≠ 32 ∧ c ≠ 10 ∧ c ≠ 0) → 34 ≤ word.length →
      execute_parse (word ++ rest) = none) := by
  refine ⟨?_, ?_, ?_, ?_⟩
  · exact parse_filename_stores_le _ 0 (by omega)
  · unfold execute_parse_stores
    dsimp only
    split
    · intro p hp
      simp at hp
    · exact parse_args_stores_le _ 0 (by omega)
  · intro filename rest h hlen p hp
    have := parse_filename_stores_le_len _ [] filename rest h p hp
    omega
  · intro word rest hw hlen
    have hskip : skip_spaces (word ++ rest) = word ++ rest := by
      apply skip_spaces_no_space
      cases word with
      | nil => simp at hlen
      | cons c cs =>
        have hc := hw c (List.mem_cons_self _ _)
        simp [hc.1]
    unfold execute_parse
    rw [hskip, parse_filename_long word rest [] hw (by simpa using hlen) (by simp)]

/-- C27 fails on the code: a first word of 33 bytes is not rejected, and its
terminator is stored at index 33 of the 33-byte array `filename`; an argument tail of
101 bytes is not rejected, and its terminator is stored at index 101 of the 101-byte
array `args`. -/
theorem execute_parse_writes_past_end :
    execute_parse (List.replicate 33 120) = some (List.replicate 33 120, []) ∧
    (33, 0) ∈ (execute_parse_stores (List.replicate 33 120)).1 ∧
    execute_parse ([97, 32] ++ List.replicate 101 120) = some ([97], List.replicate 101 120) ∧
    (101, 0) ∈ (execute_parse_stores ([97, 32] ++ List.replicate 101 120)).2 := by
  refine ⟨by decide, by decide, by decide, by decide⟩

/-! ### vidmap -/

/-- The pointers that `vidmap` rejects and the pointers for which its store stays
inside the user page: a null pointer and every pointer outside `[128 MiB, 132 MiB)`
give -1 with state and memory unchanged; every other pointer gives 0; and for a
pointer of at most `132 MiB - 4` no byte outside `[128 MiB, 132 MiB)` is changed. -/
theorem vidmap_cases (s : KState) (user_table_addr : Nat) (vmem : Buffer) (screen_start : Nat) :
    ((screen_start = 0 ∨ screen_start < MB_128 ∨ MB_132 ≤ screen_start) →
      vidmap s user_table_addr vmem screen_start = (-1, s, vmem)) ∧
    ((MB_128 ≤ screen_start ∧ screen_start < MB_132) →
      (vidmap s user_table_addr vmem screen_start).1 = 0) ∧
    ((MB_128 ≤ screen_start ∧ screen_start + 4 ≤ MB_132) →
      ∀ a, (a < MB_128 ∨ MB_132 ≤ a) →
        (vidmap s user_table_addr vmem screen_start).2.2 a = vmem a) := by
  refine ⟨?_, ?_, ?_⟩
  · intro h
    unfold vidmap
    by_cases h0 : screen_start = 0
    · rw [if_pos h0]
    · rw [if_neg h0, if_pos]
      rcases h with h | h | h
      · exact absurd h h0
      · exact Or.inr h
      · exact Or.inl h
  · intro h
    unfold vidmap
    have h0 : ¬ screen_start = 0 := by
      unfold MB_128 at h
      omega
    rw [if_neg h0, if_neg (by omega)]
  · intro h a ha
    unfold vidmap
    have h0 : ¬ screen_start = 0 := by
      unfold MB_128 at h
      omega
    rw [if_neg h0, if_neg (by omega)]
    simp only [store32]
    rw [if_neg (by omega), if_neg (by omega), if_neg (by omega), if_neg (by omega)]

/-- C21 as stated fails: the pointer `132 MiB - 1` is accepted, `vidmap` returns 0,
and the store of `0x08400000` changes the three bytes at `132 MiB`, `132 MiB + 1` and
`132 MiB + 2`, outside the user page (the memory held 255 everywhere before).  These
bytes lie in the page at 132 MiB, which the call has mapped: the present bits of
directory slot 33 and of entry 0 of the user table are set. -/
theorem vidmap_store_crosses_page :
    (vidmap demo_state 0 (fun _ => 255) (MB_132 - 1)).1 = 0 ∧
    ((vidmap demo_state 0 (fun _ => 255) (MB_132 - 1)).2.1.page_directory VIDEO_PAGE % 2,
      (vidmap demo_state 0 (fun _ => 255) (MB_132 - 1)).2.1.user_table 0 % 2) = (1, 1) ∧
    [(vidmap demo_state 0 (fun _ => 255) (MB_132 - 1)).2.2 (MB_132 - 1),
      (vidmap demo_state 0 (fun _ => 255) (MB_132 - 1)).2.2 MB_132,
      (vidmap demo_state 0 (fun _ => 255) (MB_132 - 1)).2.2 (MB_132 + 1),
      (vidmap demo_state 0 (fun _ => 255) (MB_132 - 1)).2.2 (MB_132 + 2),
      (vidmap demo_state 0 (fun _ => 255) (MB_132 - 1)).2.2 (MB_132 + 3)]
      = [0, 0, 64, 8, 255] := by
  refine ⟨by decide, by decide, by decide⟩

/-! ### terminal_read -/

theorem terminal_read_loop_found (saved : Buffer) (nbytes : Nat) (n : Nat) :
    ∀ (i : Nat) (buf : Buffer) (k : Nat), i + n = 127 → i ≤ k → k < nbytes → k < 127 →
      saved k = 10 → (∀ j, i ≤ j → j < k → saved j ≠ 10) →
      terminal_read_loop saved nbytes n i buf
        = (k + 1, true, fun j => if i ≤ j ∧ j ≤ k then saved j else buf j) := by
  induction n with
  | zero =>
    intro i buf k h1 h2 _ h4 _ _
    omega
  | succ n ih =>
    intro i buf k h1 h2 h3 h4 h5 h6
    unfold terminal_read_loop
    rw [if_pos ⟨by unfold BUF_SIZE; omega, by omega⟩]
    dsimp only
    by_cases hik : i = k
    · subst hik
      rw [if_pos h5]
      congr 2
      funext j
      by_cases hj : j = i
      · subst hj
        simp
      · rw [Function.update_noteq hj, if_neg (by omega)]
    · rw [if_neg (h6 i (le_refl _) (by omega))]
      rw [ih (i + 1) _ k (by omega) (by omega) h3 h4 h5 (fun j a b => h6 j (by omega) b)]
      congr 2
      funext j
      by_cases hj : j = i
      · subst hj
        rw [if_neg (by omega), Function.update_same, if_pos ⟨le_refl _, by omega⟩]
      · rw [Function.update_noteq hj]
        by_cases hc : i + 1 ≤ j ∧ j ≤ k
        · rw [if_pos hc, if_pos ⟨by omega, hc.2⟩]
        · rw [if_neg hc, if_neg (by omega)]

theorem terminal_read_loop_none (saved : Buffer) (nbytes : Nat) (n : Nat) :
    ∀ (i : Nat) (buf : Buffer), i + n = 127 → i ≤ min nbytes 127 →
      (∀ j, i ≤ j → j < min nbytes 127 → saved j ≠ 10) →
      terminal_read_loop saved nbytes n i buf
        = (min nbytes 127, false, fun j => if i ≤ j ∧ j < min nbytes 127 then saved j else buf j) := by
  induction n with
  | zero =>
    intro i buf h1 h2 _
    have hi : i = min nbytes 127 := by omega
    unfold terminal_read_loop
    rw [← hi]
    congr 2
    funext j
    rw [if_neg (by omega)]
  | succ n ih =>
    intro i buf h1 h2 h3
    unfold terminal_read_loop
    by_cases hc : i < BUF_SIZE - 1 ∧ i < nbytes
    · rw [if_pos hc]
      dsimp only
      unfold BUF_SIZE at hc
      rw [if_neg (h3 i (le_refl _) (by omega))]
      rw [ih (i + 1) _ (by omega) (by omega) (fun j a b => h3 j (by omega) b)]
      congr 2
      funext j
      by_cases hj : j = i
      · subst hj
        rw [if_neg (by omega), Function.update_same, if_pos ⟨le_refl _, by omega⟩]
      · rw [Function.update_noteq hj]
        by_cases hd : i + 1 ≤ j ∧ j < min nbytes 127
        · rw [if_pos hd, if_pos ⟨by omega, hd.2⟩]
        · rw [if_neg hd, if_neg (by omega)]
    · rw [if_neg hc]
      unfold BUF_SIZE at hc
      have hi : i = min nbytes 127 := by omega
      rw [← hi]
      congr 2
      funext j
      rw [if_neg (by omega)]

theorem terminal_read_loop_bounds (saved : Buffer) (nbytes : Nat) (n : Nat) :
    ∀ (i : Nat) (buf : Buffer), i + n = 127 → i ≤ min nbytes 127 →
      (terminal_read_loop saved nbytes n i buf).1 ≤ min nbytes 127 ∧
      ((terminal_read_loop saved nbytes n i buf).2.1 = false →
        (terminal_read_loop saved nbytes n i buf).1 = min nbytes 127) ∧
      ∀ j, (terminal_read_loop saved nbytes n i buf).1 ≤ j →
        (terminal_read_loop saved nbytes n i buf).2.2 j = buf j := by
  induction n with
  | zero =>
    intro i buf h1 h2
    unfold terminal_read_loop
    exact ⟨h2, fun _ => by omega, fun _ _ => rfl⟩
  | succ n ih =>
    intro i buf h1 h2
    unfold terminal_read_loop
    by_cases hc : i < BUF_SIZE - 1 ∧ i < nbytes
    · rw [if_pos hc]
      dsimp only
      unfold BUF_SIZE at hc
      by_cases hnl : saved i = 10
      · rw [if_pos hnl]
        refine ⟨by simp only; omega, fun h => by simp at h, ?_⟩
        intro j hj
        simp only at hj
        exact Function.update_noteq (by omega) _ _
      · rw [if_neg hnl]
        obtain ⟨a1, a2, a3⟩ := ih (i + 1) (Function.update buf i (saved i)) (by omega) (by omega)
        refine ⟨a1, a2, ?_⟩
        intro j hj
        rw [a3 j hj]
        have hge : i + 1 ≤ (terminal_read_loop saved nbytes n (i + 1)
            (Function.update buf i (saved i))).1 := by
          clear a1 a2 a3 hj
          generalize Function.update buf i (saved i) = b1
          have : ∀ (m k : Nat) (b : Buffer), k ≤ (terminal_read_loop saved nbytes m k b).1 := by
            intro m
            induction m with
            | zero => intro k b; exact le_refl _
            | succ m ihm =>
              intro k b
              unfold terminal_read_loop
              split
              · dsimp only
                split
                · exact Nat.le_succ _
                · exact le_trans (Nat.le_succ _) (ihm (k + 1) _)
              · exact le_refl _
          exact this n (i + 1) b1
        exact Function.update_noteq (by omega) _ _
    · rw [if_neg hc]
      unfold BUF_SIZE at hc
      exact ⟨h2, fun _ => by omega, fun _ _ => rfl⟩

theorem terminal_read_rejects (saved : Buffer) (e : Nat) (fd : Int) (buf : Option Buffer)
    (nbytes : Int) (h : buf = none ∨ nbytes < 0 ∨ nbytes > 128) :
    terminal_read saved e fd buf nbytes = ⟨-1, false, buf, saved, e⟩ := by
  unfold terminal_read
  cases buf with
  | none => rfl
  | some b =>
    dsimp only
    rw [if_pos]
    rcases h with h | h | h
    · cases h
    · exact Or.inl h
    · exact Or.inr h

/-- The cases in which `terminal_read` keeps to the caller's count: for every accepted
count the value returned is at most 128 and no byte from index 128 on is changed, and
for every accepted count other than 127 the value returned is at most `nbytes` and no
byte from index `nbytes` on is changed. -/
theorem terminal_read_within (saved : Buffer) (e : Nat) (fd : Int) (b : Buffer) (nbytes : Int)
    (h0 : 0 ≤ nbytes) (h128 : nbytes ≤ 128) :
    (terminal_read saved e fd (some b) nbytes).waited = true ∧
    ∃ out, (terminal_read saved e fd (some b) nbytes).buf = some out ∧
      (terminal_read saved e fd (some b) nbytes).ret ≤ 128 ∧
      (∀ j, 128 ≤ j → out j = b j) ∧
      (nbytes ≠ 127 → (terminal_read saved e fd (some b) nbytes).ret ≤ nbytes ∧
        ∀ j, nbytes.toNat ≤ j → out j = b j) := by
  obtain ⟨a1, a2, a3⟩ := terminal_read_loop_bounds saved nbytes.toNat 127 0 b rfl (by omega)
  unfold terminal_read
  dsimp only
  rw [if_neg (by unfold BUF_SIZE; omega)]
  simp only [show BUF_SIZE - 1 = 127 by decide]
  generalize terminal_read_loop saved nbytes.toNat 127 0 b = r at a1 a2 a3
  by_cases hc : r.1 = 127 ∧ r.2.1 = false
  · rw [if_pos hc]
    refine ⟨rfl, _, rfl, ?_, ?_, ?_⟩
    · simp only
      omega
    · intro j hj
      rw [Function.update_noteq (by omega), a3 j (by omega)]
    · intro hne
      have hn : nbytes = 128 := by omega
      subst hn
      refine ⟨by simp only; omega, ?_⟩
      intro j hj
      have hj2 : 128 ≤ j := by simpa using hj
      rw [Function.update_noteq (by omega), a3 j (by omega)]
  · rw [if_neg hc]
    refine ⟨rfl, _, rfl, ?_, ?_, ?_⟩
    · simp only
      omega
    · intro j hj
      exact a3 j (by omega)
    · intro _
      refine ⟨by simp only; omega, ?_⟩
      intro j hj
      exact a3 j (by omega)

/-- C28 fails on the code: with `nbytes = 127` and a snapshot that holds no newline in
its first 127 bytes, `terminal_read` returns 128 and stores a newline at index 127 of
the caller's buffer (which held 0 there), beyond the 127 bytes asked for. -/
theorem terminal_read_overruns :
    (terminal_read (fun _ => 97) 1 0 (some (fun _ => 0)) 127).ret = 128 ∧
    (terminal_read (fun _ => 97) 1 0 (some (fun _ => 0)) 127).buf.map (fun out => out 127)
      = some 10 := by
  refine ⟨by decide, by decide⟩

/-- C24 (as the code has it): a call of `terminal_read` with a buffer and a count
`nbytes` in `[0, 128]` goes through its wait and then: when the first newline of the
snapshot is at an index `k` below `min nbytes 127`, it returns `k + 1` and has stored
the snapshot up to and including that newline; when the first `min nbytes 127` bytes
hold no newline and `nbytes ≥ 127`, it returns 128 and has stored 127 bytes of the
snapshot and a newline at index 127; when the first `nbytes` bytes hold no newline and
`nbytes < 127`, it returns `nbytes` (0 for `nbytes = 0`) and has stored these bytes,
none of them a newline. -/
theorem terminal_read_spec (saved : Buffer) (e : Nat) (fd : Int) (b : Buffer) (nbytes : Int)
    (h0 : 0 ≤ nbytes) (h128 : nbytes ≤ 128) :
    (terminal_read saved e fd (some b) nbytes).waited = true ∧
    (∀ k, k < nbytes.toNat → k < 127 → saved k = 10 → (∀ j, j < k → saved j ≠ 10) →
      (terminal_read saved e fd (some b) nbytes).ret = (k : Int) + 1 ∧
      (terminal_read saved e fd (some b) nbytes).buf
        = some (fun j => if j ≤ k then saved j else b j)) ∧
    ((∀ j, j < 127 → saved j ≠ 10) → 127 ≤ nbytes →
      (terminal_read saved e fd (some b) nbytes).ret = 128 ∧
      (terminal_read saved e fd (some b) nbytes).buf
        = some (fun j => if j < 127 then saved j else if j = 127 then 10 else b j)) ∧
    ((∀ j, j < nbytes.toNat → saved j ≠ 10) → nbytes < 127 →
      (terminal_read saved e fd (some b) nbytes).ret = nbytes ∧
      (terminal_read saved e fd (some b) nbytes).buf
        = some (fun j => if j < nbytes.toNat then saved j else b j)) := by
  have hchk : ¬ (nbytes < 0 ∨ nbytes > (BUF_SIZE : Int)) := by
    unfold BUF_SIZE
    omega
  have h127 : BUF_SIZE - 1 = 127 := by decide
  refine ⟨(terminal_read_within saved e fd b nbytes h0 h128).1, ?_, ?_, ?_⟩
  · intro k hk hk127 hnl hfirst
    have hloop := terminal_read_loop_found saved nbytes.toNat 127 0 b k rfl (Nat.zero_le _) hk
      hk127 hnl (fun j _ hj => hfirst j hj)
    unfold terminal_read
    dsimp only
    rw [if_neg hchk, h127, hloop]
    dsimp only
    rw [if_neg (by simp)]
    refine ⟨by push_cast; rfl, ?_⟩
    exact congrArg some (funext fun j => by simp)
  · intro hno hn
    have hmin : min nbytes.toNat 127 = 127 := by omega
    have hloop := terminal_read_loop_none saved nbytes.toNat 127 0 b rfl (Nat.zero_le _)
      (fun j _ hj => hno j (by omega))
    rw [hmin] at hloop
    unfold terminal_read
    dsimp only
    rw [if_neg hchk, h127, hloop]
    dsimp only
    rw [if_pos ⟨rfl, rfl⟩]
    refine ⟨rfl, ?_⟩
    refine congrArg some (funext fun j => ?_)
    by_cases hj : j = 127
    · subst hj
      simp
    · rw [Function.update_noteq hj]
      simp [hj]
  · intro hno hn
    have hmin : min nbytes.toNat 127 = nbytes.toNat := by omega
    have hloop := terminal_read_loop_none saved nbytes.toNat 127 0 b rfl (Nat.zero_le _)
      (fun j _ hj => hno j (by omega))
    rw [hmin] at hloop
    unfold terminal_read
    dsimp only
    rw [if_neg hchk, h127, hloop]
    dsimp only
    rw [if_neg (by simp only; omega)]
    refine ⟨by simp only; omega, ?_⟩
    exact congrArg some (funext fun j => by simp)

/-- Instance of `terminal_read_spec`: the line `ab` read with a count of 10. -/
theorem terminal_read_spec_witness :
    (terminal_read line_ab 1 0 (some (fun _ => 0)) 10).ret = ((2 : Nat) : Int) + 1 ∧
    (terminal_read line_ab 1 0 (some (fun _ => 0)) 10).buf
      = some (fun j => if j ≤ 2 then line_ab j else (fun _ => 0) j) :=
  (terminal_read_spec line_ab 1 0 (fun _ => 0) 10 (by decide) (by decide)).2.1 2 (by decide)
    (by decide) (by decide) (fun j hj => by interval_cases j <;> decide)

/-- C24 as stated fails: with `nbytes = 0` the call returns 0 after its wait, and with
`nbytes = 1` and the line `ab` in the snapshot it returns 1 and the only byte stored is
the letter `a`, not a newline. -/
theorem terminal_read_short_count :
    ((terminal_read line_ab 1 0 (some (fun _ => 0)) 0).waited,
      (terminal_read line_ab 1 0 (some (fun _ => 0)) 0).ret) = (true, 0) ∧
    ((terminal_read line_ab 1 0 (some (fun _ => 0)) 1).waited,
      (terminal_read line_ab 1 0 (some (fun _ => 0)) 1).ret,
      (terminal_read line_ab 1 0 (some (fun _ => 0)) 1).buf.map (fun out => out 0))
      = (true, 1, some 97) := by
  refine ⟨by decide, by decide⟩

/-! ### Interrupt flag during a context switch -/

/-- C25 (as the code has it): when `scheduler` switches to another terminal, its
actions are, in this order: `cli`, the saving of the outgoing `esp` and `ebp`, the
change of `cur_terminal`, the video remap, the user-page remap, the TSS update, the
reading of the incoming `esp` and `ebp` from the PCB into locals, `sti`, and only then
the loading of `esp` and of `ebp`.  Interrupts are off from before the save until
after the TSS update and are on again before the two registers are loaded. -/
theorem scheduler_actions_order (s : KState) (fuel : Nat)
    (hw : (s.terminals s.cur_terminal).pid < WORD)
    (hfuel : 2 ≤ fuel) (hpid : (s.terminals s.cur_terminal).pid ≠ 4294967295)
    (hother : ¬ scheduler_skips (s.terminals ((s.cur_terminal + 1) % 3)) ∨
      ¬ scheduler_skips (s.terminals ((s.cur_terminal + 2) % 3))) :
    scheduler_actions s fuel
      = some [.cli, .save_esp, .save_ebp, .set_cur_terminal, .video_paging, .paging_syscall,
          .set_tss, .read_pcb_stack, .sti, .load_esp, .load_ebp] ∧
    (∀ start, interrupt_flag start [.cli, .save_esp, .save_ebp, .set_cur_terminal,
      .video_paging, .paging_syscall, .set_tss, .read_pcb_stack] = false) ∧
    (∀ start, interrupt_flag start [.cli, .save_esp, .save_ebp, .set_cur_terminal,
      .video_paging, .paging_syscall, .set_tss, .read_pcb_stack, .sti] = true) := by
  refine ⟨?_, fun _ => rfl, fun _ => rfl⟩
  obtain ⟨f, rfl⟩ : ∃ f, fuel = f + 2 := ⟨fuel - 2, by omega⟩
  have e2 : ((s.cur_terminal + 1) % 3 + 1) % MAX_TERMINALS = (s.cur_terminal + 2) % 3 := by
    unfold MAX_TERMINALS
    omega
  have e3 : (s.cur_terminal + 2) % 3 ≠ s.cur_terminal := by omega
  have hm1 : ¬ to_int32 (s.terminals s.cur_terminal).pid = -1 := by
    unfold to_int32 WORD at *
    split <;> omega
  have hfind : ∃ n, scheduler_find s (f + 2) ((s.cur_terminal + 1) % MAX_TERMINALS)
      = some (some n) := by
    by_cases h1 : scheduler_skips (s.terminals ((s.cur_terminal + 1) % 3))
    · have h2 : ¬ scheduler_skips (s.terminals ((s.cur_terminal + 2) % 3)) := by
        rcases hother with h | h
        · exact absurd h1 h
        · exact h
      exact ⟨_, scheduler_find_second s f ((s.cur_terminal + 1) % 3) h1
        (by rw [e2]; exact e3) (by rw [e2]; exact h2)⟩
    · exact ⟨_, scheduler_find_first s (f + 1) _ h1⟩
  obtain ⟨n, hn⟩ := hfind
  unfold scheduler_actions
  rw [if_neg hm1, hn]
  rfl

/-- Instance of `scheduler_actions_order`: the switch from terminal 0 to terminal 1 in
`two_terminal_state`. -/
theorem scheduler_actions_order_witness :
    scheduler_actions two_terminal_state 2
      = some [.cli, .save_esp, .save_ebp, .set_cur_terminal, .video_paging, .paging_syscall,
          .set_tss, .read_pcb_stack, .sti, .load_esp, .load_ebp] :=
  (scheduler_actions_order two_terminal_state 2 (by decide) (by decide) (by decide)
    (Or.inl (by decide))).1

/-- C25 as stated fails: in the switch from terminal 0 to terminal 1 of
`two_terminal_state`, the actions up to the loading of `esp` already contain `sti`, so
the interrupt flag is set when `esp` and `ebp` are loaded. -/
theorem scheduler_enables_interrupts_before_load :
    (scheduler_actions two_terminal_state 2).map
        (fun l => (l.takeWhile (fun a => a ≠ .load_esp),
          interrupt_flag false (l.takeWhile (fun a => a ≠ .load_esp)),
          interrupt_flag false (l.takeWhile (fun a => a ≠ .load_ebp))))
      = some ([.cli, .save_esp, .save_ebp, .set_cur_terminal, .video_paging, .paging_syscall,
          .set_tss, .read_pcb_stack, .sti], true, true) := by
  decide

/-! ### paging_init -/

theorem lor_low (x c : Nat) (hx : x % 4096 = 0) (hc : c < 4096) : x ||| c = x + c := by
  have e : x = 2 ^ 12 * (x / 4096) := by omega
  rw [e, ← Nat.mul_add_lt_is_or (by simpa using hc)]

theorem lor_video_flags (x : Nat) (hx : x % 4096 = 0) :
    ((x ||| PAGE_P) ||| PAGE_RW) ||| PAGE_PCD = x + 19 := by
  rw [Nat.lor_assoc, Nat.lor_assoc]
  have f : (PAGE_P ||| (PAGE_RW ||| PAGE_PCD)) = 19 := by decide
  rw [f, lor_low x 19 hx (by omega)]

/-- The page directory and the video table that `paging_init` builds. -/
theorem paging_init_tables (s : KState) (video_table : Nat → Nat) (video_table_addr : Nat)
    (halign : video_table_addr % KB_4 = 0) :
    (paging_init s video_table video_table_addr).1.page_directory 0 = video_table_addr + 19 ∧
    (paging_init s video_table video_table_addr).1.page_directory 1 = KERNEL_ADDR + 387 ∧
    (∀ i, 2 ≤ i → i < 1024 → (paging_init s video_table video_table_addr).1.page_directory i = 0) ∧
    (∀ j, 184 ≤ j → j ≤ 187 →
      (paging_init s video_table video_table_addr).2 j = KB_4 * j + 19) ∧
    (∀ j, j < 1024 → ¬ (184 ≤ j ∧ j ≤ 187) →
      (paging_init s video_table video_table_addr).2 j = KB_4 * j) := by
  unfold KB_4 at halign
  refine ⟨?_, ?_, ?_, ?_, ?_⟩
  · simp only [paging_init, if_true]
    exact lor_video_flags _ halign
  · simp only [paging_init, one_ne_zero, if_false, if_true]
    decide
  · intro i h2 h3
    simp only [paging_init, TABLE_LEN]
    rw [if_neg (by omega), if_neg (by omega), if_pos ⟨h2, h3⟩]
  · intro j h1 h2
    simp only [paging_init, VIDEO_LOCATION, MAX_TERMINALS]
    rw [if_pos ⟨h1, by omega⟩]
    have e : u32_add VIDEO_ADDR (KB_4 * (j - 184)) = KB_4 * j := by
      unfold u32_add VIDEO_ADDR KB_4 WORD
      omega
    rw [e, lor_video_flags _ (by unfold KB_4; omega)]
  · intro j h1 h2
    simp only [paging_init, VIDEO_LOCATION, MAX_TERMINALS, PAGE_LEN]
    rw [if_neg (by omega), if_pos h1]

/-- C26 (as the code has it): after `paging_init` an address below 4 GiB is mapped if
and only if it lies in the kernel page `[4 MiB, 8 MiB)` or in the four pages
`[0xB8000, 0xBC000)`, the VGA text page and the three pages behind it.  Directory slot
1 holds 4 MiB with the present, read-write, page-size and global bits and without the
user bit; slots 2..1023 are 0; in the page table of slot 0 the present entries are
exactly those of index 184..187. -/
theorem paging_init_mapped (s : KState) (video_table : Nat → Nat) (video_table_addr : Nat)
    (halign : video_table_addr % KB_4 = 0) :
    (∀ addr, addr < WORD →
      (is_mapped (paging_init s video_table video_table_addr).1.page_directory
          (tables_after_init s video_table video_table_addr) addr ↔
        (MB_4 ≤ addr ∧ addr < MB_8) ∨ (VIDEO_ADDR ≤ addr ∧ addr < VIDEO_ADDR + 4 * KB_4))) ∧
    (paging_init s video_table video_table_addr).1.page_directory 1
      = KERNEL_ADDR + (PAGE_P + PAGE_RW + PAGE_PS + PAGE_G) ∧
    (paging_init s video_table video_table_addr).1.page_directory 1 / PAGE_US % 2 = 0 ∧
    (∀ i, 2 ≤ i → i < 1024 →
      (paging_init s video_table video_table_addr).1.page_directory i = 0) ∧
    (∀ j, j < 1024 →
      ((paging_init s video_table video_table_addr).2 j % 2 = 1 ↔ 184 ≤ j ∧ j ≤ 187)) := by
  obtain ⟨t0, t1, t2, t3, t4⟩ := paging_init_tables s video_table video_table_addr halign
  have hent : ∀ j, j < 1024 →
      ((paging_init s video_table video_table_addr).2 j % 2 = 1 ↔ 184 ≤ j ∧ j ≤ 187) := by
    intro j hj
    by_cases hc : 184 ≤ j ∧ j ≤ 187
    · rw [t3 j hc.1 hc.2]
      unfold KB_4
      constructor
      · intro _
        exact hc
      · intro _
        omega
    · rw [t4 j hj hc]
      unfold KB_4
      constructor
      · intro h
        omega
      · intro h
        exact absurd h hc
  refine ⟨?_, ?_, ?_, t2, hent⟩
  · intro addr haddr
    unfold is_mapped
    unfold KB_4 at halign
    by_cases h0 : addr / MB_4 = 0
    · have hlt : addr < MB_4 := by
        unfold MB_4 at h0 ⊢
        omega
      rw [h0, t0]
      have htab : (video_table_addr + 19) / KB_4 * KB_4 = video_table_addr := by
        unfold KB_4
        omega
      have hidx : addr / KB_4 % PAGE_LEN = addr / KB_4 := by
        unfold KB_4 PAGE_LEN MB_4 at *
        omega
      rw [htab, hidx]
      have hps : ¬ (video_table_addr + 19) / PAGE_PS % 2 = 1 := by
        unfold PAGE_PS
        omega
      have htbl : tables_after_init s video_table video_table_addr video_table_addr
          = (paging_init s video_table video_table_addr).2 := by
        simp [tables_after_init]
      rw [htbl, hent (addr / KB_4) (by unfold KB_4 MB_4 at *; omega)]
      unfold MB_4 MB_8 VIDEO_ADDR KB_4 at *
      constructor
      · rintro ⟨_, h | h⟩
        · exact absurd h hps
        · right
          omega
      · rintro (h | h)
        · omega
        · exact ⟨by omega, Or.inr (by omega)⟩
    · by_cases h1 : addr / MB_4 = 1
      · rw [h1, t1]
        unfold MB_4 MB_8 VIDEO_ADDR KB_4 KERNEL_ADDR PAGE_PS at *
        constructor
        · intro _
          left
          omega
        · intro _
          exact ⟨by omega, Or.inl (by omega)⟩
      · have hd : addr / MB_4 < 1024 := by
          unfold WORD at haddr
          unfold MB_4
          omega
        have h2 : 2 ≤ addr / MB_4 := by
          unfold MB_4 at h0 h1 ⊢
          omega
        rw [t2 (addr / MB_4) h2 hd]
        unfold MB_4 at h0 h1
        unfold MB_4 MB_8 VIDEO_ADDR KB_4
        constructor
        · rintro ⟨h, _⟩
          omega
        · rintro (h | h) <;> omega
  · rw [t1]
    decide
  · rw [t1]
    decide

/-- Instance of `paging_init_mapped`: the address `0xB8000` with the video table at
`0x1000`. -/
theorem paging_init_mapped_witness :
    is_mapped (paging_init demo_state (fun _ => 0) 0x1000).1.page_directory
        (tables_after_init demo_state (fun _ => 0) 0x1000) 0xB8000 ↔
      (MB_4 ≤ 0xB8000 ∧ 0xB8000 < MB_8) ∨
        (VIDEO_ADDR ≤ 0xB8000 ∧ 0xB8000 < VIDEO_ADDR + 4 * KB_4) :=
  (paging_init_mapped demo_state (fun _ => 0) 0x1000 (by decide)).1 0xB8000 (by decide)

/-- C26 as stated fails: after `paging_init` the address `0xB8000 + 4096`, behind the
VGA text page, is mapped, and so is the last byte `0xBBFFF` of the fourth page; the
addresses 0, `0xB8000 - 1` and `0xBC000` are not. -/
theorem paging_init_maps_four_pages :
    is_mapped (paging_init demo_state (fun _ => 0) 0x1000).1.page_directory
      (tables_after_init demo_state (fun _ => 0) 0x1000) (0xB8000 + 4096) ∧
    is_mapped (paging_init demo_state (fun _ => 0) 0x1000).1.page_directory
      (tables_after_init demo_state (fun _ => 0) 0x1000) 0xBBFFF ∧
    ¬ is_mapped (paging_init demo_state (fun _ => 0) 0x1000).1.page_directory
      (tables_after_init demo_state (fun _ => 0) 0x1000) 0 ∧
    ¬ is_mapped (paging_init demo_state (fun _ => 0) 0x1000).1.page_directory
      (tables_after_init demo_state (fun _ => 0) 0x1000) (0xB8000 - 1) ∧
    ¬ is_mapped (paging_init demo_state (fun _ => 0) 0x1000).1.page_directory
      (tables_after_init demo_state (fun _ => 0) 0x1000) 0xBC000 := by
  refine ⟨by decide, by decide, by decide, by decide, by decide⟩

/-! ### terminal_switch -/

/-- The state and the live console that the display part of `terminal_switch` leaves,
field by field. -/
theorem terminal_switch_display_effect (s : KState) (k : Console) (tid uta : Nat)
    (hne : tid ≠ s.display_terminal) :
    (terminal_switch_display s k tid uta).1.display_terminal = tid ∧
    (terminal_switch_display s k tid uta).1.pid_status = s.pid_status ∧
    (terminal_switch_display s k tid uta).1.cur_terminal = s.cur_terminal ∧
    (∀ t, t ≠ s.display_terminal →
      (terminal_switch_display s k tid uta).1.terminals t = s.terminals t) ∧
    ((terminal_switch_display s k tid uta).1.terminals s.display_terminal).screen_x = k.screen_x ∧
    ((terminal_switch_display s k tid uta).1.terminals s.display_terminal).screen_y = k.screen_y ∧
    ((terminal_switch_display s k tid uta).1.terminals s.display_terminal).buffer_idx
      = k.buffer_idx ∧
    (∀ i, i < 128 →
      ((terminal_switch_display s k tid uta).1.terminals s.display_terminal).kbd_buffer i
        = k.kbd_buffer i) ∧
    ((terminal_switch_display s k tid uta).1.terminals s.display_terminal).video_mem
      = (s.terminals s.display_terminal).video_mem ∧
    ((terminal_switch_display s k tid uta).1.terminals s.display_terminal).running_processes
      = (s.terminals s.display_terminal).running_processes ∧
    (terminal_switch_display s k tid uta).2.screen_x = (s.terminals tid).screen_x ∧
    (terminal_switch_display s k tid uta).2.screen_y = (s.terminals tid).screen_y ∧
    (terminal_switch_display s k tid uta).2.buffer_idx = (s.terminals tid).buffer_idx ∧
    (terminal_switch_display s k tid uta).2.kbd_buffer
      = (fun i => if i < 128 then (s.terminals tid).kbd_buffer i else k.kbd_buffer i) ∧
    (terminal_switch_display s k tid uta).1.phys_mem
      = memcpy (memcpy s.phys_mem (s.terminals s.display_terminal).video_mem
            (fun j => s.phys_mem (VIDEO + j)) 4000) VIDEO
          (fun j => memcpy s.phys_mem (s.terminals s.display_terminal).video_mem
            (fun j => s.phys_mem (VIDEO + j)) 4000 ((s.terminals tid).video_mem + j)) 4000 := by
  refine ⟨?_, ?_, ?_, ?_, ?_, ?_, ?_, ?_, ?_, ?_, ?_, ?_, ?_, ?_, ?_⟩
  · simp only [terminal_switch_display, video_paging]
  · simp only [terminal_switch_display, video_paging]
  · simp only [terminal_switch_display, video_paging]
  · intro t ht
    simp only [terminal_switch_display, video_paging, Function.update_noteq ht]
  · simp only [terminal_switch_display, video_paging, Function.update_same]
  · simp only [terminal_switch_display, video_paging, Function.update_same]
  · simp only [terminal_switch_display, video_paging, Function.update_same]
  · intro i hi
    simp only [terminal_switch_display, video_paging, Function.update_same, BUF_SIZE, hi, if_true]
  · simp only [terminal_switch_display, video_paging, Function.update_same]
  · simp only [terminal_switch_display, video_paging, Function.update_same]
  · simp only [terminal_switch_display, video_paging, Function.update_noteq hne]
  · simp only [terminal_switch_display, video_paging, Function.update_noteq hne]
  · simp only [terminal_switch_display, video_paging, Function.update_noteq hne]
  · simp only [terminal_switch_display, video_paging, Function.update_noteq hne, BUF_SIZE]
  · simp only [terminal_switch_display, video_paging, Function.update_noteq hne,
      Function.update_same, NUM_ROWS, NUM_COLS]

theorem memcpy_inside (dst : Buffer) (pos : Nat) (src : Buffer) (n a : Nat)
    (h1 : pos ≤ a) (h2 : a < pos + n) : memcpy dst pos src n a = src (a - pos) := by
  unfold memcpy
  rw [if_pos ⟨h1, h2⟩]

theorem memcpy_outside (dst : Buffer) (pos : Nat) (src : Buffer) (n a : Nat)
    (h : a < pos ∨ pos + n ≤ a) : memcpy dst pos src n a = dst a := by
  unfold memcpy
  rw [if_neg (by omega)]

/-- The backing page that `terminal_init` gives terminal `t`: the page `t + 1` after
the VGA text buffer. -/
theorem terminal_init_video_mem (s : KState) (t : Nat) (ht : t < MAX_TERMINALS) :
    ((terminal_init s).terminals t).video_mem = VIDEO_ADDR + KB_4 * (t + 1) := by
  simp only [terminal_init, if_pos ht]

/-- A call of `terminal_switch` to a terminal that is not displayed and runs a
process: it returns after the display part. -/
theorem terminal_switch_running (s : KState) (k : Console) (tid uta : Nat) (ELF_chars : Buffer)
    (esp ebp : Nat) (hne : tid ≠ s.display_terminal)
    (hr : (s.terminals tid).running_processes ≠ 0) :
    terminal_switch s k tid uta ELF_chars esp ebp
      = some (.returned, (terminal_switch_display s k tid uta).1,
          (terminal_switch_display s k tid uta).2) := by
  obtain ⟨_, _, _, e4, _⟩ := terminal_switch_display_effect s k tid uta hne
  unfold terminal_switch
  rw [if_neg hne, if_neg (fun h => hr h.2)]
  dsimp only
  rw [e4 tid hne, if_neg hr]

/-- C23: with terminal `A` displayed and another terminal `B`, both running a process
and with the backing pages that `terminal_init` gives them, `terminal_switch(B)`
followed by `terminal_switch(A)` returns both times and leaves the live cursor, the
live line buffer and its index and the 4000 bytes of the VGA text buffer as they were
before the first call, `display_terminal = A`, and the saved cursor, line buffer, index
and backing page of `B` as they were; and `terminal_switch` of the displayed terminal
changes nothing. -/
theorem terminal_switch_round_trip (s : KState) (k : Console) (B uta : Nat) (ELF_chars : Buffer)
    (esp ebp : Nat) (hne : B ≠ s.display_terminal)
    (hrA : (s.terminals s.display_terminal).running_processes ≠ 0)
    (hrB : (s.terminals B).running_processes ≠ 0)
    (hvA : (s.terminals s.display_terminal).video_mem
      = VIDEO_ADDR + KB_4 * (s.display_terminal + 1))
    (hvB : (s.terminals B).video_mem = VIDEO_ADDR + KB_4 * (B + 1)) :
    (∀ (s0 : KState) (k0 : Console),
      terminal_switch s0 k0 s0.display_terminal uta ELF_chars esp ebp
        = some (.returned, s0, k0)) ∧
    ∃ s1 k1 s2 k2,
      terminal_switch s k B uta ELF_chars esp ebp = some (.returned, s1, k1) ∧
      terminal_switch s1 k1 s.display_terminal uta ELF_chars esp ebp
        = some (.returned, s2, k2) ∧
      k2.screen_x = k.screen_x ∧ k2.screen_y = k.screen_y ∧ k2.buffer_idx = k.buffer_idx ∧
      k2.kbd_buffer = k.kbd_buffer ∧
      (∀ j, j < 4000 → s2.phys_mem (VIDEO + j) = s.phys_mem (VIDEO + j)) ∧
      s2.display_terminal = s.display_terminal ∧
      (s2.terminals B).screen_x = (s.terminals B).screen_x ∧
      (s2.terminals B).screen_y = (s.terminals B).screen_y ∧
      (s2.terminals B).buffer_idx = (s.terminals B).buffer_idx ∧
      (∀ i, i < 128 → (s2.terminals B).kbd_buffer i = (s.terminals B).kbd_buffer i) ∧
      (s2.terminals B).video_mem = (s.terminals B).video_mem ∧
      (∀ j, j < 4000 →
        s2.phys_mem ((s.terminals B).video_mem + j) = s.phys_mem ((s.terminals B).video_mem + j)) := by
  constructor
  · intro s0 k0
    unfold terminal_switch
    rw [if_pos rfl]
  obtain ⟨a1, _, _, a4, a5, a6, a7, a8, a9, a10, a11, a12, a13, a14, a15⟩ :=
    terminal_switch_display_effect s k B uta hne
  have hne2 : s.display_terminal ≠ (terminal_switch_display s k B uta).1.display_terminal := by
    rw [a1]
    exact fun h => hne h.symm
  obtain ⟨b1, _, _, b4, b5, b6, b7, b8, b9, _, b11, b12, b13, b14, b15⟩ :=
    terminal_switch_display_effect (terminal_switch_display s k B uta).1
      (terminal_switch_display s k B uta).2 s.display_terminal uta hne2
  rw [a1] at b4 b5 b6 b7 b8 b9 b15
  rw [a9, hvA] at b15
  rw [a4 B hne, hvB] at b15
  rw [a15, hvA, hvB] at b15
  have hdis : ∀ j, j < 4000 →
      (VIDEO + j < VIDEO_ADDR + KB_4 * (s.display_terminal + 1) ∧
        VIDEO + 4000 ≤ VIDEO_ADDR + KB_4 * (s.display_terminal + 1)) ∧
      (VIDEO + j < VIDEO_ADDR + KB_4 * (B + 1) ∧ VIDEO + 4000 ≤ VIDEO_ADDR + KB_4 * (B + 1)) ∧
      (VIDEO_ADDR + KB_4 * (B + 1) + j < VIDEO_ADDR + KB_4 * (s.display_terminal + 1) ∨
        VIDEO_ADDR + KB_4 * (s.display_terminal + 1) + 4000 ≤ VIDEO_ADDR + KB_4 * (B + 1) + j) ∧
      (VIDEO_ADDR + KB_4 * (s.display_terminal + 1) + j < VIDEO_ADDR + KB_4 * (B + 1) ∨
        VIDEO_ADDR + KB_4 * (B + 1) + 4000 ≤ VIDEO_ADDR + KB_4 * (s.display_terminal + 1) + j) := by
    intro j hj
    unfold VIDEO VIDEO_ADDR KB_4
    omega
  refine ⟨_, _, _, _, terminal_switch_running s k B uta ELF_chars esp ebp hne hrB,
    terminal_switch_running _ _ s.display_terminal uta ELF_chars esp ebp hne2
      (by rw [a10]; exact hrA), ?_, ?_, ?_, ?_, ?_, b1, ?_, ?_, ?_, ?_, ?_, ?_⟩
  · rw [b11, a5]
  · rw [b12, a6]
  · rw [b13, a7]
  · rw [b14]
    funext i
    dsimp only
    by_cases hi : i < 128
    · rw [if_pos hi, a8 i hi]
    · rw [if_neg hi, a14]
      dsimp only
      rw [if_neg hi]
  · intro j hj
    obtain ⟨⟨h1, h1b⟩, ⟨h2, h2b⟩, h3, h4⟩ := hdis j hj
    rw [b15]
    rw [memcpy_inside _ _ _ _ _ (by omega) (by omega)]
    rw [Nat.add_sub_cancel_left]
    rw [memcpy_outside _ _ _ _ _ h4]
    rw [memcpy_outside _ _ _ _ _ (by unfold VIDEO VIDEO_ADDR KB_4 at *; omega)]
    rw [memcpy_inside _ _ _ _ _ (by omega) (by omega)]
    rw [Nat.add_sub_cancel_left]
  · rw [b5, a11]
  · rw [b6, a12]
  · rw [b7, a13]
  · intro i hi
    rw [b8 i hi, a14]
    dsimp only
    rw [if_pos hi]
  · rw [b9, a4 B hne]
  · intro j hj
    obtain ⟨⟨h1, h1b⟩, ⟨h2, h2b⟩, h3, h4⟩ := hdis j hj
    rw [b15, hvB]
    rw [memcpy_outside _ _ _ _ _ (by unfold VIDEO VIDEO_ADDR KB_4 at *; omega)]
    rw [memcpy_inside _ _ _ _ _ (by omega) (by omega)]
    rw [Nat.add_sub_cancel_left]
    rw [memcpy_inside _ _ _ _ _ (by unfold VIDEO VIDEO_ADDR KB_4 at *; omega)
      (by unfold VIDEO VIDEO_ADDR KB_4 at *; omega)]
    rw [Nat.add_sub_cancel_left]
    rw [memcpy_outside _ _ _ _ _ h3]

/-- Instance of `terminal_switch_round_trip`: in `two_terminal_state` (terminal 0
displayed, terminals 0 and 1 running) with `demo_console`, switching to terminal 1 and
back restores the console and the screen. -/
theorem terminal_switch_round_trip_witness :
    (1 ≠ two_terminal_state.display_terminal ∧
      (two_terminal_state.terminals two_terminal_state.display_terminal).running_processes ≠ 0 ∧
      (two_terminal_state.terminals 1).running_processes ≠ 0) ∧
    ∃ s1 k1 s2 k2,
      terminal_switch two_terminal_state demo_console 1 0 (fun _ => 0) 0 0
        = some (.returned, s1, k1) ∧
      terminal_switch s1 k1 two_terminal_state.display_terminal 0 (fun _ => 0) 0 0
        = some (.returned, s2, k2) ∧
      k2.screen_x = demo_console.screen_x ∧ k2.screen_y = demo_console.screen_y ∧
      k2.buffer_idx = demo_console.buffer_idx ∧
      k2.kbd_buffer = demo_console.kbd_buffer ∧
      (∀ j, j < 4000 → s2.phys_mem (VIDEO + j) = two_terminal_state.phys_mem (VIDEO + j)) ∧
      s2.display_terminal = two_terminal_state.display_terminal ∧
      (s2.terminals 1).screen_x = (two_terminal_state.terminals 1).screen_x ∧
      (s2.terminals 1).screen_y = (two_terminal_state.terminals 1).screen_y ∧
      (s2.terminals 1).buffer_idx = (two_terminal_state.terminals 1).buffer_idx ∧
      (∀ i, i < 128 →
        (s2.terminals 1).kbd_buffer i = (two_terminal_state.terminals 1).kbd_buffer i) ∧
      (s2.terminals 1).video_mem = (two_terminal_state.terminals 1).video_mem ∧
      (∀ j, j < 4000 →
        s2.phys_mem ((two_terminal_state.terminals 1).video_mem + j)
          = two_terminal_state.phys_mem ((two_terminal_state.terminals 1).video_mem + j)) :=
  ⟨⟨by decide, by decide, by decide⟩,
    (terminal_switch_round_trip two_terminal_state demo_console 1 0 (fun _ => 0) 0 0
      (by decide) (by decide) (by decide) (by decide) (by decide)).2⟩

/-! ### vidmap: what the guard admits -/

theorem lor_present (a : Nat) : (a ||| PAGE_P ||| PAGE_RW ||| PAGE_US) % 2 = 1 := by
  have h : (a ||| PAGE_P ||| PAGE_RW ||| PAGE_US).testBit 0 = true := by
    simp [Nat.testBit_or, PAGE_P, PAGE_RW, PAGE_US]
  rw [Nat.testBit_zero] at h
  simpa using h

/-- C21 (as the code has it): `vidmap` tests the pointer value, not the four bytes it
writes.  A null pointer and every pointer outside `[128 MiB, 132 MiB)` give -1 with
the state and the memory unchanged.  Every other pointer `p` gives 0: the video page is
mapped by `video_paging` (directory slot 33 and entry 0 of the user table are present),
the bytes `00 00 40 08` of `0x08400000` are stored at `p .. p + 3` and no other byte
changes, so every byte written lies in `[128 MiB, 132 MiB + 3)`; all four lie inside
`[128 MiB, 132 MiB)` exactly when `p ≤ 132 MiB - 4`. -/
theorem vidmap_spec (s : KState) (user_table_addr : Nat) (vmem : Buffer) (screen_start : Nat) :
    ((screen_start = 0 ∨ screen_start < MB_128 ∨ MB_132 ≤ screen_start) →
      vidmap s user_table_addr vmem screen_start = (-1, s, vmem)) ∧
    ((MB_128 ≤ screen_start ∧ screen_start < MB_132) →
      vidmap s user_table_addr vmem screen_start
        = (0, video_paging s user_table_addr, store32 vmem screen_start MB_132) ∧
      (vidmap s user_table_addr vmem screen_start).2.1.page_directory VIDEO_PAGE % 2 = 1 ∧
      (vidmap s user_table_addr vmem screen_start).2.1.user_table 0 % 2 = 1 ∧
      (vidmap s user_table_addr vmem screen_start).2.2 screen_start = 0 ∧
      (vidmap s user_table_addr vmem screen_start).2.2 (screen_start + 1) = 0 ∧
      (vidmap s user_table_addr vmem screen_start).2.2 (screen_start + 2) = 64 ∧
      (vidmap s user_table_addr vmem screen_start).2.2 (screen_start + 3) = 8 ∧
      (∀ a, (a < screen_start ∨ screen_start + 4 ≤ a) →
        (vidmap s user_table_addr vmem screen_start).2.2 a = vmem a) ∧
      (∀ a, (a < MB_128 ∨ MB_132 + 3 ≤ a) →
        (vidmap s user_table_addr vmem screen_start).2.2 a = vmem a) ∧
      ((∀ a, screen_start ≤ a → a < screen_start + 4 → MB_128 ≤ a ∧ a < MB_132)
        ↔ screen_start + 4 ≤ MB_132)) := by
  refine ⟨(vidmap_cases s user_table_addr vmem screen_start).1, ?_⟩
  intro h
  have h0 : ¬ screen_start = 0 := by
    unfold MB_128 at h
    omega
  have hv : vidmap s user_table_addr vmem screen_start
      = (0, video_paging s user_table_addr, store32 vmem screen_start MB_132) := by
    unfold vidmap
    rw [if_neg h0, if_neg (by omega)]
  rw [hv]
  refine ⟨rfl, ?_, ?_, ?_, ?_, ?_, ?_, ?_, ?_, ?_⟩
  · simp only [video_paging, Function.update_same]
    exact lor_present _
  · simp only [video_paging, Function.update_same]
    exact lor_present _
  · simp only [store32, if_true, if_false]
    decide
  · simp only [store32, if_true, if_false]
    rw [if_neg (by omega)]
    decide
  · simp only [store32, if_true, if_false]
    rw [if_neg (by omega), if_neg (by omega)]
    decide
  · simp only [store32, if_true, if_false]
    rw [if_neg (by omega), if_neg (by omega), if_neg (by omega)]
    decide
  · intro a ha
    simp only [store32]
    rw [if_neg (by omega), if_neg (by omega), if_neg (by omega), if_neg (by omega)]
  · intro a ha
    simp only [store32]
    rw [if_neg (by omega), if_neg (by omega), if_neg (by omega), if_neg (by omega)]
  · constructor
    · intro hall
      have := hall (screen_start + 3) (by omega) (by omega)
      omega
    · intro hle a h1 h2
      omega

/-- Instance of `vidmap_spec`: the pointer `128 MiB` is accepted and the four bytes are
stored at `128 MiB .. 128 MiB + 3`; the null pointer is rejected. -/
theorem vidmap_spec_witness :
    vidmap demo_state 0 (fun _ => 255) 0 = (-1, demo_state, fun _ => 255) ∧
    (MB_128 ≤ MB_128 ∧ MB_128 < MB_132) ∧
    (vidmap demo_state 0 (fun _ => 255) MB_128).1 = 0 ∧
    (vidmap demo_state 0 (fun _ => 255) MB_128).2.2 (MB_128 + 2) = 64 ∧
    (vidmap demo_state 0 (fun _ => 255) MB_128).2.2 (MB_128 + 3) = 8 :=
  ⟨(vidmap_spec demo_state 0 (fun _ => 255) 0).1 (Or.inl rfl),
    ⟨by decide, by decide⟩,
    congrArg Prod.fst
      ((vidmap_spec demo_state 0 (fun _ => 255) MB_128).2 ⟨by decide, by decide⟩).1,
    ((vidmap_spec demo_state 0 (fun _ => 255) MB_128).2 ⟨by decide, by decide⟩).2.2.2.2.2.1,
    ((vidmap_spec demo_state 0 (fun _ => 255) MB_128).2 ⟨by decide, by decide⟩).2.2.2.2.2.2.1⟩

/-! ### The first `open` of a new process -/

/-- C4 as stated fails in its last sentence: in the demo state the memory under the PCB
of pid 1 holds a record whose descriptor 2 is in use; `execute` of the program `a`
enters the new process, which has opened nothing, and its first `open` returns 3. -/
theorem first_open_returns_three :
    (execute demo_state (some [97]) (fun _ => 0) 0 0).map
        (fun r => (r.1.entered, (r.2.terminals r.2.cur_terminal).pid,
          ((r.2.pcb_mem (r.2.terminals r.2.cur_terminal).pcb).file_array 2).flags,
          (sys_open r.2 (some [97])).1))
      = some (true, 1, 1, 3) := by
  decide

/-! ### `halt_extend` outside the conditions of its statement -/

/-- Directory slot 32 and `esp0` after `halt_extend` has handed the terminal back: both
are computed from the pid field of the parent PCB, whatever its value. -/
theorem halt_to_parent_paging (s : KState) (pcb : Nat) (status : Int) (parent q : Nat)
    (hparent : (s.pcb_mem pcb).parent = parent) (hq : (s.pcb_mem parent).pid = q) :
    (halt_to_parent s pcb status).2.page_directory USER_PAGE
      = (paging_syscall s (to_int32 q)).page_directory USER_PAGE ∧
    (halt_to_parent s pcb status).2.tss_esp0
      = to_uint32 ((MB_8 : Int) - (KB_8 : Int) * to_int32 q - 4) := by
  obtain ⟨_, n2, _, _, _, _⟩ := modify_pcb_child_fields s parent 0 parent
  rw [hq] at n2
  constructor
  · simp only [halt_to_parent, hparent, n2, paging_syscall, Function.update_same]
  · simp only [halt_to_parent, hparent, n2, paging_syscall]

/-- The run `terminal_init`, `execute` of the shell, `execute` by the shell of the
program `a` with the 36-byte argument of `long_args_command`, `execute` of `a` by that
program, `halt` of the last process.  Before the `halt` terminal 0 runs three processes,
the halting process has pid 2, its PCB names terminal 0 and its parent is the PCB of
pid 1, whose pid field the argument has overwritten with `2 ^ 32 - 1`.  After the
`halt` the terminal holds that value as its pid, directory slot 32 maps the frame at
4 MiB and `esp0` is `8 MiB + 8 KiB - 4`. -/
theorem long_args_halt_run :
    ∃ r1 r2 r3 r4,
      execute (terminal_init boot_state) (some [115, 104, 101, 108, 108]) (fun _ => 0) 0 0
        = some r1 ∧
      execute r1.2 (some long_args_command) (fun _ => 0) 0 0 = some r2 ∧
      execute r2.2 (some [97]) (fun _ => 0) 0 0 = some r3 ∧
      halt_extend r3.2 0 (fun _ => 0) 0 0 = some r4 ∧
      ((r2.2.terminals 0).pid, (r2.2.terminals 0).pcb) = (1, 0x7FC000) ∧
      r3.2.cur_terminal = 0 ∧
      ((r3.2.terminals 0).running_processes, (r3.2.terminals 0).pid) = (3, 2) ∧
      (r3.2.pcb_mem (r3.2.terminals 0).pcb).tid = 0 ∧
      (r3.2.pcb_mem (r3.2.terminals 0).pcb).parent = 0x7FC000 ∧
      (r3.2.pcb_mem 0x7FC000).pid = 4294967295 ∧
      r4.1 = .returned_to_parent 0 0x7FC000 ∧
      (r4.2.terminals 0).pid = 4294967295 ∧
      r4.2.page_directory USER_PAGE = MB_4 + 135 ∧
      r4.2.tss_esp0 = MB_8 + KB_8 - 4 := by
  have hp := long_args_prefix
  cases h1 : execute (terminal_init boot_state) (some [115, 104, 101, 108, 108]) (fun _ => 0) 0 0 with
  | none =>
    rw [h1] at hp
    simp at hp
  | some r1 =>
    rw [h1] at hp
    simp only [Option.some_bind] at hp
    cases h2 : execute r1.2 (some long_args_command) (fun _ => 0) 0 0 with
    | none =>
      rw [h2] at hp
      simp at hp
    | some r2 =>
      rw [h2] at hp
      simp only [Option.map_some', Option.some.injEq, Prod.mk.injEq, Bool.and_eq_true,
        List.cons.injEq, and_true] at hp
      obtain ⟨⟨d1, d4⟩, ⟨d2, d3, d5, d6, d7, d8, d9⟩, d10, d11⟩ := hp
      have hparse : execute_parse [97] = some ([97], []) := by decide
      have hpid2 : (r2.2.terminals r2.2.cur_terminal).pid ≠ 4294967295 := by
        rw [d5, d7]
        decide
      obtain ⟨eip, s3, h3⟩ := execute_succeeds r2.2 [97] [97] [] (fun _ => 0) 0 0 hparse d11
        (by rw [d10]; decide)
      obtain ⟨e1, e2, e3, e4, e5, e6, e7⟩ := execute_links r2.2 [97] [97] [] (fun _ => 0) 0 0
        eip 2 s3 h3 hparse (by decide) hpid2 d10
      rw [d5] at e1 e2 e3 e4 e5 e6
      rw [d6] at e4
      rw [d8] at e5
      have hB : (s3.pcb_mem 0x7FC000).pid = 4294967295 := by
        rw [e7 0x7FC000 (by decide), d9]
      have hp6 : (s3.terminals s3.cur_terminal).pid < 6 := by
        rw [e1, e3]
        decide
      have htid : (s3.pcb_mem (s3.terminals s3.cur_terminal).pcb).tid = s3.cur_terminal := by
        rw [e1, e2, e6]
      obtain ⟨_, _, _, q4, _, _, _, q8, _, _, _⟩ := halt_release_spec s3 hp6 htid
      rw [e1] at q4
      have htid4 : ((halt_release s3).pcb_mem (MB_8 - KB_8 * (2 + 1))).tid = 0 := by
        rw [(q8 _).2.1, e6]
      have hbranch : ¬ ((halt_release s3).terminals
          ((halt_release s3).pcb_mem (s3.terminals s3.cur_terminal).pcb).tid).running_processes
            = 0 := by
        rw [e1, e2, htid4, q4, e4]
        decide
      obtain ⟨t1, t2, _⟩ := halt_to_parent_terminal (halt_release s3) (MB_8 - KB_8 * (2 + 1)) 0 0
        0x7FC000 4294967295 htid4 (by rw [(q8 _).2.2, e5]) (by rw [(q8 _).1, hB]) (by decide)
      obtain ⟨u1, u2⟩ := halt_to_parent_paging (halt_release s3) (MB_8 - KB_8 * (2 + 1)) 0
        0x7FC000 4294967295 (by rw [(q8 _).2.2, e5]) (by rw [(q8 _).1, hB])
      have h4 : halt_extend s3 0 (fun _ => 0) 0 0
          = some (halt_to_parent (halt_release s3) (MB_8 - KB_8 * (2 + 1)) 0) := by
        unfold halt_extend
        dsimp only
        rw [if_neg hbranch, e1, e2]
      refine ⟨r1, r2, (.entered_user eip, s3), _, rfl, h2, h3, h4, ?_, e1, ?_, ?_, ?_, hB, t1, t2,
        ?_, ?_⟩
      · rw [d7, d8]
      · rw [e3, e4]
      · show (s3.pcb_mem (s3.terminals 0).pcb).tid = 0
        rw [e2, e6]
      · show (s3.pcb_mem (s3.terminals 0).pcb).parent = 0x7FC000
        rw [e2, e5]
      · rw [u1]
        simp only [paging_syscall, Function.update_same]
        decide
      · rw [u2]
        decide

/-- The state that `halt_extend` reaches before it tests `running_processes`, for a
PCB whose tid field holds `T`: the count that is decremented is that of terminal `T`,
whichever terminal is current. -/
theorem halt_release_stray (s : KState) (T : Nat)
    (hp6 : (s.terminals s.cur_terminal).pid < 6)
    (htid : (s.pcb_mem (s.terminals s.cur_terminal).pcb).tid = T) :
    (halt_release s).terminals
      = Function.update s.terminals T
          { s.terminals T with
            running_processes := ((s.terminals T).running_processes + 255) % 256 } ∧
    (∀ a, ((halt_release s).pcb_mem a).pid = (s.pcb_mem a).pid ∧
      ((halt_release s).pcb_mem a).tid = (s.pcb_mem a).tid ∧
      ((halt_release s).pcb_mem a).parent = (s.pcb_mem a).parent) := by
  have hint : to_int32 (s.terminals s.cur_terminal).pid
      = ((s.terminals s.cur_terminal).pid : Int) := by
    unfold to_int32 WORD
    split <;> omega
  obtain ⟨f1, _, _⟩ := halt_close_fds_spec FDA_SIZE
    { s with pid_status := Function.update s.pid_status (s.terminals s.cur_terminal).pid (-1) } 0
  dsimp only at f1
  obtain ⟨_, _, _, _, c5, _, _, _, c9⟩ := f1
  dsimp only at c5 c9
  have hrel : halt_release s
      = { (halt_close_fds
            { s with pid_status := Function.update s.pid_status (s.terminals s.cur_terminal).pid (-1) }
            (s.terminals s.cur_terminal).pcb FDA_SIZE 0).modify_pcb (s.terminals s.cur_terminal).pcb
              halt_clear_args with
          terminals := Function.update s.terminals T
            { s.terminals T with
              running_processes := ((s.terminals T).running_processes + 255) % 256 } } := by
    unfold halt_release
    simp only [hint, Int.natCast_nonneg, if_true, Int.toNat_ofNat]
    have ht : (((halt_close_fds
        { s with pid_status := Function.update s.pid_status (s.terminals s.cur_terminal).pid (-1) }
        (s.terminals s.cur_terminal).pcb FDA_SIZE 0).modify_pcb (s.terminals s.cur_terminal).pcb
          halt_clear_args).pcb_mem (s.terminals s.cur_terminal).pcb).tid = T := by
      simp only [KState.modify_pcb, Function.update_same, halt_clear_args]
      rw [(c9 _).2.1]
      exact htid
    rw [ht]
    simp only [KState.modify_pcb, c5]
  rw [hrel]
  refine ⟨rfl, ?_⟩
  intro a
  by_cases ha : a = (s.terminals s.cur_terminal).pcb
  · subst ha
    simp only [KState.modify_pcb, Function.update_same, halt_clear_args]
    exact ⟨(c9 _).1, (c9 _).2.1, (c9 _).2.2.1⟩
  · simp only [KState.modify_pcb, Function.update_noteq ha]
    exact ⟨(c9 _).1, (c9 _).2.1, (c9 _).2.2.1⟩

/-- A `halt` of a process whose PCB names a terminal `T` other than the current one,
where terminal `T` runs at least two processes: the record of the current terminal is
left as it was and the count of terminal `T` is decremented. -/
theorem halt_extend_stray (s : KState) (status : Int) (ELF_chars : Buffer) (esp ebp : Nat)
    (T parent q : Nat) (hp6 : (s.terminals s.cur_terminal).pid < 6)
    (htid : (s.pcb_mem (s.terminals s.cur_terminal).pcb).tid = T) (hT : T ≠ s.cur_terminal)
    (hrp : 2 ≤ (s.terminals T).running_processes)
    (hrp256 : (s.terminals T).running_processes < 256)
    (hparent : (s.pcb_mem (s.terminals s.cur_terminal).pcb).parent = parent)
    (hq : (s.pcb_mem parent).pid = q) (hq6 : q < 1022) :
    ∃ s2, halt_extend s status ELF_chars esp ebp
        = some (.returned_to_parent status parent, s2) ∧
      s2.terminals s.cur_terminal = s.terminals s.cur_terminal ∧
      (s2.terminals T).running_processes = (s.terminals T).running_processes - 1 := by
  obtain ⟨r1, r2⟩ := halt_release_stray s T hp6 htid
  have htid4 : ((halt_release s).pcb_mem (s.terminals s.cur_terminal).pcb).tid = T := by
    rw [(r2 _).2.1, htid]
  have hcount : ((halt_release s).terminals T).running_processes
      = ((s.terminals T).running_processes + 255) % 256 := by
    rw [r1, Function.update_same]
  have hbranch : ¬ ((halt_release s).terminals
      ((halt_release s).pcb_mem (s.terminals s.cur_terminal).pcb).tid).running_processes = 0 := by
    rw [htid4, hcount]
    omega
  obtain ⟨t1, _, _, t4, t5, _⟩ :=
    halt_to_parent_spec (halt_release s) (s.terminals s.cur_terminal).pcb status T
      parent q htid4 (by rw [(r2 _).2.2, hparent]) (by rw [(r2 _).1, hq]) hq6
  refine ⟨(halt_to_parent (halt_release s) (s.terminals s.cur_terminal).pcb status).2, ?_, ?_, ?_⟩
  · unfold halt_extend
    dsimp only
    rw [if_neg hbranch]
    exact congrArg some (Prod.ext t1 rfl)
  · rw [t5 _ hT.symm, r1, Function.update_noteq hT.symm]
  · rw [t4, hcount]
    omega

/-- The shell of terminal 1 starts `a` with the 36-byte argument in
`second_terminal_state`: the state that `execute` leaves, evaluated. -/
theorem second_terminal_execute :
    (execute second_terminal_state (some long_args_command) (fun _ => 0) 0 0).map
        (fun r => (r.1.entered,
            [r.2.cur_terminal, (r.2.terminals 1).running_processes, (r.2.terminals 1).pid,
              (r.2.terminals 1).pcb, (r.2.pcb_mem (r.2.terminals 1).pcb).tid,
              (r.2.pcb_mem (r.2.terminals 1).pcb).parent, (r.2.pcb_mem 0x7FC000).pid,
              (r.2.terminals 0).running_processes]))
      = some (true, [1, 2, 3, 0x7F8000, 0, 0x7FC000, 1, 2]) := by
  decide

/-- The run `execute` of `a` with the 36-byte argument by the shell of terminal 1 in
`second_terminal_state`, then `halt` of the new process.  The terminator of the
argument clears the low byte of the tid field, so the PCB of the new process (pid 3)
names terminal 0.  Before the `halt` terminal 1 runs two processes and terminal 0 two;
after it terminal 1 still counts two processes and holds pid 3, and terminal 0 counts
one. -/
theorem stray_tid_halt_run :
    ∃ r h,
      execute second_terminal_state (some long_args_command) (fun _ => 0) 0 0 = some r ∧
      halt_extend r.2 0 (fun _ => 0) 0 0 = some h ∧
      r.1.entered = true ∧ r.2.cur_terminal = 1 ∧
      ((r.2.terminals 1).running_processes, (r.2.terminals 1).pid) = (2, 3) ∧
      (r.2.pcb_mem (r.2.terminals 1).pcb).tid = 0 ∧
      (r.2.terminals 0).running_processes = 2 ∧
      h.1 = .returned_to_parent 0 0x7FC000 ∧
      ((h.2.terminals 1).running_processes, (h.2.terminals 1).pid) = (2, 3) ∧
      (h.2.terminals 0).running_processes = 1 := by
  have hp := second_terminal_execute
  cases h1 : execute second_terminal_state (some long_args_command) (fun _ => 0) 0 0 with
  | none =>
    rw [h1] at hp
    simp at hp
  | some r =>
    rw [h1] at hp
    simp only [Option.map_some', Option.some.injEq, Prod.mk.injEq, List.cons.injEq,
      and_true] at hp
    obtain ⟨d0, d1, d2, d3, d4, d5, d6, d7, d8⟩ := hp
    obtain ⟨s2, g1, g2, g3⟩ := halt_extend_stray r.2 0 (fun _ => 0) 0 0 0 0x7FC000 1
      (by rw [d1, d3]; decide) (by rw [d1]; exact d5) (by rw [d1]; decide)
      (by rw [d8]) (by rw [d8]; decide) (by rw [d1]; exact d6) d7 (by decide)
    rw [d1] at g2
    refine ⟨r, _, rfl, g1, d0, d1, ?_, d5, d8, rfl, ?_, ?_⟩
    · rw [d2, d3]
    · show ((s2.terminals 1).running_processes, (s2.terminals 1).pid) = (2, 3)
      rw [g2, d2, d3]
    · show (s2.terminals 0).running_processes = 1
      rw [g3, d8]

/-- C13 as stated fails, in three ways.  (1) In `child_state` the terminal runs two
processes and descriptor 2 of the halting process is in use with a null close pointer;
after `halt_extend` has resumed the parent, descriptor 2 of the halted PCB is still in
use, while descriptor 3, open on a regular file, is unused.  (2) On the run of
`long_args_halt_run` the parent of the halting process is the process of pid 1, whose
PCB the 36-byte argument left with the pid field `2 ^ 32 - 1`; after the `halt` the
terminal's pid is that value, not 1, directory slot 32 maps the frame at 4 MiB, not
`8 MiB + 1 * 4 MiB`, and `esp0` is `8 MiB + 8 KiB - 4`.  (3) In
`second_terminal_state` the shell of terminal 1 starts `a` with the 36-byte argument,
whose terminator clears the low byte of the tid field, so the new PCB names terminal 0;
when this process (pid 3, terminal 1 running two processes) halts, terminal 1 still
counts two processes and holds pid 3, and the count of terminal 0 has gone from 2 to
1. -/
theorem halt_extend_claim_fails :
    ((child_state.terminals child_state.cur_terminal).running_processes = 2 ∧
      (halt_extend child_state 0 (fun _ => 0) 0 0).map
          (fun r => (r.1, (r.2.terminals 0).pid, (r.2.terminals 0).pcb,
            (r.2.terminals 0).running_processes,
            ((r.2.pcb_mem 0x7FC000).file_array 2).flags,
            ((r.2.pcb_mem 0x7FC000).file_array 3).flags))
        = some (.returned_to_parent 0 0x7FE000, 0, 0x7FE000, 1, 1, 0)) ∧
    (∃ r1 r2 r3 r4,
      execute (terminal_init boot_state) (some [115, 104, 101, 108, 108]) (fun _ => 0) 0 0
        = some r1 ∧
      execute r1.2 (some long_args_command) (fun _ => 0) 0 0 = some r2 ∧
      execute r2.2 (some [97]) (fun _ => 0) 0 0 = some r3 ∧
      halt_extend r3.2 0 (fun _ => 0) 0 0 = some r4 ∧
      ((r2.2.terminals 0).pid, (r2.2.terminals 0).pcb) = (1, 0x7FC000) ∧
      r3.2.cur_terminal = 0 ∧
      ((r3.2.terminals 0).running_processes, (r3.2.terminals 0).pid) = (3, 2) ∧
      (r3.2.pcb_mem (r3.2.terminals 0).pcb).tid = 0 ∧
      (r3.2.pcb_mem (r3.2.terminals 0).pcb).parent = 0x7FC000 ∧
      (r3.2.pcb_mem 0x7FC000).pid = 4294967295 ∧
      r4.1 = .returned_to_parent 0 0x7FC000 ∧
      (r4.2.terminals 0).pid = 4294967295 ∧
      r4.2.page_directory USER_PAGE = MB_4 + 135 ∧
      r4.2.tss_esp0 = MB_8 + KB_8 - 4) ∧
    (∃ r h,
      execute second_terminal_state (some long_args_command) (fun _ => 0) 0 0 = some r ∧
      halt_extend r.2 0 (fun _ => 0) 0 0 = some h ∧
      r.1.entered = true ∧ r.2.cur_terminal = 1 ∧
      ((r.2.terminals 1).running_processes, (r.2.terminals 1).pid) = (2, 3) ∧
      (r.2.pcb_mem (r.2.terminals 1).pcb).tid = 0 ∧
      (r.2.terminals 0).running_processes = 2 ∧
      h.1 = .returned_to_parent 0 0x7FC000 ∧
      ((h.2.terminals 1).running_processes, (h.2.terminals 1).pid) = (2, 3) ∧
      (h.2.terminals 0).running_processes = 1) := by
  exact ⟨⟨by decide, by decide⟩, long_args_halt_run, stray_tid_halt_run⟩

end Kernel
